import Mathlib

/-!
Verification of the go-uml / godot-uml PlantUML-to-SVG pipeline.

Shallow embedding of the repository's Go sources into Lean 4:
Go strings are modelled as Lean `String` (or `List Char` where the code
walks runes one at a time), Go byte slices as `List Nat` with values
below 256, Go `float64` arithmetic as exact rational arithmetic (`ℚ`),
Go `int` as `Int` (with explicit 64-bit wrap-around where an overflow
could occur), and Go maps as functions into `Option`.
-/

set_option maxHeartbeats 1000000

namespace GoUml

/-! ### Go `strings` package primitives

`goStartsWith`, `goEndsWith`, `goContains` model `strings.HasPrefix`,
`strings.HasSuffix` and `strings.Contains` on the underlying character
lists.  `goTrimLeftChars`/`goTrimRightChars` model `strings.TrimLeft` /
`strings.TrimRight` with a cutset. -/

def listStartsWith [DecidableEq α] : List α → List α → Bool
  | [], _ => true
  | _ :: _, [] => false
  | p :: ps, c :: cs => p = c && listStartsWith ps cs

def listEndsWith [DecidableEq α] (p l : List α) : Bool :=
  listStartsWith p.reverse l.reverse

def listContains [DecidableEq α] (sub : List α) : List α → Bool
  | [] => listStartsWith sub []
  | c :: cs => listStartsWith sub (c :: cs) || listContains sub cs

def goStartsWith (s pre : String) : Bool := listStartsWith pre.data s.data

def goEndsWith (s suf : String) : Bool := listEndsWith suf.data s.data

def goContains (s sub : String) : Bool := listContains sub.data s.data

theorem listStartsWith_iff [DecidableEq α] (p l : List α) :
    listStartsWith p l = true ↔ p <+: l := by
  induction p generalizing l with
  | nil => simp [listStartsWith]
  | cons a as ih =>
    cases l with
    | nil => simp [listStartsWith]
    | cons b bs =>
      simp only [listStartsWith, Bool.and_eq_true, decide_eq_true_eq, ih,
        List.cons_prefix_cons]

theorem listEndsWith_iff [DecidableEq α] (p l : List α) :
    listEndsWith p l = true ↔ p <:+ l := by
  rw [listEndsWith, listStartsWith_iff, List.reverse_prefix]

theorem listContains_iff [DecidableEq α] (sub l : List α) :
    listContains sub l = true ↔ sub <:+: l := by
  induction l with
  | nil =>
    simp only [listContains, listStartsWith_iff, List.prefix_nil,
      List.infix_nil]
  | cons c cs ih =>
    simp only [listContains, Bool.or_eq_true, listStartsWith_iff, ih,
      List.infix_cons_iff]

theorem goStartsWith_iff (s pre : String) :
    goStartsWith s pre = true ↔ pre.data <+: s.data :=
  listStartsWith_iff _ _

theorem goEndsWith_iff (s suf : String) :
    goEndsWith s suf = true ↔ suf.data <:+ s.data :=
  listEndsWith_iff _ _

theorem goContains_iff (s sub : String) :
    goContains s sub = true ↔ sub.data <:+: s.data :=
  listContains_iff _ _

end GoUml

namespace GoUml

/-! ### AST (internal/ast)

Statement and member node types, translated from the `ast` package.
Pointers/interfaces become inductive constructors; `ElsePart` is mutual
with `Stmt` because fragments nest statement lists. -/

/-- `lexer.Pos`: 1-based source position (zero value is `(0, 0)`). -/
structure Pos where
  line : Nat
  column : Nat
deriving DecidableEq, Repr

inductive Visibility where
  | none | public | private' | protected' | package'
deriving DecidableEq, Repr

inductive Modifier where
  | none | static | field | method
deriving DecidableEq, Repr

inductive RelationshipType where
  | association | dependency | inheritance | realization | composition
  | aggregation
deriving DecidableEq, Repr

inductive ArrowDirection where
  | left | right | both | none
deriving DecidableEq, Repr

inductive ParticipantKind where
  | default | actor | boundary | control | entity | database | collections
  | queue
deriving DecidableEq, Repr

inductive FragmentKind where
  | alt | loop | par | break' | ref | group
deriving DecidableEq, Repr

inductive NotePosition where
  | left | right | over
deriving DecidableEq, Repr

/-- `ast.Member`: class/interface/enum member (field or method). -/
inductive Member where
  | field (pos : Pos) (name type : String) (visibility : Visibility)
      (modifier : Modifier)
  | method (pos : Pos) (name params returnType : String)
      (visibility : Visibility) (modifier : Modifier)
deriving DecidableEq, Repr

mutual

/-- `ast.Statement`: the closed statement variant. -/
inductive Stmt where
  | comment (pos : Pos) (text : String)
  | classDef (pos : Pos) (name alias' stereotype : String) (abstract : Bool)
      (members : List Member)
  | interfaceDef (pos : Pos) (name alias' stereotype : String)
      (members : List Member)
  | enumDef (pos : Pos) (name stereotype : String) (members : List Member)
  | relationship (pos : Pos) (left right : String)
      (type : RelationshipType) (direction : ArrowDirection)
      (label leftCard rightCard arrow : String)
  | pkg (pos : Pos) (name alias' : String) (statements : List Stmt)
      (isNamespace : Bool)
  | note (pos : Pos) (placement : NotePosition) (target text : String)
  | skinparam (pos : Pos) (name value : String)
  | hideShow (pos : Pos) (isHide : Bool) (target : String)
  | participant (pos : Pos) (name alias' : String) (kind : ParticipantKind)
  | message (pos : Pos) (from' to' label arrow : String) (dashed : Bool)
  | fragment (pos : Pos) (kind : FragmentKind) (condition : String)
      (statements : List Stmt) (elseParts : List ElseP)
  | activate (pos : Pos) (target : String) (deactivate : Bool)
  | ret (pos : Pos) (label : String)
  | autonumber (pos : Pos) (start : String)
  | divider (pos : Pos) (text : String)
  | delay (pos : Pos) (text : String)

/-- `ast.ElsePart`: an `else` clause inside a fragment. -/
inductive ElseP where
  | mk (pos : Pos) (condition : String) (statements : List Stmt)

end

/-- `ast.Diagram`: the AST root. -/
structure Diagram where
  pos : Pos := ⟨0, 0⟩
  name : String := ""
  title : String := ""
  header : String := ""
  footer : String := ""
  statements : List Stmt := []

end GoUml

namespace GoUml

/-! ### Public facade dispatch (`pkg/gouml`)

`isSequenceDiagram` and the renderer selection made by `RenderDiagram`. -/

/-- `gouml.isSequenceDiagram`: inspects the AST to determine whether the
diagram is a sequence diagram. -/
def isSequenceDiagram (d : Diagram) : Bool :=
  d.statements.any fun stmt =>
    match stmt with
    | .participant .. | .message .. | .fragment .. | .activate ..
    | .autonumber .. | .divider .. | .delay .. => true
    | _ => false

inductive RendererKind where
  | sequence
  | classDiagram
deriving DecidableEq, Repr

/-- The renderer chosen by `gouml.RenderDiagram`: the sequence renderer
when `isSequenceDiagram` holds, the class renderer otherwise. -/
def renderDiagramKind (d : Diagram) : RendererKind :=
  if isSequenceDiagram d then .sequence else .classDiagram

/-- Specification-side predicate: the statement is one of the seven
sequence markers named by the spec (Participant, Message, Fragment,
Activate, Autonumber, Divider, Delay). -/
def SeqMarker (s : Stmt) : Prop :=
  (∃ p n a k, s = .participant p n a k) ∨
  (∃ p f t l ar ds, s = .message p f t l ar ds) ∨
  (∃ p k c b e, s = .fragment p k c b e) ∨
  (∃ p t dv, s = .activate p t dv) ∨
  (∃ p st, s = .autonumber p st) ∨
  (∃ p t, s = .divider p t) ∨
  (∃ p t, s = .delay p t)

theorem seqMarker_iff (s : Stmt) :
    (match s with
      | .participant .. | .message .. | .fragment .. | .activate ..
      | .autonumber .. | .divider .. | .delay .. => true
      | _ => false) = true ↔ SeqMarker s := by
  cases s <;> simp [SeqMarker]

end GoUml

namespace GoUml

/-! ### Arrow classification (`internal/parser`, `classifyArrow` /
`arrowDirection`)

`classifyArrow` determines the relationship type and direction from an
arrow literal.  Go's `len` on a string is its byte length, modelled by
`String.utf8ByteSize`. -/

/-- `parser.arrowDirection`. -/
def arrowDirection (arrow : String) : ArrowDirection :=
  let hasLeft := goStartsWith arrow "<"
  let hasRight := goEndsWith arrow ">" || goEndsWith arrow "|>"
  if hasLeft && hasRight then .both
  else if hasLeft then .left
  else if hasRight then .right
  else .none

/-- `parser.classifyArrow`. -/
def classifyArrow (arrow : String) : RelationshipType × ArrowDirection :=
  let dir := arrowDirection arrow
  if goContains arrow "|>" || goContains arrow "<|" then
    if goContains arrow ".." then (.realization, dir)
    else (.inheritance, dir)
  else if goEndsWith arrow "*" || goStartsWith arrow "*" then
    (.composition, dir)
  else if (goEndsWith arrow "o" && decide (arrow.utf8ByteSize > 1)) ||
      goStartsWith arrow "o" then
    (.aggregation, dir)
  else if goContains arrow ".." then (.dependency, dir)
  else if goContains arrow ">" || goContains arrow "<" then
    (.association, dir)
  else (.association, dir)

theorem goContains_eq_decide (s sub : String) :
    goContains s sub = decide (sub.data <:+: s.data) := by
  have h := goContains_iff s sub
  cases hb : goContains s sub
  · rw [hb] at h
    simp only [Bool.false_eq_true, false_iff] at h
    simp [h]
  · rw [hb] at h
    simp only [true_iff] at h
    simp [h]

theorem goStartsWith_eq_decide (s pre : String) :
    goStartsWith s pre = decide (pre.data <+: s.data) := by
  have h := goStartsWith_iff s pre
  cases hb : goStartsWith s pre
  · rw [hb] at h
    simp only [Bool.false_eq_true, false_iff] at h
    simp [h]
  · rw [hb] at h
    simp only [true_iff] at h
    simp [h]

theorem goEndsWith_eq_decide (s suf : String) :
    goEndsWith s suf = decide (suf.data <:+ s.data) := by
  have h := goEndsWith_iff s suf
  cases hb : goEndsWith s suf
  · rw [hb] at h
    simp only [Bool.false_eq_true, false_iff] at h
    simp [h]
  · rw [hb] at h
    simp only [true_iff] at h
    simp [h]

/-- Specification-side arrow type, written from the spec's words:
Inheritance when the literal contains `|>` or `<|` (Realization when it
also contains `..`), else Composition when it starts or ends with `*`,
else Aggregation when it starts with `o`, or ends with `o` with length
greater than one, else Dependency when it contains `..`, else
Association when it contains `>` or `<`, else Association. -/
def specArrowType (a : String) : RelationshipType :=
  if ("|>").data <:+: a.data ∨ ("<|").data <:+: a.data then
    if ("..").data <:+: a.data then .realization else .inheritance
  else if ("*").data <:+ a.data ∨ ("*").data <+: a.data then .composition
  else if (("o").data <:+ a.data ∧ a.utf8ByteSize > 1) ∨
      ("o").data <+: a.data then .aggregation
  else if ("..").data <:+: a.data then .dependency
  else if (">").data <:+: a.data ∨ ("<").data <:+: a.data then .association
  else .association

/-- Specification-side arrow direction, from the spec's words:
has-left iff a leading `<`; has-right iff a trailing `>` or `|>`. -/
def specArrowDir (a : String) : ArrowDirection :=
  if ("<").data <+: a.data ∧ ((">").data <:+ a.data ∨ ("|>").data <:+ a.data)
    then .both
  else if ("<").data <+: a.data then .left
  else if (">").data <:+ a.data ∨ ("|>").data <:+ a.data then .right
  else .none

end GoUml

namespace GoUml

/-- C6: for every arrow literal, the parsed relationship type and
direction are exactly the spec's case analysis: direction has-left iff
the literal starts with `<` and has-right iff it ends with `>` or `|>`;
type is Inheritance when the literal contains `|>` or `<|` (Realization
when it also contains `..`), else Composition when it starts or ends
with `*`, else Aggregation when it starts with `o` or ends with `o`
with length > 1, else Dependency when it contains `..`, else
Association. -/
theorem classifyArrow_spec (a : String) :
    classifyArrow a = (specArrowType a, specArrowDir a) := by
  unfold classifyArrow arrowDirection specArrowType specArrowDir
  simp only [goContains_eq_decide, goStartsWith_eq_decide,
    goEndsWith_eq_decide, Bool.or_eq_true, Bool.and_eq_true,
    decide_eq_true_eq]
  split_ifs <;> simp_all

end GoUml

namespace GoUml

/-- C3: `RenderDiagram` dispatches to the sequence renderer exactly when
some top-level statement is a Participant, Message, Fragment, Activate,
Autonumber, Divider, or Delay; a diagram with zero top-level statements,
or one containing only relationships, goes to the class renderer. -/
theorem renderDiagramKind_spec (d : Diagram) :
    (renderDiagramKind d = .sequence ↔ ∃ s ∈ d.statements, SeqMarker s) ∧
    (d.statements = [] → renderDiagramKind d = .classDiagram) ∧
    ((∀ s ∈ d.statements, ∃ p l r t dir lb lc rc ar,
        s = .relationship p l r t dir lb lc rc ar) →
      renderDiagramKind d = .classDiagram) := by
  have hiff : isSequenceDiagram d = true ↔ ∃ s ∈ d.statements, SeqMarker s := by
    unfold isSequenceDiagram
    rw [List.any_eq_true]
    constructor
    · rintro ⟨s, hs, hmark⟩
      exact ⟨s, hs, (seqMarker_iff s).mp hmark⟩
    · rintro ⟨s, hs, hmark⟩
      exact ⟨s, hs, (seqMarker_iff s).mpr hmark⟩
  refine ⟨?_, ?_, ?_⟩
  · unfold renderDiagramKind
    constructor
    · intro h
      by_cases hb : isSequenceDiagram d
      · exact hiff.mp hb
      · simp [hb] at h
    · intro h
      rw [hiff.mpr h]
      rfl
  · intro h
    unfold renderDiagramKind isSequenceDiagram
    rw [h]
    rfl
  · intro h
    unfold renderDiagramKind
    have hb : isSequenceDiagram d = false := by
      by_cases hb : isSequenceDiagram d
      · exfalso
        obtain ⟨s, hs, hmark⟩ := hiff.mp hb
        obtain ⟨p, l, r, t, dir, lb, lc, rc, ar, rfl⟩ := h s hs
        simp [SeqMarker] at hmark
      · simpa using hb
    rw [hb]
    rfl

/-- Witness for C3: a diagram containing only `Foo --> Bar` dispatches
to the class renderer. -/
theorem renderDiagramKind_spec_w :
    renderDiagramKind
      { statements := [.relationship ⟨1, 1⟩ "Foo" "Bar" .association
          .right "" "" "" "-->"] } = .classDiagram := by
  refine (renderDiagramKind_spec _).2.2 ?_
  intro s hs
  simp only [List.mem_singleton] at hs
  subst hs
  exact ⟨_, _, _, _, _, _, _, _, _, rfl⟩

end GoUml

namespace GoUml

/-! ### Theme & skinparam resolver (`internal/theme`)

`Theme`, the Darcula default, the hardcoded fallback, and the
`Resolver` with its `ResolveColor` / `ResolveInt` chain.  Go `int` is
modelled as `Int`; `atoiOr` wraps at 64 bits exactly where Go's
arithmetic would. -/

structure Theme where
  BackgroundColor : String := ""
  FontName : String := ""
  FontSize : Int := 0
  FontColor : String := ""
  ClassBackgroundColor : String := ""
  ClassBorderColor : String := ""
  ClassFontColor : String := ""
  ClassFontSize : Int := 0
  ClassStereotypeFontColor : String := ""
  InterfaceBackgroundColor : String := ""
  InterfaceBorderColor : String := ""
  InterfaceFontColor : String := ""
  EnumBackgroundColor : String := ""
  EnumBorderColor : String := ""
  EnumFontColor : String := ""
  ArrowColor : String := ""
  ArrowFontSize : Int := 0
  NoteBackgroundColor : String := ""
  NoteBorderColor : String := ""
  NoteFontColor : String := ""
  ParticipantBackgroundColor : String := ""
  ParticipantBorderColor : String := ""
  ParticipantFontColor : String := ""
  SequenceLifeLineBorderColor : String := ""
  PackageBackgroundColor : String := ""
  PackageBorderColor : String := ""
  PackageFontColor : String := ""
  Padding : Int := 0
  ClassPadding : Int := 0
  NotePadding : Int := 0
  BorderWidth : Int := 0
  ArrowThickness : Int := 0
  AnnotationColor : String := ""
deriving DecidableEq, Repr

/-- `theme.Darcula`. -/
def darcula : Theme where
  BackgroundColor := "#2B2B2B"
  FontName := "DejaVu Sans"
  FontSize := 13
  FontColor := "#A9B7C6"
  ClassBackgroundColor := "#3C3F41"
  ClassBorderColor := "#555555"
  ClassFontColor := "#A9B7C6"
  ClassFontSize := 13
  ClassStereotypeFontColor := "#CC7832"
  InterfaceBackgroundColor := "#3C3F41"
  InterfaceBorderColor := "#555555"
  InterfaceFontColor := "#6897BB"
  EnumBackgroundColor := "#3C3F41"
  EnumBorderColor := "#555555"
  EnumFontColor := "#A9B7C6"
  ArrowColor := "#A9B7C6"
  ArrowFontSize := 11
  NoteBackgroundColor := "#4E5254"
  NoteBorderColor := "#555555"
  NoteFontColor := "#A9B7C6"
  ParticipantBackgroundColor := "#3C3F41"
  ParticipantBorderColor := "#555555"
  ParticipantFontColor := "#A9B7C6"
  SequenceLifeLineBorderColor := "#555555"
  PackageBackgroundColor := "#2B2B2B"
  PackageBorderColor := "#555555"
  PackageFontColor := "#A9B7C6"
  Padding := 10
  ClassPadding := 8
  NotePadding := 8
  BorderWidth := 1
  ArrowThickness := 1
  AnnotationColor := "#6A8759"

/-- `theme.hardcodedFallback`. -/
def hardcodedFallback : Theme where
  BackgroundColor := "#FFFFFF"
  FontName := "sans-serif"
  FontSize := 12
  FontColor := "#000000"
  ClassBackgroundColor := "#FEFECE"
  ClassBorderColor := "#A80036"
  ClassFontColor := "#000000"
  ClassFontSize := 12
  ClassStereotypeFontColor := "#000000"
  InterfaceBackgroundColor := "#FEFECE"
  InterfaceBorderColor := "#A80036"
  InterfaceFontColor := "#000000"
  EnumBackgroundColor := "#FEFECE"
  EnumBorderColor := "#A80036"
  EnumFontColor := "#000000"
  ArrowColor := "#000000"
  ArrowFontSize := 11
  NoteBackgroundColor := "#FBFB77"
  NoteBorderColor := "#A80036"
  NoteFontColor := "#000000"
  ParticipantBackgroundColor := "#FEFECE"
  ParticipantBorderColor := "#A80036"
  ParticipantFontColor := "#000000"
  SequenceLifeLineBorderColor := "#A80036"
  PackageBackgroundColor := "#FFFFFF"
  PackageBorderColor := "#000000"
  PackageFontColor := "#000000"
  Padding := 10
  ClassPadding := 8
  NotePadding := 8
  BorderWidth := 1
  ArrowThickness := 1
  AnnotationColor := "#000000"

/-- `theme.Resolver`: theme, fallback and the mutable skinparam map
(modelled as a function into `Option`). -/
structure Resolver where
  theme : Theme
  fallback : Theme
  skinparams : String → Option String

/-- `theme.NewResolver` (a `nil` theme argument selects Darcula). -/
def NewResolver (t : Option Theme) : Resolver where
  theme := t.getD darcula
  fallback := hardcodedFallback
  skinparams := fun _ => none

/-- `Resolver.SetSkinparam`. -/
def SetSkinparam (r : Resolver) (name value : String) : Resolver :=
  { r with skinparams := fun k => if k = name then some value
      else r.skinparams k }

/-- `theme.skinparamKeys`: internal property name to PlantUML-style
skinparam name. -/
def skinparamKeys : String → Option String
  | "BackgroundColor" => some "backgroundColor"
  | "FontName" => some "defaultFontName"
  | "FontSize" => some "defaultFontSize"
  | "FontColor" => some "defaultFontColor"
  | "ClassBackgroundColor" => some "classBackgroundColor"
  | "ClassBorderColor" => some "classBorderColor"
  | "ClassFontColor" => some "classFontColor"
  | "ClassFontSize" => some "classFontSize"
  | "ClassStereotypeFontColor" => some "classStereotypeFontColor"
  | "InterfaceBackgroundColor" => some "interfaceBackgroundColor"
  | "InterfaceBorderColor" => some "interfaceBorderColor"
  | "InterfaceFontColor" => some "interfaceFontColor"
  | "EnumBackgroundColor" => some "enumBackgroundColor"
  | "EnumBorderColor" => some "enumBorderColor"
  | "EnumFontColor" => some "enumFontColor"
  | "ArrowColor" => some "arrowColor"
  | "ArrowFontSize" => some "arrowFontSize"
  | "NoteBackgroundColor" => some "noteBackgroundColor"
  | "NoteBorderColor" => some "noteBorderColor"
  | "NoteFontColor" => some "noteFontColor"
  | "ParticipantBackgroundColor" => some "participantBackgroundColor"
  | "ParticipantBorderColor" => some "participantBorderColor"
  | "ParticipantFontColor" => some "participantFontColor"
  | "SequenceLifeLineBorderColor" => some "sequenceLifeLineBorderColor"
  | "PackageBackgroundColor" => some "packageBackgroundColor"
  | "PackageBorderColor" => some "packageBorderColor"
  | "PackageFontColor" => some "packageFontColor"
  | "AnnotationColor" => some "annotationColor"
  | _ => none

/-- `theme.fieldByName`: string-valued Theme field lookup ("" when the
name is not a string field). -/
def fieldByName (t : Theme) : String → String
  | "BackgroundColor" => t.BackgroundColor
  | "FontName" => t.FontName
  | "FontColor" => t.FontColor
  | "ClassBackgroundColor" => t.ClassBackgroundColor
  | "ClassBorderColor" => t.ClassBorderColor
  | "ClassFontColor" => t.ClassFontColor
  | "ClassStereotypeFontColor" => t.ClassStereotypeFontColor
  | "InterfaceBackgroundColor" => t.InterfaceBackgroundColor
  | "InterfaceBorderColor" => t.InterfaceBorderColor
  | "InterfaceFontColor" => t.InterfaceFontColor
  | "EnumBackgroundColor" => t.EnumBackgroundColor
  | "EnumBorderColor" => t.EnumBorderColor
  | "EnumFontColor" => t.EnumFontColor
  | "ArrowColor" => t.ArrowColor
  | "NoteBackgroundColor" => t.NoteBackgroundColor
  | "NoteBorderColor" => t.NoteBorderColor
  | "NoteFontColor" => t.NoteFontColor
  | "ParticipantBackgroundColor" => t.ParticipantBackgroundColor
  | "ParticipantBorderColor" => t.ParticipantBorderColor
  | "ParticipantFontColor" => t.ParticipantFontColor
  | "SequenceLifeLineBorderColor" => t.SequenceLifeLineBorderColor
  | "PackageBackgroundColor" => t.PackageBackgroundColor
  | "PackageBorderColor" => t.PackageBorderColor
  | "PackageFontColor" => t.PackageFontColor
  | "AnnotationColor" => t.AnnotationColor
  | _ => ""

/-- `theme.intFieldByName` (0 when the name is not an int field). -/
def intFieldByName (t : Theme) : String → Int
  | "FontSize" => t.FontSize
  | "ClassFontSize" => t.ClassFontSize
  | "ArrowFontSize" => t.ArrowFontSize
  | "Padding" => t.Padding
  | "ClassPadding" => t.ClassPadding
  | "NotePadding" => t.NotePadding
  | "BorderWidth" => t.BorderWidth
  | "ArrowThickness" => t.ArrowThickness
  | _ => 0

/-- Two's-complement 64-bit wrap-around of Go `int` arithmetic. -/
def wrap64 (z : Int) : Int := (z + 2 ^ 63) % 2 ^ 64 - 2 ^ 63

/-- The digit-accumulating loop of `theme.atoiOr`; `none` when a
non-digit character is hit. -/
def atoiDigits : List Char → Int → Option Int
  | [], n => some n
  | c :: cs, n =>
    if c < '0' ∨ c > '9' then none
    else atoiDigits cs (wrap64 (n * 10 + ((c.toNat : Int) - ('0'.toNat : Int))))

/-- `theme.atoiOr`: pure-digit accumulator returning the fallback on an
empty string or any non-digit character. -/
def atoiOr (s : String) (fallback : Int) : Int :=
  match atoiDigits s.data 0 with
  | none => fallback
  | some n => if s = "" then fallback else n

/-- `Resolver.ResolveColor`. -/
def ResolveColor (r : Resolver) (property : String) : String :=
  let afterSkin :=
    match r.skinparams property with
    | some v => v
    | none =>
      let tv := fieldByName r.theme property
      if tv ≠ "" then tv else fieldByName r.fallback property
  match skinparamKeys property with
  | some key =>
    match r.skinparams key with
    | some v => v
    | none => afterSkin
  | none => afterSkin

/-- `Resolver.ResolveInt`. -/
def ResolveInt (r : Resolver) (property : String) (fallback : Int) : Int :=
  let rest :=
    let tv := intFieldByName r.theme property
    if tv ≠ 0 then tv
    else
      let fv := intFieldByName r.fallback property
      if fv ≠ 0 then fv else fallback
  let afterSkin :=
    match r.skinparams property with
    | some v => atoiOr v fallback
    | none => rest
  match skinparamKeys property with
  | some key =>
    match r.skinparams key with
    | some v => atoiOr v fallback
    | none => afterSkin
  | none => afterSkin

end GoUml

namespace GoUml

theorem atoiDigits_of_bad (cs : List Char) (n : Int)
    (h : ∃ c ∈ cs, c < '0' ∨ c > '9') : atoiDigits cs n = none := by
  induction cs generalizing n with
  | nil => simp at h
  | cons c cs ih =>
    obtain ⟨d, hd, hbad⟩ := h
    unfold atoiDigits
    by_cases hc : c < '0' ∨ c > '9'
    · simp [hc]
    · simp only [hc, if_false]
      rcases List.mem_cons.mp hd with rfl | hd'
      · exact absurd hbad hc
      · exact ih _ ⟨d, hd', hbad⟩

/-- C5: `ResolveColor` and `ResolveInt` resolve through the fixed chain:
skinparam override matched first by the PlantUML-style external name,
failing that by the internal property name as a direct map key, then the
active theme's field if non-empty/non-zero, then the hardcoded fallback
theme's field, then (for integers) the caller-supplied default; a theme
or fallback integer field equal to 0 falls through, and a skinparam
integer value that is empty or contains a non-digit character yields the
caller's fallback. -/
theorem resolve_chain_spec (r : Resolver) (prop key v : String) (fb : Int) :
    (skinparamKeys prop = some key → r.skinparams key = some v →
      ResolveColor r prop = v ∧ ResolveInt r prop fb = atoiOr v fb) ∧
    ((∀ k, skinparamKeys prop = some k → r.skinparams k = none) →
      r.skinparams prop = some v →
      ResolveColor r prop = v ∧ ResolveInt r prop fb = atoiOr v fb) ∧
    ((∀ k, skinparamKeys prop = some k → r.skinparams k = none) →
      r.skinparams prop = none →
      (fieldByName r.theme prop ≠ "" →
        ResolveColor r prop = fieldByName r.theme prop) ∧
      (fieldByName r.theme prop = "" →
        ResolveColor r prop = fieldByName r.fallback prop) ∧
      (intFieldByName r.theme prop ≠ 0 →
        ResolveInt r prop fb = intFieldByName r.theme prop) ∧
      (intFieldByName r.theme prop = 0 →
        intFieldByName r.fallback prop ≠ 0 →
        ResolveInt r prop fb = intFieldByName r.fallback prop) ∧
      (intFieldByName r.theme prop = 0 →
        intFieldByName r.fallback prop = 0 →
        ResolveInt r prop fb = fb)) ∧
    ((v = "" ∨ ∃ c ∈ v.data, ¬('0' ≤ c ∧ c ≤ '9')) → atoiOr v fb = fb) := by
  refine ⟨?_, ?_, ?_, ?_⟩
  · intro hk hv
    constructor
    · simp only [ResolveColor, hk, hv]
    · simp only [ResolveInt, hk, hv]
  · intro hmiss hv
    rcases hkey : skinparamKeys prop with _ | k
    · constructor
      · simp only [ResolveColor, hkey, hv]
      · simp only [ResolveInt, hkey, hv]
    · have hk := hmiss k hkey
      constructor
      · simp only [ResolveColor, hkey, hk, hv]
      · simp only [ResolveInt, hkey, hk, hv]
  · intro hmiss hnone
    rcases hkey : skinparamKeys prop with _ | k
    · refine ⟨?_, ?_, ?_, ?_, ?_⟩
      · intro h1
        simp only [ResolveColor, hkey, hnone]
        simp [h1]
      · intro h1
        simp only [ResolveColor, hkey, hnone]
        simp [h1]
      · intro h1
        simp only [ResolveInt, hkey, hnone]
        simp [h1]
      · intro h1 h2
        simp only [ResolveInt, hkey, hnone]
        simp [h1, h2]
      · intro h1 h2
        simp only [ResolveInt, hkey, hnone]
        simp [h1, h2]
    · have hk := hmiss k hkey
      refine ⟨?_, ?_, ?_, ?_, ?_⟩
      · intro h1
        simp only [ResolveColor, hkey, hk, hnone]
        simp [h1]
      · intro h1
        simp only [ResolveColor, hkey, hk, hnone]
        simp [h1]
      · intro h1
        simp only [ResolveInt, hkey, hk, hnone]
        simp [h1]
      · intro h1 h2
        simp only [ResolveInt, hkey, hk, hnone]
        simp [h1, h2]
      · intro h1 h2
        simp only [ResolveInt, hkey, hk, hnone]
        simp [h1, h2]
  · intro hbad
    rcases hbad with rfl | hbad
    · rfl
    · unfold atoiOr
      rw [atoiDigits_of_bad]
      obtain ⟨c, hc, hb⟩ := hbad
      exact ⟨c, hc, by
        rcases not_and_or.mp hb with h | h
        · exact Or.inl (lt_of_not_le h)
        · exact Or.inr (lt_of_not_le h)⟩

/-- Witness for C5: with the Darcula theme, a
`classBackgroundColor → #112233` skinparam overrides the theme's
`#3C3F41`; without skinparams, `Padding` resolves to Darcula's 10. -/
theorem resolve_chain_spec_w :
    ResolveColor (SetSkinparam (NewResolver none) "classBackgroundColor"
      "#112233") "ClassBackgroundColor" = "#112233" ∧
    ResolveInt (NewResolver none) "Padding" 7 = 10 := by
  constructor
  · exact ((resolve_chain_spec (SetSkinparam (NewResolver none)
      "classBackgroundColor" "#112233") "ClassBackgroundColor"
      "classBackgroundColor" "#112233" 0).1 (by rfl) (by rfl)).1
  · have h := ((resolve_chain_spec (NewResolver none) "Padding" ""
      "" 7).2.2.1 (by intro k hk; cases hk) (by rfl)).2.2.1
    simpa using h (by decide)

end GoUml

namespace GoUml

/-! ### URL encoding codec (`internal/encoding`)

Byte slices are `List Nat` with entries below 256; Go's byte shifts
truncate modulo 256, written explicitly.  The raw-DEFLATE compressor
and decompressor are the vendored third-party capability (spec §6) and
appear as parameters `deflate` / `inflate`. -/

/-- The PlantUML custom base64 alphabet, order significant. -/
def alphabet : List Char :=
  "0123456789ABCDEFGHIJKLMNOPQRSTUVWXYZabcdefghijklmnopqrstuvwxyz-_".data

/-- `encoding.append4`: map three bytes into four alphabet symbols. -/
def append4 (b1 b2 b3 : Nat) : List Char :=
  let c1 := b1 >>> 2
  let c2 := (((b1 &&& 0x3) <<< 4) % 256) ||| (b2 >>> 4)
  let c3 := (((b2 &&& 0xF) <<< 2) % 256) ||| (b3 >>> 6)
  let c4 := b3 &&& 0x3F
  [alphabet.getD c1 '0', alphabet.getD c2 '0', alphabet.getD c3 '0',
    alphabet.getD c4 '0']

/-- `encoding.encode64`: three bytes at a time, a final partial group
padded with zero bytes. -/
def encode64 : List Nat → List Char
  | [] => []
  | [b1] => append4 b1 0 0
  | [b1, b2] => append4 b1 b2 0
  | b1 :: b2 :: b3 :: rest => append4 b1 b2 b3 ++ encode64 rest

/-- `strings.IndexByte` over the alphabet (`none` models `-1`). -/
def goIndexOf (l : List Char) (c : Char) : Option Nat :=
  match l with
  | [] => none
  | d :: ds =>
    if d = c then some 0
    else (goIndexOf ds c).map (· + 1)

/-- One slot of `decode64`'s `vals` array: the alphabet index of the
`j`-th chunk symbol, `0` when the chunk is shorter than four symbols,
or the invalid-character error carrying the symbol and its position. -/
def valAt (chunk : List Char) (i j : Nat) : Except (Char × Nat) Nat :=
  match chunk[j]? with
  | none => .ok 0
  | some c =>
    match goIndexOf alphabet c with
    | none => .error (c, i + j)
    | some idx => .ok idx

/-- The chunked loop of `encoding.decode64` (`i` is the position of the
current four-symbol chunk). -/
def decode64Loop : List Char → Nat → Except (Char × Nat) (List Nat)
  | [], _ => .ok []
  | c :: cs, i => do
    let chunk := (c :: cs).take 4
    let v0 ← valAt chunk i 0
    let v1 ← valAt chunk i 1
    let v2 ← valAt chunk i 2
    let v3 ← valAt chunk i 3
    let r1 := ((v0 <<< 2) % 256) ||| (v1 >>> 4)
    let r2 := ((v1 <<< 4) % 256) ||| (v2 >>> 2)
    let r3 := ((v2 <<< 6) % 256) ||| v3
    let rest ← decode64Loop ((c :: cs).drop 4) (i + 4)
    .ok ([r1, r2, r3] ++ rest)
termination_by s => s.length
decreasing_by simp [List.length_drop]; omega

/-- `encoding.decode64`. -/
def decode64 (s : List Char) : Except (Char × Nat) (List Nat) :=
  decode64Loop s 0

/-- `encoding.Encode`, parameterized by the vendored raw-DEFLATE
compressor. -/
def Encode (deflate : List Nat → List Nat) (text : List Nat) :
    List Char :=
  encode64 (deflate text)

/-- `encoding.Decode`, parameterized by the vendored raw-DEFLATE
decompressor (`none` models a decode/decompression error). -/
def Decode (inflate : List Nat → Option (List Nat)) (enc : List Char) :
    Option (List Nat) :=
  match decode64 enc with
  | .error _ => none
  | .ok data => inflate data

end GoUml

namespace GoUml

theorem and_3_eq_mod (n : Nat) : n &&& 3 = n % 4 := by
  simpa using Nat.and_pow_two_sub_one_eq_mod n 2

theorem and_15_eq_mod (n : Nat) : n &&& 15 = n % 16 := by
  simpa using Nat.and_pow_two_sub_one_eq_mod n 4

theorem and_63_eq_mod (n : Nat) : n &&& 63 = n % 64 := by
  simpa using Nat.and_pow_two_sub_one_eq_mod n 6

theorem or_mul16_add (a b : Nat) (hb : b < 16) :
    (a * 16) ||| b = a * 16 + b := by
  rw [Nat.mul_comm]
  have h := Nat.mul_add_lt_is_or (i := 4) (b := b) (by norm_num; omega) a
  norm_num at h
  exact h.symm

theorem or_mul4_add (a b : Nat) (hb : b < 4) :
    (a * 4) ||| b = a * 4 + b := by
  rw [Nat.mul_comm]
  have h := Nat.mul_add_lt_is_or (i := 2) (b := b) (by norm_num; omega) a
  norm_num at h
  exact h.symm

theorem or_mul64_add (a b : Nat) (hb : b < 64) :
    (a * 64) ||| b = a * 64 + b := by
  rw [Nat.mul_comm]
  have h := Nat.mul_add_lt_is_or (i := 6) (b := b) (by norm_num; omega) a
  norm_num at h
  exact h.symm

end GoUml

namespace GoUml

theorem shr_eq_div (n : Nat) : (n >>> 2 = n / 4) ∧ (n >>> 4 = n / 16) ∧
    (n >>> 6 = n / 64) := by
  refine ⟨?_, ?_, ?_⟩ <;> simp [Nat.shiftRight_eq_div_pow]

/-- The four alphabet indices produced by `append4`, in div/mod form,
together with their bounds. -/
theorem append4_vals (b1 b2 b3 : Nat) (_h1 : b1 < 256) (h2 : b2 < 256)
    (h3 : b3 < 256) :
    b1 >>> 2 = b1 / 4 ∧
    (((b1 &&& 0x3) <<< 4) % 256) ||| (b2 >>> 4) = (b1 % 4) * 16 + b2 / 16 ∧
    (((b2 &&& 0xF) <<< 2) % 256) ||| (b3 >>> 6) = (b2 % 16) * 4 + b3 / 64 ∧
    b3 &&& 0x3F = b3 % 64 := by
  refine ⟨(shr_eq_div b1).1, ?_, ?_, and_63_eq_mod b3⟩
  · rw [and_3_eq_mod, Nat.shiftLeft_eq, (shr_eq_div b2).2.1]
    norm_num
    rw [Nat.mod_eq_of_lt (by omega)]
    exact or_mul16_add _ _ (by omega)
  · rw [and_15_eq_mod, Nat.shiftLeft_eq, (shr_eq_div b3).2.2]
    norm_num
    rw [Nat.mod_eq_of_lt (by omega)]
    exact or_mul4_add _ _ (by omega)

/-- The three bytes reconstructed by `decode64` from alphabet indices,
in div/mod form. -/
theorem decode_bytes_vals (v0 v1 v2 v3 : Nat) (h0 : v0 < 64)
    (h1 : v1 < 64) (h2 : v2 < 64) (h3 : v3 < 64) :
    ((v0 <<< 2) % 256) ||| (v1 >>> 4) = v0 * 4 + v1 / 16 ∧
    ((v1 <<< 4) % 256) ||| (v2 >>> 2) = (v1 % 16) * 16 + v2 / 4 ∧
    ((v2 <<< 6) % 256) ||| v3 = (v2 % 4) * 64 + v3 := by
  refine ⟨?_, ?_, ?_⟩
  · rw [Nat.shiftLeft_eq, (shr_eq_div v1).2.1]
    norm_num
    rw [Nat.mod_eq_of_lt (by omega)]
    exact or_mul4_add _ _ (by omega)
  · rw [Nat.shiftLeft_eq, (shr_eq_div v2).1]
    norm_num
    have h256 : (256 : Nat) = 16 * 16 := by norm_num
    rw [h256, Nat.mul_mod_mul_right]
    exact or_mul16_add _ _ (by omega)
  · rw [Nat.shiftLeft_eq]
    norm_num
    have h256 : (256 : Nat) = 4 * 64 := by norm_num
    have hmm : v2 * 64 % 256 = (v2 % 4) * 64 := by
      rw [h256, Nat.mul_mod_mul_right]
    rw [hmm]
    exact or_mul64_add _ _ h3

end GoUml

namespace GoUml

theorem goIndexOf_alphabet_getD :
    ∀ v, v < 64 → goIndexOf alphabet (alphabet.getD v '0') = some v := by
  decide

/-- Decoding one encoded chunk recovers its three source bytes and
continues with the remaining symbols. -/
theorem decode64Loop_append4 (b1 b2 b3 : Nat) (h1 : b1 < 256)
    (h2 : b2 < 256) (h3 : b3 < 256) (rest : List Char) (i : Nat) :
    decode64Loop (append4 b1 b2 b3 ++ rest) i =
      match decode64Loop rest (i + 4) with
      | .error e => .error e
      | .ok r => .ok ([b1, b2, b3] ++ r) := by
  obtain ⟨hv0, hv1, hv2, hv3⟩ := append4_vals b1 b2 b3 h1 h2 h3
  have hb0 : b1 / 4 < 64 := by omega
  have hb1 : b1 % 4 * 16 + b2 / 16 < 64 := by omega
  have hb2 : b2 % 16 * 4 + b3 / 64 < 64 := by omega
  have hb3 : b3 % 64 < 64 := by omega
  have happ : append4 b1 b2 b3 ++ rest =
      alphabet.getD (b1 / 4) '0' ::
      alphabet.getD (b1 % 4 * 16 + b2 / 16) '0' ::
      alphabet.getD (b2 % 16 * 4 + b3 / 64) '0' ::
      alphabet.getD (b3 % 64) '0' :: rest := by
    simp only [append4, hv0, hv1, hv2, hv3]
    rfl
  have g0 := goIndexOf_alphabet_getD _ hb0
  have g1 := goIndexOf_alphabet_getD _ hb1
  have g2 := goIndexOf_alphabet_getD _ hb2
  have g3 := goIndexOf_alphabet_getD _ hb3
  rw [happ, decode64Loop]
  simp only [List.take_succ_cons, List.take_zero, List.drop_succ_cons,
    List.drop_zero]
  have hval0 : valAt [alphabet.getD (b1 / 4) '0',
      alphabet.getD (b1 % 4 * 16 + b2 / 16) '0',
      alphabet.getD (b2 % 16 * 4 + b3 / 64) '0',
      alphabet.getD (b3 % 64) '0'] i 0 = .ok (b1 / 4) := by
    have hc : ([alphabet.getD (b1 / 4) '0',
        alphabet.getD (b1 % 4 * 16 + b2 / 16) '0',
        alphabet.getD (b2 % 16 * 4 + b3 / 64) '0',
        alphabet.getD (b3 % 64) '0'] : List Char)[0]? =
        some (alphabet.getD (b1 / 4) '0') := rfl
    simp only [valAt, hc, g0]
  have hval1 : valAt [alphabet.getD (b1 / 4) '0',
      alphabet.getD (b1 % 4 * 16 + b2 / 16) '0',
      alphabet.getD (b2 % 16 * 4 + b3 / 64) '0',
      alphabet.getD (b3 % 64) '0'] i 1 = .ok (b1 % 4 * 16 + b2 / 16) := by
    have hc : ([alphabet.getD (b1 / 4) '0',
        alphabet.getD (b1 % 4 * 16 + b2 / 16) '0',
        alphabet.getD (b2 % 16 * 4 + b3 / 64) '0',
        alphabet.getD (b3 % 64) '0'] : List Char)[1]? =
        some (alphabet.getD (b1 % 4 * 16 + b2 / 16) '0') := rfl
    simp only [valAt, hc, g1]
  have hval2 : valAt [alphabet.getD (b1 / 4) '0',
      alphabet.getD (b1 % 4 * 16 + b2 / 16) '0',
      alphabet.getD (b2 % 16 * 4 + b3 / 64) '0',
      alphabet.getD (b3 % 64) '0'] i 2 = .ok (b2 % 16 * 4 + b3 / 64) := by
    have hc : ([alphabet.getD (b1 / 4) '0',
        alphabet.getD (b1 % 4 * 16 + b2 / 16) '0',
        alphabet.getD (b2 % 16 * 4 + b3 / 64) '0',
        alphabet.getD (b3 % 64) '0'] : List Char)[2]? =
        some (alphabet.getD (b2 % 16 * 4 + b3 / 64) '0') := rfl
    simp only [valAt, hc, g2]
  have hval3 : valAt [alphabet.getD (b1 / 4) '0',
      alphabet.getD (b1 % 4 * 16 + b2 / 16) '0',
      alphabet.getD (b2 % 16 * 4 + b3 / 64) '0',
      alphabet.getD (b3 % 64) '0'] i 3 = .ok (b3 % 64) := by
    have hc : ([alphabet.getD (b1 / 4) '0',
        alphabet.getD (b1 % 4 * 16 + b2 / 16) '0',
        alphabet.getD (b2 % 16 * 4 + b3 / 64) '0',
        alphabet.getD (b3 % 64) '0'] : List Char)[3]? =
        some (alphabet.getD (b3 % 64) '0') := rfl
    simp only [valAt, hc, g3]
  rw [hval0, hval1, hval2, hval3]
  obtain ⟨d1, d2, d3⟩ := decode_bytes_vals (b1 / 4)
    (b1 % 4 * 16 + b2 / 16) (b2 % 16 * 4 + b3 / 64) (b3 % 64)
    hb0 hb1 hb2 hb3
  have e1 : ((b1 / 4) <<< 2 % 256) ||| (b1 % 4 * 16 + b2 / 16) >>> 4
      = b1 := by
    rw [d1]; omega
  have e2 : ((b1 % 4 * 16 + b2 / 16) <<< 4 % 256) |||
      (b2 % 16 * 4 + b3 / 64) >>> 2 = b2 := by
    rw [d2]; omega
  have e3 : ((b2 % 16 * 4 + b3 / 64) <<< 6 % 256) ||| b3 % 64 = b3 := by
    rw [d3]; omega
  cases hres : decode64Loop rest (i + 4) <;>
    simp only [bind, Except.bind, e1, e2, e3]

end GoUml

namespace GoUml

/-- `decode64` inverts `encode64` up to the zero-byte padding of a
final partial three-byte group. -/
theorem decode64Loop_encode64 (data : List Nat)
    (h : ∀ b ∈ data, b < 256) (i : Nat) :
    decode64Loop (encode64 data) i =
      .ok (data ++ List.replicate ((3 - data.length % 3) % 3) 0) := by
  induction data using encode64.induct generalizing i with
  | case1 =>
    simp [encode64, decode64Loop]
  | case2 b1 =>
    have hb1 : b1 < 256 := h b1 (by simp)
    have henc : encode64 [b1] = append4 b1 0 0 ++ [] := by
      simp [encode64]
    rw [henc, decode64Loop_append4 b1 0 0 hb1 (by norm_num) (by norm_num)]
    simp [decode64Loop, List.replicate]
  | case3 b1 b2 =>
    have hb1 : b1 < 256 := h b1 (by simp)
    have hb2 : b2 < 256 := h b2 (by simp)
    have henc : encode64 [b1, b2] = append4 b1 b2 0 ++ [] := by
      simp [encode64]
    rw [henc, decode64Loop_append4 b1 b2 0 hb1 hb2 (by norm_num)]
    simp [decode64Loop, List.replicate]
  | case4 b1 b2 b3 rest ih =>
    have hb1 : b1 < 256 := h b1 (by simp)
    have hb2 : b2 < 256 := h b2 (by simp)
    have hb3 : b3 < 256 := h b3 (by simp)
    have hrest : ∀ b ∈ rest, b < 256 := fun b hb => h b (by simp [hb])
    have henc : encode64 (b1 :: b2 :: b3 :: rest) =
        append4 b1 b2 b3 ++ encode64 rest := rfl
    rw [henc, decode64Loop_append4 b1 b2 b3 hb1 hb2 hb3,
      ih hrest (i + 4)]
    have hlen : (b1 :: b2 :: b3 :: rest).length % 3 = rest.length % 3 := by
      simp [List.length_cons]
      omega
    simp only [hlen]
    have : (3 - rest.length % 3) % 3 = (3 - (rest.length + 1 + 1 + 1) % 3) % 3 := by
      omega
    simp [this]

end GoUml

namespace GoUml

/-- C1: for every diagram text `t` (any byte sequence, so including the
empty string and multi-byte UTF-8), `Decode (Encode t) = t`.  `Encode`
raw-DEFLATE-compresses the bytes and maps them three at a time into the
64-symbol alphabet, padding a final partial group with zero bytes and
never emitting a padding character; `Decode` inverts the alphabet
mapping four symbols at a time and inflates the result.  The vendored
DEFLATE dependency appears abstractly: `hdef` states its bytes are
bytes, and `hinf` states the capability the code relies on (spec §6) —
the raw inflater recovers `t` from the compressed stream, ignoring the
at most two zero bytes of base64 padding that follow it. -/
theorem encode_decode_roundtrip (deflate : List Nat → List Nat)
    (inflate : List Nat → Option (List Nat)) (t : List Nat)
    (hdef : ∀ b ∈ deflate t, b < 256)
    (hinf : ∀ pad, pad ≤ 2 →
      inflate (deflate t ++ List.replicate pad 0) = some t) :
    Decode inflate (Encode deflate t) = some t := by
  unfold Decode Encode decode64
  rw [decode64Loop_encode64 (deflate t) hdef 0]
  exact hinf _ (by omega)

/-- Witness for C1 at a concrete text and a concrete compressor /
decompressor pair satisfying the stated capability. -/
theorem encode_decode_roundtrip_w :
    Decode
      (fun l => if l.take 3 = [1, 2, 3] then some [104, 105] else none)
      (Encode (fun _ => [1, 2, 3]) [104, 105]) = some [104, 105] := by
  refine encode_decode_roundtrip _ _ _ (by decide) ?_
  intro pad hpad
  interval_cases pad <;> decide

end GoUml

namespace GoUml

/-! ### Sequence-diagram SVG renderer (`internal/renderer/svg`)

Participant collection, the empty-diagram gate, the event-layout pass
and the SVG header strings.  `float64` is modelled as `ℚ`; the font
measurement capability (`font.MeasureText`, vendored, spec §6) is a
parameter `measure : String → ℚ → ℚ × ℚ` giving (width, height) for a
text at a font size. -/

/-- An `ast.Participant` as collected by the sequence renderer. -/
structure SeqParticipant where
  name : String
  alias' : String
  kind : ParticipantKind
deriving DecidableEq, Repr

def isParticipantStmt : Stmt → Bool
  | .participant .. => true
  | _ => false

def isMessageStmt : Stmt → Bool
  | .message .. => true
  | _ => false

/-- First `collectParticipants` loop: explicit participants in source
order, deduplicated by name (the `seen` Go map is modelled as the list
of names collected so far). -/
def collectStep1 (acc : List String × List SeqParticipant) (stmt : Stmt) :
    List String × List SeqParticipant :=
  match stmt with
  | .participant _ n a k =>
    if n ∈ acc.1 then acc else (n :: acc.1, acc.2 ++ [⟨n, a, k⟩])
  | _ => acc

/-- Second `collectParticipants` loop: implicit participants from
top-level message endpoints, in first-use order. -/
def collectStep2 (acc : List String × List SeqParticipant) (stmt : Stmt) :
    List String × List SeqParticipant :=
  match stmt with
  | .message _ f t _ _ _ =>
    let acc' :=
      if f ≠ "" ∧ f ∉ acc.1 then
        (f :: acc.1, acc.2 ++ [⟨f, "", .default⟩])
      else acc
    if t ≠ "" ∧ t ∉ acc'.1 then
      (t :: acc'.1, acc'.2 ++ [⟨t, "", .default⟩])
    else acc'
  | _ => acc

/-- `SequenceRenderer.collectParticipants`: both loops over the
diagram's top-level statement list. -/
def collectParticipants (d : Diagram) : List SeqParticipant :=
  (d.statements.foldl collectStep2
    (d.statements.foldl collectStep1 ([], []))).2

/-- `escSeq`: escapes `&`, `<`, `>`, `"` (not `'`) for SVG embedding,
by sequential single-character `strings.ReplaceAll`. -/
def replaceChar (s : String) (c : Char) (rep : String) : String :=
  ⟨(s.data.map fun d => if d = c then rep.data else [d]).flatten⟩

def escSeq (s : String) : String :=
  replaceChar (replaceChar (replaceChar (replaceChar s
    '&' "&amp;") '<' "&lt;") '>' "&gt;") '"' "&quot;"

/-- `SequenceRenderer.renderEmpty`: the fixed 100×100 placeholder — its
root element carries no `viewBox` attribute. -/
def seqRenderEmpty (r : Resolver) : String :=
  "<svg xmlns=\"http://www.w3.org/2000/svg\" width=\"100\" height=\"100\"><rect width=\"100\" height=\"100\" fill=\"" ++
    escSeq (ResolveColor r "BackgroundColor") ++ "\"/></svg>"

/-- `ClassRenderer.writeEmptyDiagram`: the class renderer's 100×100
placeholder (with `viewBox`, background color unescaped). -/
def classWriteEmptyDiagram (r : Resolver) : String :=
  "<svg xmlns=\"http://www.w3.org/2000/svg\" width=\"100\" height=\"100\" viewBox=\"0 0 100 100\">\n<rect width=\"100\" height=\"100\" fill=\"" ++
    ResolveColor r "BackgroundColor" ++ "\"/>\n</svg>\n"

/-- The root-element and background-rect prefix written by the
sequence renderer's non-empty path (`Render`, sequence.go:107-111);
`wS`/`hS` stand for the `%.0f`-formatted total width and height. -/
def seqSvgOpen (wS hS bg : String) : String :=
  "<svg xmlns=\"http://www.w3.org/2000/svg\" width=\"" ++ wS ++
    "\" height=\"" ++ hS ++ "\"" ++
    " viewBox=\"0 0 " ++ wS ++ " " ++ hS ++ "\">" ++
    "<rect width=\"" ++ wS ++ "\" height=\"" ++ hS ++ "\" fill=\"" ++
    escSeq bg ++ "\"/>"

/-- The root-element and background-rect prefix written by the class
renderer's non-empty path (part_007:226-229); `wS`/`hS` stand for the
`%d`-formatted canvas size; the background color is not escaped. -/
def classSvgOpen (wS hS bg : String) : String :=
  "<svg xmlns=\"http://www.w3.org/2000/svg\" width=\"" ++ wS ++
    "\" height=\"" ++ hS ++ "\" viewBox=\"0 0 " ++ wS ++ " " ++ hS ++
    "\">" ++ "\n" ++
    "<rect width=\"" ++ wS ++ "\" height=\"" ++ hS ++ "\" fill=\"" ++
    bg ++ "\"/>" ++ "\n"

/-- The sequence renderer's `Render` gate: zero collected participants
emit exactly the placeholder; otherwise rendering proceeds (the rest of
the drawing appears as the continuation `k`). -/
def seqRenderWith (k : Diagram → String) (r : Resolver) (d : Diagram) :
    String :=
  if collectParticipants d = [] then seqRenderEmpty r else k d

end GoUml

namespace GoUml

/-- `seqEvent`: something occupying vertical space. -/
structure SeqEvent where
  y : ℚ
  height : ℚ
  stmt : Stmt

/-- `activationRange`. -/
structure ActivationRange where
  participant : String
  startY : ℚ
  endY : ℚ

/-- Association-list lookup modelling the Go map `activeStarts`. -/
def alookup (l : List (String × ℚ)) (k : String) : Option ℚ :=
  match l with
  | [] => none
  | (k', v) :: rest => if k' = k then some v else alookup rest k

/-- Go map assignment `m[k] = v` (replace or append). -/
def ainsert (l : List (String × ℚ)) (k : String) (v : ℚ) :
    List (String × ℚ) :=
  match l with
  | [] => [(k, v)]
  | (k', v') :: rest =>
    if k' = k then (k, v) :: rest else (k', v') :: ainsert rest k v

/-- Go map `delete(m, k)`. -/
def aerase (l : List (String × ℚ)) (k : String) : List (String × ℚ) :=
  match l with
  | [] => []
  | (k', v') :: rest =>
    if k' = k then aerase rest k else (k', v') :: aerase rest k

/-- The mutable state of `layoutEvents`: emitted events, closed
activation ranges, open activation starts (a Go map, modelled as an
association list to make the final flush order deterministic), and the
vertical cursor. -/
structure LayoutEventsState where
  events : List SeqEvent
  activations : List ActivationRange
  activeStarts : List (String × ℚ)
  curY : ℚ

/-- `SequenceRenderer.noteHeight`. -/
def noteHeight (measure : String → ℚ → ℚ × ℚ) (r : Resolver)
    (text : String) : ℚ :=
  let fontSize : ℚ := (ResolveInt r "FontSize" 13 : Int)
  (measure text fontSize).2 + 8 * 2 + 10

/-- `SequenceRenderer.fragmentHeight`. -/
def fragmentHeight (body : List Stmt) (elseParts : List ElseP) : ℚ :=
  let h : ℚ := 20 + 10
  let count := body.length
  let (count, h) := elseParts.foldl
    (fun (acc : Nat × ℚ) ep =>
      match ep with
      | .mk _ _ stmts => (acc.1 + stmts.length, acc.2 + 20))
    (count, h)
  let count := if count = 0 then 1 else count
  let h := h + (count : ℚ) * 40
  h + 10

/-- One step of `layoutEvents`'s statement loop. -/
def layoutStep (measure : String → ℚ → ℚ × ℚ) (r : Resolver)
    (st : LayoutEventsState) (stmt : Stmt) : LayoutEventsState :=
  match stmt with
  | .message .. =>
    { st with
      events := st.events ++ [⟨st.curY, 40, stmt⟩]
      curY := st.curY + 40 }
  | .note _ _ _ text =>
    let h := noteHeight measure r text
    { st with
      events := st.events ++ [⟨st.curY, h, stmt⟩]
      curY := st.curY + h }
  | .fragment _ _ _ body elseParts =>
    let h := fragmentHeight body elseParts
    { st with
      events := st.events ++ [⟨st.curY, h, stmt⟩]
      curY := st.curY + h }
  | .divider .. =>
    { st with
      events := st.events ++ [⟨st.curY, 30, stmt⟩]
      curY := st.curY + 30 }
  | .delay .. =>
    { st with
      events := st.events ++ [⟨st.curY, 30, stmt⟩]
      curY := st.curY + 30 }
  | .autonumber .. =>
    { st with events := st.events ++ [⟨st.curY, 0, stmt⟩] }
  | .activate _ target deactivate =>
    if deactivate then
      match alookup st.activeStarts target with
      | some startY =>
        { st with
          activations := st.activations ++ [⟨target, startY, st.curY⟩]
          activeStarts := aerase st.activeStarts target }
      | none => st
    else
      { st with activeStarts := ainsert st.activeStarts target st.curY }
  | _ => st

/-- `SequenceRenderer.layoutEvents`: fold the statement loop from the
starting cursor (the lowest participant bottom plus one row spacing),
then implicitly close every still-open activation at the final cursor.
-/
def layoutEvents (measure : String → ℚ → ℚ × ℚ) (r : Resolver)
    (stmts : List Stmt) (startY : ℚ) :
    List SeqEvent × List ActivationRange :=
  let st := stmts.foldl (layoutStep measure r)
    ⟨[], [], [], startY⟩
  (st.events, st.activations ++
    st.activeStarts.map fun p => ⟨p.1, p.2, st.curY⟩)

end GoUml

namespace GoUml

theorem collect_step1_noop (l : List Stmt)
    (h : ∀ s ∈ l, isParticipantStmt s = false)
    (acc : List String × List SeqParticipant) :
    l.foldl collectStep1 acc = acc := by
  induction l generalizing acc with
  | nil => rfl
  | cons s rest ih =>
    have hs := h s (by simp)
    have hrest : ∀ s ∈ rest, isParticipantStmt s = false :=
      fun s hsr => h s (by simp [hsr])
    cases s <;> simp [isParticipantStmt] at hs ⊢ <;>
      simp [collectStep1] <;> exact ih hrest acc

theorem collect_step2_noop (l : List Stmt)
    (h : ∀ s ∈ l, isMessageStmt s = false)
    (acc : List String × List SeqParticipant) :
    l.foldl collectStep2 acc = acc := by
  induction l generalizing acc with
  | nil => rfl
  | cons s rest ih =>
    have hs := h s (by simp)
    have hrest : ∀ s ∈ rest, isMessageStmt s = false :=
      fun s hsr => h s (by simp [hsr])
    cases s <;> simp [isMessageStmt] at hs ⊢ <;>
      simp [collectStep2] <;> exact ih hrest acc

/-- C9: the sequence renderer's participant collection scans only the
top-level statement list — with no top-level Participant or Message
statements (messages inside fragment bodies or else-parts included),
zero participants are collected and `Render` emits exactly the 100×100
placeholder instead of any drawing. -/
theorem collectParticipants_top_level_only
    (k : Diagram → String) (r : Resolver) (d : Diagram)
    (h : ∀ s ∈ d.statements,
      isParticipantStmt s = false ∧ isMessageStmt s = false) :
    collectParticipants d = [] ∧ seqRenderWith k r d = seqRenderEmpty r := by
  have hempty : collectParticipants d = [] := by
    unfold collectParticipants
    rw [collect_step1_noop d.statements (fun s hs => (h s hs).1),
      collect_step2_noop d.statements (fun s hs => (h s hs).2)]

  exact ⟨hempty, by simp [seqRenderWith, hempty]⟩

/-- Witness for C9: a diagram whose only message sits inside a fragment
body collects no participants and renders the placeholder. -/
theorem collectParticipants_top_level_only_w :
    collectParticipants
      { statements := [.fragment ⟨2, 1⟩ .alt "x"
          [.message ⟨3, 1⟩ "Alice" "Bob" "hi" "->" false] []] } = [] ∧
    seqRenderWith (fun _ => "FULL") (NewResolver none)
      { statements := [.fragment ⟨2, 1⟩ .alt "x"
          [.message ⟨3, 1⟩ "Alice" "Bob" "hi" "->" false] []] } =
      seqRenderEmpty (NewResolver none) := by
  refine collectParticipants_top_level_only _ _ _ ?_
  intro s hs
  simp only [List.mem_singleton] at hs
  subst hs
  exact ⟨rfl, rfl⟩

/-- C10: during sequence event layout, a Deactivate whose target has no
open activation interval is silently ignored — it records no range,
consumes no vertical space, and leaves the whole state (events, closed
activations, open-interval map, cursor) unchanged, so the final layout
equals the layout without that statement. -/
theorem layoutEvents_deactivate_noop (measure : String → ℚ → ℚ × ℚ)
    (r : Resolver) (stmts1 stmts2 : List Stmt) (startY : ℚ) (p : Pos)
    (t : String)
    (hopen : alookup ((stmts1.foldl (layoutStep measure r)
      ⟨[], [], [], startY⟩).activeStarts) t = none) :
    layoutStep measure r
      (stmts1.foldl (layoutStep measure r) ⟨[], [], [], startY⟩)
      (.activate p t true) =
      stmts1.foldl (layoutStep measure r) ⟨[], [], [], startY⟩ ∧
    layoutEvents measure r (stmts1 ++ .activate p t true :: stmts2)
      startY = layoutEvents measure r (stmts1 ++ stmts2) startY := by
  have hstep : layoutStep measure r
      (stmts1.foldl (layoutStep measure r) ⟨[], [], [], startY⟩)
      (.activate p t true) =
      stmts1.foldl (layoutStep measure r) ⟨[], [], [], startY⟩ := by
    simp [layoutStep, hopen]
  refine ⟨hstep, ?_⟩
  unfold layoutEvents
  rw [List.foldl_append, List.foldl_cons, hstep, ← List.foldl_append]

/-- Witness for C10: a leading `deactivate A` with no open interval
leaves the layout of a following message unchanged. -/
theorem layoutEvents_deactivate_noop_w :
    layoutStep (fun _ _ => (0, 0)) (NewResolver none)
      (List.foldl (layoutStep (fun _ _ => (0, 0)) (NewResolver none))
        ⟨[], [], [], 76⟩ [])
      (.activate ⟨2, 1⟩ "A" true) =
      List.foldl (layoutStep (fun _ _ => (0, 0)) (NewResolver none))
        ⟨[], [], [], 76⟩ [] ∧
    layoutEvents (fun _ _ => (0, 0)) (NewResolver none)
      ([] ++ .activate ⟨2, 1⟩ "A" true ::
        [.message ⟨3, 1⟩ "Alice" "Bob" "hi" "->" false]) 76 =
    layoutEvents (fun _ _ => (0, 0)) (NewResolver none)
      ([] ++ [.message ⟨3, 1⟩ "Alice" "Bob" "hi" "->" false]) 76 :=
  layoutEvents_deactivate_noop (fun _ _ => (0, 0)) (NewResolver none)
    [] [.message ⟨3, 1⟩ "Alice" "Bob" "hi" "->" false] 76 ⟨2, 1⟩ "A" rfl

end GoUml

namespace GoUml

/-- Specification-side shape of an SVG document prefix: root `<svg>`
element carrying `xmlns`, `width`, `height` (and, when
`viewBoxPresent`, a `viewBox="0 0 W H"`), whose first child is a
full-canvas background `<rect>` filled with `bg` (`nl` is the optional
newline the class renderer emits between them). -/
def SvgRootBgOk (doc bg : String) (viewBoxPresent : Bool) : Prop :=
  ∃ w h nl rest,
    (nl = "" ∨ nl = "\n") ∧
    doc = "<svg xmlns=\"http://www.w3.org/2000/svg\" width=\"" ++ w ++
      "\" height=\"" ++ h ++ "\"" ++
      (if viewBoxPresent then " viewBox=\"0 0 " ++ w ++ " " ++ h ++ "\""
        else "") ++ ">" ++ nl ++
      "<rect width=\"" ++ w ++ "\" height=\"" ++ h ++ "\" fill=\"" ++
      bg ++ "\"/>" ++ rest

theorem string_data_eq {a b : String} (h : a.data = b.data) : a = b := by
  cases a
  cases b
  exact congrArg String.mk h

theorem seqRenderEmpty_root (r : Resolver) :
    SvgRootBgOk (seqRenderEmpty r)
      (escSeq (ResolveColor r "BackgroundColor")) false := by
  refine ⟨"100", "100", "", "</svg>", Or.inl rfl, ?_⟩
  apply string_data_eq
  simp [seqRenderEmpty, String.data_append]

end GoUml

namespace GoUml

theorem classWriteEmptyDiagram_root (r : Resolver) :
    SvgRootBgOk (classWriteEmptyDiagram r)
      (ResolveColor r "BackgroundColor") true := by
  refine ⟨"100", "100", "\n", "\n</svg>\n", Or.inr rfl, ?_⟩
  apply string_data_eq
  simp [classWriteEmptyDiagram, String.data_append]

theorem classSvgOpen_root (wS hS bg rest : String) :
    SvgRootBgOk (classSvgOpen wS hS bg ++ rest) bg true := by
  refine ⟨wS, hS, "\n", "\n" ++ rest, Or.inr rfl, ?_⟩
  apply string_data_eq
  simp [classSvgOpen, String.data_append]

theorem seqSvgOpen_root (wS hS bg rest : String) :
    SvgRootBgOk (seqSvgOpen wS hS bg ++ rest) (escSeq bg) true := by
  refine ⟨wS, hS, "", rest, Or.inl rfl, ?_⟩
  apply string_data_eq
  simp [seqSvgOpen, String.data_append]

/-- C8 (amended): the SVG emitted by either renderer opens with a root
`<svg>` element carrying xmlns, width and height whose first child is
the full-canvas background `<rect>` in the resolved BackgroundColor;
the class renderer's outputs and the sequence renderer's non-empty
output also carry `viewBox="0 0 W H"`, but the sequence renderer's
100×100 empty-diagram placeholder omits the viewBox attribute. -/
theorem svg_root_spec (r : Resolver) (wS hS bg rest : String) :
    SvgRootBgOk (classWriteEmptyDiagram r)
      (ResolveColor r "BackgroundColor") true ∧
    SvgRootBgOk (classSvgOpen wS hS bg ++ rest) bg true ∧
    SvgRootBgOk (seqSvgOpen wS hS bg ++ rest) (escSeq bg) true ∧
    SvgRootBgOk (seqRenderEmpty r)
      (escSeq (ResolveColor r "BackgroundColor")) false ∧
    goContains (seqRenderEmpty r) "viewBox" =
      goContains ("<rect width=\"100\" height=\"100\" fill=\"" ++
        escSeq (ResolveColor r "BackgroundColor") ++ "\"/></svg>")
        "viewBox" := by
  refine ⟨classWriteEmptyDiagram_root r, classSvgOpen_root wS hS bg rest,
    seqSvgOpen_root wS hS bg rest, seqRenderEmpty_root r, ?_⟩
  rfl

/-- Counterexample for C8 as stated: the sequence renderer's
empty-diagram placeholder carries no `viewBox` attribute at all (with
the default Darcula resolver, its text does not even contain the
substring "viewBox"). -/
theorem seqRenderEmpty_no_viewBox :
    goContains (seqRenderEmpty (NewResolver none)) "viewBox" = false := by
  decide

end GoUml

namespace GoUml

/-! ### Layout engine (Sugiyama, `internal/layout`)

`float64` is modelled as `ℚ`.  The depth-first search of the
cycle-removal phase is fuelled (fuel `n + 1` provably suffices: each
nested call grays a white node); `Option` detects exhaustion.  The
`finished` field of `RCState` is proof instrumentation only — the
order in which nodes turn black — and has no Go counterpart. -/

structure Node where
  id : String
  width : ℚ
  height : ℚ
  virtual : Bool := false
  x : ℚ := 0
  y : ℚ := 0
  layer : Nat := 0
  order : Nat := 0
deriving DecidableEq, Repr

structure Edge where
  from' : String
  to' : String
  label : String := ""
  reversed : Bool := false
deriving DecidableEq, Repr

structure LayoutGraph where
  nodes : List Node
  edges : List Edge
deriving DecidableEq, Repr

structure LayoutOptions where
  nodePadding : ℚ
  layerSpacing : ℚ
deriving DecidableEq, Repr

/-- `layout.DefaultOptions`. -/
def defaultOptions : LayoutOptions := ⟨40, 60⟩

/-- `layout.buildNodeIndex`: id → index Go map (later nodes with a
duplicate id overwrite earlier ones). -/
def buildNodeIndex (nodes : List Node) : String → Option Nat :=
  nodes.enum.foldl
    (fun acc p => fun s => if s = p.2.id then some p.1 else acc s)
    (fun _ => none)

/-- `layout.buildAdjacency`: drops edges with unknown endpoints and
self-loops. -/
def buildAdjacency (g : LayoutGraph) (nodeIndex : String → Option Nat) :
    List (List Nat) :=
  g.edges.foldl
    (fun adj e =>
      match nodeIndex e.from', nodeIndex e.to' with
      | some f, some t =>
        if f = t then adj else adj.set f (adj.getD f [] ++ [t])
      | _, _ => adj)
    (List.replicate g.nodes.length [])

/-- Cycle-removal state: colors (0 white, 1 gray, 2 black), adjacency,
recorded back edges, and the ghost finish order. -/
structure RCState where
  color : List Nat
  adj : List (List Nat)
  rev : List (Nat × Nat)
  finished : List Nat
deriving DecidableEq, Repr

/-- The `for _, v := range adj[u]` loop body of `dfs`, iterating over
the snapshot taken at loop entry and accumulating `newAdj`; the
recursive `dfs` call is passed in as `dfs`. -/
def dfsL (dfs : Nat → RCState → Option RCState) (u : Nat) :
    List Nat → List Nat → RCState → Option (RCState × List Nat)
  | [], newAdj, s => some (s, newAdj)
  | v :: rest, newAdj, s =>
    match s.color.getD v 0 with
    | 1 =>
      dfsL dfs u rest newAdj
        { s with
          rev := s.rev ++ [(u, v)]
          adj := s.adj.set v (s.adj.getD v [] ++ [u]) }
    | 0 =>
      match dfs v s with
      | none => none
      | some s' => dfsL dfs u rest (newAdj ++ [v]) s'
    | _ => dfsL dfs u rest (newAdj ++ [v]) s

/-- `removeCycles`' recursive `dfs` closure (fuelled; structural on
the fuel so that it evaluates). -/
def dfsA (fuel : Nat) : Nat → RCState → Option RCState :=
  match fuel with
  | 0 => fun _ _ => none
  | f + 1 => fun u s =>
    let s1 : RCState := { s with color := s.color.set u 1 }
    let snap := s1.adj.getD u []
    match dfsL (dfsA f) u snap [] s1 with
    | none => none
    | some (s2, newAdj) =>
      some { s2 with
        adj := s2.adj.set u newAdj
        color := s2.color.set u 2
        finished := s2.finished ++ [u] }

/-- The `for i := range n { if white { dfs(i) } }` outer loop. -/
def rcLoop (fuel : Nat) : List Nat → RCState → Option RCState
  | [], s => some s
  | i :: rest, s =>
    if s.color.getD i 0 = 0 then
      match dfsA fuel i s with
      | none => none
      | some s' => rcLoop fuel rest s'
    else rcLoop fuel rest s

/-- `layout.removeCycles` (fuel `n + 1`; sufficiency is proved below).
-/
def removeCycles (adj : List (List Nat)) (n : Nat) : Option RCState :=
  rcLoop (n + 1) (List.range n) ⟨List.replicate n 0, adj, [], []⟩

end GoUml

namespace GoUml

/-- The relax/decrement fold over one popped node's edges in
`assignLayers`. -/
def alEdgeStep (u : Nat) (acc : List Nat × List Int × List Nat)
    (v : Nat) : List Nat × List Int × List Nat :=
  let (layers, inDeg, appends) := acc
  let layers' :=
    if layers.getD u 0 + 1 > layers.getD v 0 then
      layers.set v (layers.getD u 0 + 1)
    else layers
  let inDeg' := inDeg.set v (inDeg.getD v 0 - 1)
  let appends' :=
    if inDeg'.getD v 0 = 0 then appends ++ [v] else appends
  (layers', inDeg', appends')

/-- The queue loop of `assignLayers`, fuelled (exhaustion returns the
layers computed so far; the fuel `2 * n + 2` used below covers every
possible enqueue). -/
def alLoop (adj : List (List Nat)) :
    Nat → List Nat → List Nat → List Int → List Nat
  | 0, _, layers, _ => layers
  | _ + 1, [], layers, _ => layers
  | f + 1, u :: qrest, layers, inDeg =>
    let (layers', inDeg', appends) :=
      (adj.getD u []).foldl (alEdgeStep u) (layers, inDeg, [])
    alLoop adj f (qrest ++ appends) layers' inDeg'

/-- `layout.assignLayers`: longest-path layering from in-degree-0
sources (falling back to node 0 when there are none). -/
def assignLayers (adj : List (List Nat)) (n : Nat) : List Nat :=
  let layers := List.replicate n 0
  let inDeg : List Int :=
    (List.range n).foldl
      (fun acc u =>
        (adj.getD u []).foldl
          (fun acc v => acc.set v (acc.getD v 0 + 1)) acc)
      (List.replicate n 0)
  let queue := (List.range n).filter (fun i => inDeg.getD i 0 = 0)
  let queue := if queue = [] then [0] else queue
  alLoop adj (2 * n + 2) queue layers inDeg

/-- The `for k := 1; k < span; k++` chain of `insertVirtualNodes`.
State: `(newAdj, layers, nodes, prev)`. -/
def ivnChain (u j : Nat) (v : Nat) :
    List Nat → List (List Nat) × List Nat × List Node × Nat →
      List (List Nat) × List Nat × List Node × Nat
  | [], acc => acc
  | k :: ks, (newAdj, layers, nodes, prev) =>
    let vn : Node :=
      { id := "", width := 0, height := 0, virtual := true
        layer := layers.getD u 0 + k }
    let vnIdx := nodes.length
    let nodes' := nodes ++ [vn]
    let layers' := layers ++ [layers.getD u 0 + k]
    let newAdj' := newAdj ++ [[]]
    let newAdj'' :=
      if prev = u then
        newAdj'.set prev ((newAdj'.getD prev []).set j vnIdx)
      else
        newAdj'.set prev ((newAdj'.getD prev []) ++ [vnIdx])
    ivnChain u j v ks (newAdj'', layers', nodes', vnIdx)

/-- `layout.insertVirtualNodes`. -/
def insertVirtualNodes (adj : List (List Nat)) (layers : List Nat)
    (nodes : List Node) :
    List (List Nat) × List Nat × List Node :=
  let init := (adj, layers, nodes)
  let result := (List.range adj.length).foldl
    (fun acc u =>
      (adj.getD u []).enum.foldl
        (fun (acc : List (List Nat) × List Nat × List Node) jv =>
          let (j, v) := jv
          let (newAdj, layers, nodes) := acc
          let span := layers.getD v 0 - layers.getD u 0
          if span ≤ 1 then acc
          else
            let ks := (List.range (span - 1)).map (· + 1)
            let (newAdj', layers', nodes', prev) :=
              ivnChain u j v ks (newAdj, layers, nodes, u)
            (newAdj'.set prev ((newAdj'.getD prev []) ++ [v]),
              layers', nodes'))
        acc)
    init
  result

/-- `layout.buildLayerBuckets`. -/
def buildLayerBuckets (layers : List Nat) : List (List Nat) :=
  let maxLayer := layers.foldl (fun m l => if l > m then l else m) 0
  layers.enum.foldl
    (fun buckets il =>
      buckets.set il.2 (buckets.getD il.2 [] ++ [il.1]))
    (List.replicate (maxLayer + 1) [])

/-- `layout.reorderByBarycenter`: stable insertion sort of one layer by
the mean fixed-layer position of its backward neighbors. -/
def reorderByBarycenter (layer fixedLayer : List Nat)
    (connections : List (List Nat)) : List Nat :=
  let pos : Nat → Option Nat := fixedLayer.enum.foldl
    (fun acc p => fun x => if x = p.2 then some p.1 else acc x)
    (fun _ => none)
  let entries : List (Nat × ℚ) := layer.foldl
    (fun entries node =>
      let sc := (connections.getD node []).foldl
        (fun (sc : ℚ × Nat) neighbor =>
          match pos neighbor with
          | some p => (sc.1 + p, sc.2 + 1)
          | none => sc)
        (0, 0)
      let bc : ℚ :=
        if sc.2 > 0 then sc.1 / sc.2 else (entries.length : ℚ)
      entries ++ [(node, bc)])
    []
  (entries.foldl (fun sorted e => sorted.insertP (fun x => e.2 < x.2) e)
    []).map Prod.fst

end GoUml

namespace GoUml

/-- `layout.minimizeCrossings`: four alternating barycenter sweeps
(`List.insertP` models the stable in-place insertion sort — the new
entry moves left past strictly greater barycenters). -/
def minimizeCrossings (layerBuckets : List (List Nat))
    (adj : List (List Nat)) (n : Nat) : List (List Nat) :=
  let radj := adj.enum.foldl
    (fun radj un =>
      un.2.foldl
        (fun (radj : List (List Nat)) v =>
          if v < n then radj.set v (radj.getD v [] ++ [un.1]) else radj)
        radj)
    (List.replicate n [])
  (List.range 4).foldl
    (fun buckets pass =>
      if pass % 2 = 0 then
        (List.range (buckets.length - 1)).foldl
          (fun buckets i =>
            buckets.set (i + 1)
              (reorderByBarycenter (buckets.getD (i + 1) [])
                (buckets.getD i []) radj))
          buckets
      else
        (List.range (buckets.length - 1)).reverse.foldl
          (fun buckets i =>
            buckets.set i
              (reorderByBarycenter (buckets.getD i [])
                (buckets.getD (i + 1) []) adj))
          buckets)
    layerBuckets

/-- `layout.flattenBuckets`. -/
def flattenBuckets (buckets : List (List Nat)) : List Nat :=
  buckets.foldl (fun all b => all ++ b) []

/-- `layout.orderInLayer`. -/
def orderInLayer (buckets : List (List Nat)) (layer nodeIdx : Nat) :
    Nat :=
  let rec go : List Nat → Nat → Nat
    | [], _ => 0
    | idx :: rest, i => if idx = nodeIdx then i else go rest (i + 1)
  go (buckets.getD layer []) 0

/-- Zero-value `layout.Node`, the out-of-range default for reads. -/
def node0 : Node := { id := "", width := 0, height := 0 }

/-- `layout.layerWidth`. -/
def layerWidth (nodes : List Node) (layer : List Nat) (padding : ℚ) :
    ℚ :=
  match layer with
  | [] => 0
  | _ =>
    layer.foldl (fun w idx => w + (nodes.getD idx node0).width) 0 +
      padding * ((layer.length : ℚ) - 1)

/-- The left-to-right placement of one layer in `assignCoordinates`:
state `(nodes, x, maxHeight)`. -/
def acPlaceStep (y : ℚ) (padding : ℚ)
    (acc : List Node × ℚ × ℚ) (idx : Nat) : List Node × ℚ × ℚ :=
  let (nodes, x, maxH) := acc
  let node := nodes.getD idx node0
  let nodes' := nodes.set idx { node with x := x, y := y }
  let x' := x + node.width + padding
  let maxH' := if node.height > maxH then node.height else maxH
  (nodes', x', maxH')

/-- One layer of the placement loop of `assignCoordinates`: state
`(nodes, y)`. -/
def acLayerStep (padding spacing : ℚ) (acc : List Node × ℚ)
    (layer : List Nat) : List Node × ℚ :=
  let (nodes, y) := acc
  let (nodes', _, maxH) :=
    layer.foldl (acPlaceStep y padding) (nodes, 0, 0)
  (nodes', y + maxH + spacing)

/-- One node of the centering loop of `assignCoordinates`. -/
def acCenterNode (offset : ℚ) (nodes : List Node) (idx : Nat) :
    List Node :=
  let node := nodes.getD idx node0
  nodes.set idx { node with x := node.x + offset }

/-- One layer of the centering loop of `assignCoordinates`. -/
def acCenterLayer (maxWidth padding : ℚ) (nodes : List Node)
    (layer : List Nat) : List Node :=
  let w := layerWidth nodes layer padding
  let offset := (maxWidth - w) / 2
  layer.foldl (acCenterNode offset) nodes

/-- `layout.assignCoordinates`: per-layer left-to-right placement, then
horizontal centering of every layer relative to the widest. -/
def assignCoordinates (nodes : List Node)
    (layerBuckets : List (List Nat)) (opts : LayoutOptions) :
    List Node :=
  let placed := (layerBuckets.foldl
    (acLayerStep opts.nodePadding opts.layerSpacing) (nodes, 0)).1
  let maxWidth := layerBuckets.foldl
    (fun m layer =>
      let w := layerWidth placed layer opts.nodePadding
      if w > m then w else m)
    0
  layerBuckets.foldl (acCenterLayer maxWidth opts.nodePadding) placed

end GoUml

namespace GoUml

/-- Fallback state for the (provably unreachable) fuel-exhaustion case
of `removeCycles` inside `Layout`. -/
def rcFallback (adj : List (List Nat)) (n : Nat) : RCState :=
  ⟨List.replicate n 2, adj, [], []⟩

/-- Phase 1 of `Layout`: the cycle-removal state (the `getD` fallback
is unreachable — fuel sufficiency is proved below). -/
def rcStateOf (g : LayoutGraph) : RCState :=
  (removeCycles (buildAdjacency g (buildNodeIndex g.nodes))
      g.nodes.length).getD
    (rcFallback (buildAdjacency g (buildNodeIndex g.nodes))
      g.nodes.length)

/-- The edge-marking loop of `Layout` (a missing node-index key reads
the Go map's zero value 0). -/
def edgesOf (g : LayoutGraph) : List Edge :=
  g.edges.map fun e =>
    if ((buildNodeIndex g.nodes e.from').getD 0,
        (buildNodeIndex g.nodes e.to').getD 0) ∈ (rcStateOf g).rev
    then { e with reversed := true } else e

/-- Phase 2 of `Layout`: layer assignment. -/
def layersOf (g : LayoutGraph) : List Nat :=
  assignLayers (rcStateOf g).adj g.nodes.length

/-- The `g.Nodes[i].Layer = layer` loop of `Layout`. -/
def nodesWithLayers (g : LayoutGraph) : List Node :=
  (g.nodes.zip (layersOf g)).map fun p => { p.1 with layer := p.2 }

/-- Phase 3 of `Layout`: virtual-node insertion, returning the updated
`(adj, layers, nodes)`. -/
def ivnOf (g : LayoutGraph) : List (List Nat) × List Nat × List Node :=
  insertVirtualNodes (rcStateOf g).adj (layersOf g) (nodesWithLayers g)

/-- Phase 4 of `Layout`: layer buckets and crossing minimization. -/
def buckets2Of (g : LayoutGraph) : List (List Nat) :=
  minimizeCrossings (buildLayerBuckets (ivnOf g).2.1) (ivnOf g).1
    (ivnOf g).2.2.length

/-- The `Order` assignment loop of `Layout`. -/
def nodesWithOrder (g : LayoutGraph) : List Node :=
  (flattenBuckets (buckets2Of g)).foldl
    (fun (nodes : List Node) idx =>
      let node := nodes.getD idx node0
      nodes.set idx
        { node with
          order := orderInLayer (buckets2Of g)
            ((ivnOf g).2.1.getD idx 0) idx })
    (ivnOf g).2.2

/-- `layout.Layout`: the five phases in order.  An empty node list
returns the graph unchanged. -/
def Layout (g : LayoutGraph) (opts : LayoutOptions) : LayoutGraph :=
  if g.nodes = [] then g
  else
    { nodes := assignCoordinates (nodesWithOrder g) (buckets2Of g) opts
      edges := edgesOf g }

end GoUml

namespace GoUml

theorem foldl_inv {α β : Type _} (f : β → α → β) (P : β → Prop)
    (l : List α) (init : β) (h0 : P init)
    (hstep : ∀ b a, a ∈ l → P b → P (f b a)) : P (l.foldl f init) := by
  induction l generalizing init with
  | nil => exact h0
  | cons a rest ih =>
    exact ih (f init a) (hstep init a (by simp) h0)
      (fun b x hx hb => hstep b x (by simp [hx]) hb)

theorem alLoop_length (adj : List (List Nat)) (fuel : Nat)
    (q layers : List Nat) (inDeg : List Int) :
    (alLoop adj fuel q layers inDeg).length = layers.length := by
  induction fuel generalizing q layers inDeg with
  | zero => rfl
  | succ f ih =>
    cases q with
    | nil => rfl
    | cons u qrest =>
      unfold alLoop
      have hfold : ∀ (es : List Nat) (acc : List Nat × List Int × List Nat),
          (es.foldl (alEdgeStep u) acc).1.length = acc.1.length := by
        intro es
        induction es with
        | nil => intro acc; rfl
        | cons v rest ihe =>
          intro acc
          rw [List.foldl_cons, ihe]
          unfold alEdgeStep
          obtain ⟨l1, l2, l3⟩ := acc
          dsimp only
          split <;> simp
      rw [ih, hfold]

theorem assignLayers_length (adj : List (List Nat)) (n : Nat) :
    (assignLayers adj n).length = n := by
  unfold assignLayers
  rw [alLoop_length, List.length_replicate]

theorem ivnChain_inv (u j v : Nat) (ks : List Nat)
    (acc : List (List Nat) × List Nat × List Node × Nat)
    (hlen : acc.2.1.length = acc.2.2.1.length)
    (hlayer : ∀ idx, (acc.2.2.1.getD idx node0).layer =
      acc.2.1.getD idx 0)
    (hwd : ∀ idx, 0 ≤ (acc.2.2.1.getD idx node0).width ∧
      0 ≤ (acc.2.2.1.getD idx node0).height) :
    (ivnChain u j v ks acc).2.1.length =
      (ivnChain u j v ks acc).2.2.1.length ∧
    (∀ idx, ((ivnChain u j v ks acc).2.2.1.getD idx node0).layer =
      (ivnChain u j v ks acc).2.1.getD idx 0) ∧
    (∀ idx, 0 ≤ ((ivnChain u j v ks acc).2.2.1.getD idx node0).width ∧
      0 ≤ ((ivnChain u j v ks acc).2.2.1.getD idx node0).height) := by
  induction ks generalizing acc with
  | nil => exact ⟨hlen, hlayer, hwd⟩
  | cons k ks ih =>
    obtain ⟨newAdj, layers, nodes, prev⟩ := acc
    dsimp only at hlen hlayer hwd
    apply ih
    · simp [hlen]
    · intro idx
      dsimp only
      by_cases hidx : idx < layers.length
      · rw [List.getD_append nodes _ node0 idx (by omega),
          List.getD_append layers _ 0 idx hidx]
        exact hlayer idx
      · by_cases hidx2 : idx = layers.length
        · subst hidx2
          rw [List.getD_append_right nodes _ node0 _ (by omega),
            List.getD_append_right layers _ 0 _ (by omega), hlen]
          simp
        · rw [List.getD_eq_default _ node0 (by simp; omega),
            List.getD_eq_default _ 0 (by simp; omega)]
          rfl
    · intro idx
      dsimp only
      by_cases hidx : idx < nodes.length
      · rw [List.getD_append nodes _ node0 idx hidx]
        exact hwd idx
      · by_cases hidx2 : idx = nodes.length
        · subst hidx2
          rw [List.getD_append_right nodes _ node0 _ (by omega)]
          simp [node0]
        · rw [List.getD_eq_default _ node0 (by simp; omega)]
          simp [node0]

end GoUml

namespace GoUml

/-- The generic bucket-filling fold of `buildLayerBuckets`. -/
theorem bucketFold_getD (ps : List (Nat × Nat))
    (buckets : List (List Nat))
    (hvalid : ∀ p ∈ ps, p.2 < buckets.length) (l : Nat) :
    (ps.foldl (fun bs il => bs.set il.2 (bs.getD il.2 [] ++ [il.1]))
      buckets).getD l [] =
      buckets.getD l [] ++
        (ps.filter (fun p => p.2 = l)).map Prod.fst := by
  induction ps generalizing buckets with
  | nil => simp
  | cons p rest ih =>
    obtain ⟨i, ll⟩ := p
    have hll : ll < buckets.length := hvalid (i, ll) (by simp)
    rw [List.foldl_cons, ih _ (by
      intro q hq
      simpa using hvalid q (by simp [hq]))]
    by_cases hl : ll = l
    · subst hl
      rw [List.getD_eq_getElem?_getD, List.getElem?_set_self (by simpa),
        Option.getD_some]
      simp [List.getD_eq_getElem?_getD]
    · rw [List.getD_eq_getElem?_getD, List.getElem?_set_ne (by omega),
        ← List.getD_eq_getElem?_getD]
      simp [hl]

theorem foldl_max_ge (layers : List Nat) :
    ∀ x ∈ layers, x ≤ layers.foldl (fun m l => if l > m then l else m) 0 := by
  have hgen : ∀ (l : List Nat) (acc : Nat),
      acc ≤ l.foldl (fun m x => if x > m then x else m) acc ∧
      ∀ x ∈ l, x ≤ l.foldl (fun m x => if x > m then x else m) acc := by
    intro l
    induction l with
    | nil => intro acc; simp
    | cons a rest ih =>
      intro acc
      constructor
      · refine le_trans ?_ (ih (if a > acc then a else acc)).1
        split <;> omega
      · intro x hx
        rcases List.mem_cons.mp hx with rfl | hx'
        · refine le_trans ?_ (ih (if x > acc then x else acc)).1
          split <;> omega
        · exact (ih _).2 x hx'
  exact fun x hx => (hgen layers 0).2 x hx

theorem buildLayerBuckets_getD (layers : List Nat) (l : Nat) :
    (buildLayerBuckets layers).getD l [] =
      (layers.enum.filter (fun p => p.2 = l)).map Prod.fst := by
  unfold buildLayerBuckets
  rw [bucketFold_getD]
  · simp
  · intro p hp
    obtain ⟨hlt, heq⟩ := List.mem_enum hp
    simp only [List.length_replicate]
    have := foldl_max_ge layers p.2 (by rw [heq]; exact layers.getElem_mem hlt)
    omega

theorem buildLayerBuckets_mem (layers : List Nat) (x l : Nat) :
    x ∈ (buildLayerBuckets layers).getD l [] ↔
      x < layers.length ∧ layers.getD x 0 = l := by
  rw [buildLayerBuckets_getD]
  simp only [List.mem_map, List.mem_filter]
  constructor
  · rintro ⟨⟨i, v⟩, ⟨hmem, hv⟩, rfl⟩
    obtain ⟨hlt, heq⟩ := List.mem_enum hmem
    simp only [decide_eq_true_eq] at hv
    refine ⟨hlt, ?_⟩
    rw [List.getD_eq_getElem?_getD, List.getElem?_eq_getElem hlt]
    simpa [← heq] using hv
  · rintro ⟨hlt, hval⟩
    refine ⟨(x, layers[x]), ⟨?_, ?_⟩, rfl⟩
    · have hx : x < layers.enum.length := by simpa using hlt
      have : layers.enum[x] = (x, layers[x]) := List.getElem_enum _ _ hx
      rw [← this]
      exact List.getElem_mem _
    · simp only [decide_eq_true_eq]
      rw [List.getD_eq_getElem?_getD, List.getElem?_eq_getElem hlt] at hval
      simpa using hval

theorem buildLayerBuckets_nodup (layers : List Nat) (l : Nat) :
    ((buildLayerBuckets layers).getD l []).Nodup := by
  rw [buildLayerBuckets_getD]
  have hsub : (layers.enum.filter (fun p => p.2 = l)).map Prod.fst
      |>.Sublist (layers.enum.map Prod.fst) :=
    (List.filter_sublist _).map Prod.fst
  refine hsub.nodup ?_
  rw [List.enum_map_fst]
  exact List.nodup_range _

end GoUml

namespace GoUml

theorem entriesFold_map_fst (layer : List Nat)
    (conn : List (List Nat)) (pos : Nat → Option Nat)
    (acc : List (Nat × ℚ)) :
    (layer.foldl
      (fun entries node =>
        let sc := (conn.getD node []).foldl
          (fun (sc : ℚ × Nat) neighbor =>
            match pos neighbor with
            | some p => (sc.1 + p, sc.2 + 1)
            | none => sc)
          (0, 0)
        let bc : ℚ :=
          if sc.2 > 0 then sc.1 / sc.2 else (entries.length : ℚ)
        entries ++ [(node, bc)])
      acc).map Prod.fst = acc.map Prod.fst ++ layer := by
  induction layer generalizing acc with
  | nil => simp
  | cons node rest ih =>
    rw [List.foldl_cons, ih]
    simp

theorem insertPFold_perm (entries acc : List (Nat × ℚ)) :
    (entries.foldl
      (fun sorted e => sorted.insertP (fun x => e.2 < x.2) e) acc).Perm
      (acc ++ entries) := by
  induction entries generalizing acc with
  | nil => simp
  | cons e rest ih =>
    rw [List.foldl_cons]
    refine (ih _).trans ?_
    have h1 : ((acc.insertP (fun x => e.2 < x.2) e) ++ rest).Perm
        ((e :: acc) ++ rest) :=
      List.Perm.append_right rest (List.perm_insertP _ _ _)
    exact h1.trans List.perm_middle.symm

theorem reorderByBarycenter_perm (layer fixedLayer : List Nat)
    (connections : List (List Nat)) :
    (reorderByBarycenter layer fixedLayer connections).Perm layer := by
  unfold reorderByBarycenter
  refine ((insertPFold_perm _ []).map Prod.fst).trans ?_
  rw [List.nil_append, entriesFold_map_fst]
  simp

/-- Each crossing-minimization sweep permutes every bucket in place. -/
theorem minimizeCrossings_perm (buckets : List (List Nat))
    (adj : List (List Nat)) (n : Nat) (l : Nat) :
    ((minimizeCrossings buckets adj n).getD l []).Perm (buckets.getD l []) := by
  unfold minimizeCrossings
  have P : ∀ (bs : List (List Nat)),
      (∀ l, (bs.getD l []).Perm (buckets.getD l [])) →
      ∀ (i : Nat) (newb : List Nat), newb.Perm (bs.getD i []) →
      ∀ l, ((bs.set i newb).getD l []).Perm (buckets.getD l []) := by
    intro bs hbs i newb hperm l
    by_cases hi : i = l
    · subst hi
      by_cases hlt : i < bs.length
      · rw [List.getD_eq_getElem?_getD, List.getElem?_set_self hlt,
          Option.getD_some]
        exact hperm.trans (hbs i)
      · rw [List.set_eq_of_length_le (by omega)]
        exact hbs i
    · rw [List.getD_eq_getElem?_getD, List.getElem?_set_ne (by omega),
        ← List.getD_eq_getElem?_getD]
      exact hbs l
  have main : ∀ (bs : List (List Nat)),
      (∀ l, (bs.getD l []).Perm (buckets.getD l [])) → ∀ l,
      (((List.range 4).foldl
        (fun buckets pass =>
          if pass % 2 = 0 then
            (List.range (buckets.length - 1)).foldl
              (fun buckets i =>
                buckets.set (i + 1)
                  (reorderByBarycenter (buckets.getD (i + 1) [])
                    (buckets.getD i [])
                    (adj.enum.foldl
                      (fun radj un =>
                        un.2.foldl
                          (fun (radj : List (List Nat)) v =>
                            if v < n then
                              radj.set v (radj.getD v [] ++ [un.1])
                            else radj)
                          radj)
                      (List.replicate n []))))
              buckets
          else
            (List.range (buckets.length - 1)).reverse.foldl
              (fun buckets i =>
                buckets.set i
                  (reorderByBarycenter (buckets.getD i [])
                    (buckets.getD (i + 1) []) adj))
              buckets)
        bs).getD l []).Perm (buckets.getD l []) := by
    intro bs hbs
    have hstep : ∀ (cur : List (List Nat)) (pass : Nat),
        (∀ l, (cur.getD l []).Perm (buckets.getD l [])) →
        ∀ l, (((if pass % 2 = 0 then
            (List.range (cur.length - 1)).foldl
              (fun buckets i =>
                buckets.set (i + 1)
                  (reorderByBarycenter (buckets.getD (i + 1) [])
                    (buckets.getD i [])
                    (adj.enum.foldl
                      (fun radj un =>
                        un.2.foldl
                          (fun (radj : List (List Nat)) v =>
                            if v < n then
                              radj.set v (radj.getD v [] ++ [un.1])
                            else radj)
                          radj)
                      (List.replicate n []))))
              cur
          else
            (List.range (cur.length - 1)).reverse.foldl
              (fun buckets i =>
                buckets.set i
                  (reorderByBarycenter (buckets.getD i [])
                    (buckets.getD (i + 1) []) adj))
              cur)).getD l []).Perm (buckets.getD l []) := by
      intro cur pass hcur
      split
      · refine foldl_inv _
          (fun bs : List (List Nat) => ∀ l, (bs.getD l []).Perm (buckets.getD l [])) _ _ hcur ?_
        intro bs i _ hbs'
        exact P bs hbs' (i + 1) _ (reorderByBarycenter_perm _ _ _)
      · refine foldl_inv _
          (fun bs : List (List Nat) => ∀ l, (bs.getD l []).Perm (buckets.getD l [])) _ _ hcur ?_
        intro bs i _ hbs'
        exact P bs hbs' i _ (reorderByBarycenter_perm _ _ _)
    refine foldl_inv _
      (fun bs : List (List Nat) => ∀ l, (bs.getD l []).Perm (buckets.getD l [])) _ _ hbs ?_
    intro bs pass _ hbs'
    exact hstep bs pass hbs'
  exact main buckets (fun _ => List.Perm.refl _) l

end GoUml

namespace GoUml

/-- Invariant of `insertVirtualNodes`: layers and nodes stay in sync,
node `Layer` fields track the layers list, and sizes stay nonnegative.
-/
theorem insertVirtualNodes_inv (adj : List (List Nat))
    (layers : List Nat) (nodes : List Node)
    (hlen : layers.length = nodes.length)
    (hlayer : ∀ idx, (nodes.getD idx node0).layer = layers.getD idx 0)
    (hwd : ∀ idx, 0 ≤ (nodes.getD idx node0).width ∧
      0 ≤ (nodes.getD idx node0).height) :
    (insertVirtualNodes adj layers nodes).2.1.length =
      (insertVirtualNodes adj layers nodes).2.2.length ∧
    (∀ idx, ((insertVirtualNodes adj layers nodes).2.2.getD idx
      node0).layer = (insertVirtualNodes adj layers nodes).2.1.getD idx 0) ∧
    (∀ idx,
      0 ≤ ((insertVirtualNodes adj layers nodes).2.2.getD idx node0).width ∧
      0 ≤ ((insertVirtualNodes adj layers nodes).2.2.getD idx
        node0).height) := by
  have main : ∀ (r : List (List Nat) × List Nat × List Node),
      r = insertVirtualNodes adj layers nodes →
      r.2.1.length = r.2.2.length ∧
      (∀ idx, (r.2.2.getD idx node0).layer = r.2.1.getD idx 0) ∧
      (∀ idx, 0 ≤ (r.2.2.getD idx node0).width ∧
        0 ≤ (r.2.2.getD idx node0).height) := by
    intro r hr
    subst hr
    unfold insertVirtualNodes
    refine foldl_inv _
      (fun acc : List (List Nat) × List Nat × List Node =>
        acc.2.1.length = acc.2.2.length ∧
        (∀ idx, (acc.2.2.getD idx node0).layer = acc.2.1.getD idx 0) ∧
        (∀ idx, 0 ≤ (acc.2.2.getD idx node0).width ∧
          0 ≤ (acc.2.2.getD idx node0).height))
      _ _ ⟨hlen, hlayer, hwd⟩ ?_
    intro acc u _ hacc
    refine foldl_inv _
      (fun acc : List (List Nat) × List Nat × List Node =>
        acc.2.1.length = acc.2.2.length ∧
        (∀ idx, (acc.2.2.getD idx node0).layer = acc.2.1.getD idx 0) ∧
        (∀ idx, 0 ≤ (acc.2.2.getD idx node0).width ∧
          0 ≤ (acc.2.2.getD idx node0).height))
      _ _ hacc ?_
    intro acc2 jv _ hacc2
    obtain ⟨j, v⟩ := jv
    obtain ⟨newAdj, layers2, nodes2⟩ := acc2
    obtain ⟨ha, hb, hc⟩ := hacc2
    dsimp only
    split
    · exact ⟨ha, hb, hc⟩
    · have := ivnChain_inv u j v
        ((List.range ((layers2.getD v 0 - layers2.getD u 0) - 1)).map
          (· + 1))
        (newAdj, layers2, nodes2, u) ha hb hc
      exact ⟨this.1, this.2.1, this.2.2⟩
  exact main _ rfl

end GoUml

namespace GoUml

/-- Reading back an in-range `set`. -/
theorem getD_set_self (ns : List Node) (idx : Nat) (v : Node)
    (h : idx < ns.length) : (ns.set idx v).getD idx node0 = v := by
  rw [List.getD_eq_getElem?_getD, List.getElem?_set_self h,
    Option.getD_some]

/-- `set` leaves the other slots alone. -/
theorem getD_set_ne (ns : List Node) (idx i : Nat) (v : Node)
    (h : i ≠ idx) : (ns.set idx v).getD i node0 = ns.getD i node0 := by
  rw [List.getD_eq_getElem?_getD, List.getElem?_set_ne (by omega),
    ← List.getD_eq_getElem?_getD]

/-- A projection the write agrees on is preserved at every slot. -/
theorem getD_set_proj {α : Type _} (f : Node → α) (ns : List Node)
    (idx : Nat) (v : Node) (hv : f v = f (ns.getD idx node0)) (i : Nat) :
    f ((ns.set idx v).getD i node0) = f (ns.getD i node0) := by
  by_cases hlen : idx < ns.length
  · by_cases hi : i = idx
    · subst hi
      rw [getD_set_self _ _ _ hlen, hv]
    · rw [getD_set_ne _ _ _ _ hi]
  · rw [List.set_eq_of_length_le (by omega)]

theorem layersOf_length (g : LayoutGraph) :
    (layersOf g).length = g.nodes.length := by
  unfold layersOf
  exact assignLayers_length _ _

theorem nodesWithLayers_length (g : LayoutGraph) :
    (nodesWithLayers g).length = g.nodes.length := by
  unfold nodesWithLayers
  rw [List.length_map, List.length_zip, layersOf_length, Nat.min_self]

theorem nodesWithLayers_fields (g : LayoutGraph) (idx : Nat) :
    ((nodesWithLayers g).getD idx node0).layer =
      (layersOf g).getD idx 0 ∧
    ((nodesWithLayers g).getD idx node0).width =
      (g.nodes.getD idx node0).width ∧
    ((nodesWithLayers g).getD idx node0).height =
      (g.nodes.getD idx node0).height := by
  by_cases h : idx < g.nodes.length
  · have h2 : idx < (layersOf g).length := by rw [layersOf_length]; exact h
    have hz : (g.nodes.zip (layersOf g))[idx]? =
        some (g.nodes[idx], (layersOf g)[idx]) :=
      List.getElem?_zip_eq_some.mpr
        ⟨List.getElem?_eq_getElem h, List.getElem?_eq_getElem h2⟩
    have hm : (nodesWithLayers g)[idx]? =
        some { g.nodes[idx] with layer := (layersOf g)[idx] } := by
      unfold nodesWithLayers
      rw [List.getElem?_map, hz]
      rfl
    rw [List.getD_eq_getElem?_getD, hm, Option.getD_some,
      List.getD_eq_getElem?_getD g.nodes,
      List.getElem?_eq_getElem h, Option.getD_some,
      List.getD_eq_getElem?_getD (layersOf g),
      List.getElem?_eq_getElem h2, Option.getD_some]
    exact ⟨rfl, rfl, rfl⟩
  · rw [List.getD_eq_default _ node0 (by rw [nodesWithLayers_length]; omega),
      List.getD_eq_default _ node0 (by omega),
      List.getD_eq_default _ 0 (by rw [layersOf_length]; omega)]
    exact ⟨rfl, rfl, rfl⟩

end GoUml

namespace GoUml

/-- The coordinate-independent fields of a node. -/
def coreFields (n : Node) : Nat × ℚ × ℚ := (n.layer, n.width, n.height)

/-- Horizontal separation of slot `a` before slot `c`: the full width
of `a` plus the padding fits between the two x coordinates. -/
def sepBy (pad : ℚ) (ns : List Node) (a c : Nat) : Prop :=
  (ns.getD a node0).x + (ns.getD a node0).width + pad ≤
    (ns.getD c node0).x

/-- The single-layer placement fold of `assignCoordinates`: length and
core fields are preserved, untouched slots keep their values, every
placed slot sits at or right of the starting cursor, and the placed
slots are pairwise separated. -/
theorem acPlace_fold (y pad : ℚ) (hpad : 0 ≤ pad) :
    ∀ (b : List Nat) (ns : List Node) (x0 m0 : ℚ), b.Nodup →
    (∀ i ∈ b, i < ns.length) →
    (∀ i, 0 ≤ (ns.getD i node0).width) →
    (List.foldl (acPlaceStep y pad) (ns, x0, m0) b).1.length =
      ns.length ∧
    (∀ i, coreFields
        ((List.foldl (acPlaceStep y pad) (ns, x0, m0) b).1.getD i
          node0) = coreFields (ns.getD i node0)) ∧
    (∀ i, i ∉ b →
      (List.foldl (acPlaceStep y pad) (ns, x0, m0) b).1.getD i node0 =
        ns.getD i node0) ∧
    (∀ i ∈ b, x0 ≤
      ((List.foldl (acPlaceStep y pad) (ns, x0, m0) b).1.getD i
        node0).x) ∧
    List.Pairwise
      (sepBy pad (List.foldl (acPlaceStep y pad) (ns, x0, m0) b).1)
      b := by
  intro b
  induction b with
  | nil =>
    intro ns x0 m0 _ _ _
    exact ⟨rfl, fun _ => rfl, fun _ _ => rfl, by simp,
      List.Pairwise.nil⟩
  | cons hd tl ih =>
    intro ns x0 m0 hnd hb hw
    obtain ⟨hhd, htl⟩ := List.nodup_cons.mp hnd
    have hhdlt : hd < ns.length := hb hd (List.mem_cons_self hd tl)
    have hstep : acPlaceStep y pad (ns, x0, m0) hd =
        (ns.set hd { ns.getD hd node0 with x := x0, y := y },
         x0 + (ns.getD hd node0).width + pad,
         if (ns.getD hd node0).height > m0 then
           (ns.getD hd node0).height else m0) := rfl
    rw [List.foldl_cons, hstep]
    have hb1 : ∀ i ∈ tl,
        i < (ns.set hd { ns.getD hd node0 with x := x0, y := y }).length := by
      intro i hi
      rw [List.length_set]
      exact hb i (List.mem_cons_of_mem hd hi)
    have hw1 : ∀ i, 0 ≤
        ((ns.set hd { ns.getD hd node0 with x := x0, y := y }).getD i
          node0).width := by
      intro i
      have := getD_set_proj (fun nd => nd.width) ns hd
        { ns.getD hd node0 with x := x0, y := y } rfl i
      rw [this]
      exact hw i
    obtain ⟨ihlen, ihfields, ihuntouched, ihge, ihpw⟩ :=
      ih (ns.set hd { ns.getD hd node0 with x := x0, y := y })
        (x0 + (ns.getD hd node0).width + pad)
        (if (ns.getD hd node0).height > m0 then
          (ns.getD hd node0).height else m0) htl hb1 hw1
    have hhdval :
        (List.foldl (acPlaceStep y pad)
          (ns.set hd { ns.getD hd node0 with x := x0, y := y },
           x0 + (ns.getD hd node0).width + pad,
           if (ns.getD hd node0).height > m0 then
             (ns.getD hd node0).height else m0) tl).1.getD hd node0 =
        { ns.getD hd node0 with x := x0, y := y } := by
      rw [ihuntouched hd hhd, getD_set_self _ _ _ hhdlt]
    refine ⟨?_, ?_, ?_, ?_, ?_⟩
    · rw [ihlen, List.length_set]
    · intro i
      rw [ihfields i]
      exact getD_set_proj coreFields ns hd
        { ns.getD hd node0 with x := x0, y := y } rfl i
    · intro i hi
      rw [ihuntouched i (fun h => hi (List.mem_cons_of_mem hd h)),
        getD_set_ne _ _ _ _
          (fun h => hi (by rw [h]; exact List.mem_cons_self hd tl))]
    · intro i hi
      rcases List.mem_cons.mp hi with rfl | hi'
      · rw [hhdval]
      · have := ihge i hi'
        have hw0 := hw hd
        linarith
    · refine List.pairwise_cons.mpr ⟨?_, ihpw⟩
      intro c hc
      unfold sepBy
      rw [hhdval]
      have hx : ({ ns.getD hd node0 with x := x0, y := y } : Node).x +
          ({ ns.getD hd node0 with x := x0, y := y } : Node).width +
          pad = x0 + (ns.getD hd node0).width + pad := rfl
      rw [hx]
      exact ihge c hc

end GoUml

namespace GoUml

theorem coreFields_layer {a b : Node} (h : coreFields a = coreFields b) :
    a.layer = b.layer := congrArg Prod.fst h

theorem coreFields_width {a b : Node} (h : coreFields a = coreFields b) :
    a.width = b.width := congrArg (fun p => p.2.1) h

theorem coreFields_height {a b : Node} (h : coreFields a = coreFields b) :
    a.height = b.height := congrArg (fun p => p.2.2) h

/-- The single-layer centering fold of `assignCoordinates`: every slot
of the layer is shifted right by `offset`; the rest is untouched. -/
theorem acCenter_fold (offset : ℚ) :
    ∀ (b : List Nat) (ns : List Node), b.Nodup →
    (∀ i ∈ b, i < ns.length) →
    (List.foldl (acCenterNode offset) ns b).length = ns.length ∧
    (∀ i, i ∉ b →
      (List.foldl (acCenterNode offset) ns b).getD i node0 =
        ns.getD i node0) ∧
    (∀ i ∈ b, (List.foldl (acCenterNode offset) ns b).getD i node0 =
      { ns.getD i node0 with
        x := (ns.getD i node0).x + offset }) := by
  intro b
  induction b with
  | nil =>
    intro ns _ _
    exact ⟨rfl, fun _ _ => rfl, by simp⟩
  | cons hd tl ih =>
    intro ns hnd hb
    obtain ⟨hhd, htl⟩ := List.nodup_cons.mp hnd
    have hhdlt : hd < ns.length := hb hd (List.mem_cons_self hd tl)
    have hstep : acCenterNode offset ns hd =
        ns.set hd { ns.getD hd node0 with
          x := (ns.getD hd node0).x + offset } := rfl
    rw [List.foldl_cons, hstep]
    have hb1 : ∀ i ∈ tl, i < (ns.set hd { ns.getD hd node0 with
        x := (ns.getD hd node0).x + offset }).length := by
      intro i hi
      rw [List.length_set]
      exact hb i (List.mem_cons_of_mem hd hi)
    obtain ⟨ihlen, ihuntouched, ihmem⟩ :=
      ih (ns.set hd { ns.getD hd node0 with
        x := (ns.getD hd node0).x + offset }) htl hb1
    refine ⟨?_, ?_, ?_⟩
    · rw [ihlen, List.length_set]
    · intro i hi
      rw [ihuntouched i (fun h => hi (List.mem_cons_of_mem hd h)),
        getD_set_ne _ _ _ _
          (fun h => hi (by rw [h]; exact List.mem_cons_self hd tl))]
    · intro i hi
      rcases List.mem_cons.mp hi with rfl | hi'
      · rw [ihuntouched i hhd, getD_set_self _ _ _ hhdlt]
      · have hne : i ≠ hd := fun h => hhd (h ▸ hi')
        rw [ihmem i hi', getD_set_ne _ _ _ _ hne]

end GoUml

namespace GoUml

/-- The per-layer placement loop of `assignCoordinates` over
index-disjoint buckets: lengths and core fields survive, slots outside
every bucket survive, and each bucket ends up pairwise separated. -/
theorem acLayers_fold (pad spacing : ℚ) (hpad : 0 ≤ pad) :
    ∀ (bs : List (List Nat)) (ns : List Node) (y : ℚ),
    (∀ b ∈ bs, b.Nodup) →
    (∀ b ∈ bs, ∀ i ∈ b, i < ns.length) →
    (∀ i, 0 ≤ (ns.getD i node0).width) →
    bs.Pairwise (fun b1 b2 => ∀ i ∈ b1, i ∉ b2) →
    (List.foldl (acLayerStep pad spacing) (ns, y) bs).1.length =
      ns.length ∧
    (∀ i, coreFields
        ((List.foldl (acLayerStep pad spacing) (ns, y) bs).1.getD i
          node0) = coreFields (ns.getD i node0)) ∧
    (∀ i, (∀ b ∈ bs, i ∉ b) →
      (List.foldl (acLayerStep pad spacing) (ns, y) bs).1.getD i node0 =
        ns.getD i node0) ∧
    (∀ b ∈ bs, List.Pairwise
      (sepBy pad (List.foldl (acLayerStep pad spacing) (ns, y) bs).1)
      b) := by
  intro bs
  induction bs with
  | nil =>
    intro ns y _ _ _ _
    exact ⟨rfl, fun _ => rfl, fun _ _ => rfl, by simp⟩
  | cons hd tl ih =>
    intro ns y hnd hb hw hdisj
    obtain ⟨hdisj_head, hdisj_tl⟩ := List.pairwise_cons.mp hdisj
    have hplace := acPlace_fold y pad hpad hd ns 0 0
      (hnd hd (List.mem_cons_self hd tl))
      (hb hd (List.mem_cons_self hd tl)) hw
    rcases he : List.foldl (acPlaceStep y pad) (ns, 0, 0) hd with
      ⟨ns1, x1, m1⟩
    rw [he] at hplace
    obtain ⟨hplen, hpfields, hpuntouched, hpge, hppw⟩ := hplace
    have hstep : acLayerStep pad spacing (ns, y) hd =
        (ns1, y + m1 + spacing) := by
      have hm : acLayerStep pad spacing (ns, y) hd =
          (match List.foldl (acPlaceStep y pad) (ns, 0, 0) hd with
           | (nodes', _, maxH) => (nodes', y + maxH + spacing)) := rfl
      rw [hm, he]
    rw [List.foldl_cons, hstep]
    have hb1 : ∀ b ∈ tl, ∀ i ∈ b, i < ns1.length := by
      intro b hbtl i hib
      rw [hplen]
      exact hb b (List.mem_cons_of_mem hd hbtl) i hib
    have hw1 : ∀ i, 0 ≤ (ns1.getD i node0).width := by
      intro i
      rw [coreFields_width (hpfields i)]
      exact hw i
    obtain ⟨ihlen, ihfields, ihuntouched, ihsep⟩ :=
      ih ns1 (y + m1 + spacing)
        (fun b hbtl => hnd b (List.mem_cons_of_mem hd hbtl))
        hb1 hw1 hdisj_tl
    refine ⟨?_, ?_, ?_, ?_⟩
    · rw [ihlen, hplen]
    · intro i
      rw [ihfields i, hpfields i]
    · intro i hi
      rw [ihuntouched i
        (fun b hbtl => hi b (List.mem_cons_of_mem hd hbtl)),
        hpuntouched i (hi hd (List.mem_cons_self hd tl))]
    · intro b hbmem
      rcases List.mem_cons.mp hbmem with rfl | hbtl
      · refine hppw.imp_of_mem ?_
        intro a c ha hc hsep
        have hra : (List.foldl (acLayerStep pad spacing)
            (ns1, y + m1 + spacing) tl).1.getD a node0 =
            ns1.getD a node0 :=
          ihuntouched a (fun b2 hb2 => hdisj_head b2 hb2 a ha)
        have hrc : (List.foldl (acLayerStep pad spacing)
            (ns1, y + m1 + spacing) tl).1.getD c node0 =
            ns1.getD c node0 :=
          ihuntouched c (fun b2 hb2 => hdisj_head b2 hb2 c hc)
        unfold sepBy at hsep ⊢
        rw [hra, hrc]
        exact hsep
      · exact ihsep b hbtl

end GoUml

namespace GoUml

/-- The per-layer centering loop of `assignCoordinates` over
index-disjoint buckets: each bucket is shifted uniformly, so lengths,
core fields and pairwise separation survive. -/
theorem acCenterLayers_fold (maxW pad : ℚ) :
    ∀ (bs : List (List Nat)) (ns : List Node),
    (∀ b ∈ bs, b.Nodup) →
    (∀ b ∈ bs, ∀ i ∈ b, i < ns.length) →
    bs.Pairwise (fun b1 b2 => ∀ i ∈ b1, i ∉ b2) →
    (List.foldl (acCenterLayer maxW pad) ns bs).length = ns.length ∧
    (∀ i, coreFields
        ((List.foldl (acCenterLayer maxW pad) ns bs).getD i node0) =
      coreFields (ns.getD i node0)) ∧
    (∀ i, (∀ b ∈ bs, i ∉ b) →
      (List.foldl (acCenterLayer maxW pad) ns bs).getD i node0 =
        ns.getD i node0) ∧
    (∀ b ∈ bs, List.Pairwise (sepBy pad ns) b →
      List.Pairwise
        (sepBy pad (List.foldl (acCenterLayer maxW pad) ns bs)) b) := by
  intro bs
  induction bs with
  | nil =>
    intro ns _ _ _
    exact ⟨rfl, fun _ => rfl, fun _ _ => rfl, fun _ h => absurd h
      (by simp)⟩
  | cons hd tl ih =>
    intro ns hnd hb hdisj
    obtain ⟨hdisj_head, hdisj_tl⟩ := List.pairwise_cons.mp hdisj
    have hstep : acCenterLayer maxW pad ns hd =
        List.foldl (acCenterNode ((maxW - layerWidth ns hd pad) / 2))
          ns hd := rfl
    obtain ⟨hclen, hcuntouched, hcmem⟩ :=
      acCenter_fold ((maxW - layerWidth ns hd pad) / 2) hd ns
        (hnd hd (List.mem_cons_self hd tl))
        (hb hd (List.mem_cons_self hd tl))
    rw [List.foldl_cons, hstep]
    have hcfields : ∀ i, coreFields
        ((List.foldl (acCenterNode ((maxW - layerWidth ns hd pad) / 2))
          ns hd).getD i node0) = coreFields (ns.getD i node0) := by
      intro i
      by_cases hi : i ∈ hd
      · rw [hcmem i hi]
        rfl
      · rw [hcuntouched i hi]
    have hb1 : ∀ b ∈ tl, ∀ i ∈ b,
        i < (List.foldl (acCenterNode ((maxW - layerWidth ns hd pad) / 2))
          ns hd).length := by
      intro b hbtl i hib
      rw [hclen]
      exact hb b (List.mem_cons_of_mem hd hbtl) i hib
    obtain ⟨ihlen, ihfields, ihuntouched, ihsep⟩ :=
      ih (List.foldl (acCenterNode ((maxW - layerWidth ns hd pad) / 2))
          ns hd)
        (fun b hbtl => hnd b (List.mem_cons_of_mem hd hbtl))
        hb1 hdisj_tl
    refine ⟨?_, ?_, ?_, ?_⟩
    · rw [ihlen, hclen]
    · intro i
      rw [ihfields i, hcfields i]
    · intro i hi
      rw [ihuntouched i
        (fun b hbtl => hi b (List.mem_cons_of_mem hd hbtl)),
        hcuntouched i (hi hd (List.mem_cons_self hd tl))]
    · intro b hbmem hsep
      rcases List.mem_cons.mp hbmem with rfl | hbtl
      · refine hsep.imp_of_mem ?_
        intro a c ha hc hs
        have hra := (ihuntouched a
          (fun b2 hb2 => hdisj_head b2 hb2 a ha)).trans (hcmem a ha)
        have hrc := (ihuntouched c
          (fun b2 hb2 => hdisj_head b2 hb2 c hc)).trans (hcmem c hc)
        unfold sepBy at hs ⊢
        rw [hra, hrc]
        dsimp only
        linarith
      · refine ihsep b hbtl ?_
        refine hsep.imp_of_mem ?_
        intro a c ha hc hs
        have hna : a ∉ hd := by
          intro hmem
          exact hdisj_head b hbtl a hmem ha
        have hnc : c ∉ hd := by
          intro hmem
          exact hdisj_head b hbtl c hmem hc
        unfold sepBy at hs ⊢
        rw [hcuntouched a hna, hcuntouched c hnc]
        exact hs

end GoUml

namespace GoUml

/-- `assignCoordinates` over index-disjoint, duplicate-free buckets of
in-range indices: it preserves length and core fields and leaves every
bucket pairwise separated by the node padding. -/
theorem assignCoordinates_sep (ns : List Node) (bs : List (List Nat))
    (opts : LayoutOptions) (hpad : 0 ≤ opts.nodePadding)
    (hnd : ∀ b ∈ bs, b.Nodup)
    (hb : ∀ b ∈ bs, ∀ i ∈ b, i < ns.length)
    (hw : ∀ i, 0 ≤ (ns.getD i node0).width)
    (hdisj : bs.Pairwise (fun b1 b2 => ∀ i ∈ b1, i ∉ b2)) :
    (assignCoordinates ns bs opts).length = ns.length ∧
    (∀ i, coreFields ((assignCoordinates ns bs opts).getD i node0) =
      coreFields (ns.getD i node0)) ∧
    (∀ b ∈ bs, List.Pairwise
      (sepBy opts.nodePadding (assignCoordinates ns bs opts)) b) := by
  obtain ⟨hplen, hpfields, _, hpsep⟩ :=
    acLayers_fold opts.nodePadding opts.layerSpacing hpad bs ns 0
      hnd hb hw hdisj
  have hb1 : ∀ b ∈ bs, ∀ i ∈ b, i <
      (List.foldl (acLayerStep opts.nodePadding opts.layerSpacing)
        (ns, 0) bs).1.length := by
    intro b hbm i hib
    rw [hplen]
    exact hb b hbm i hib
  obtain ⟨hclen, hcfields, _, hcsep⟩ :=
    acCenterLayers_fold
      (bs.foldl
        (fun m layer =>
          let w := layerWidth
            (List.foldl (acLayerStep opts.nodePadding opts.layerSpacing)
              (ns, 0) bs).1 layer opts.nodePadding
          if w > m then w else m)
        0)
      opts.nodePadding bs
      (List.foldl (acLayerStep opts.nodePadding opts.layerSpacing)
        (ns, 0) bs).1
      hnd hb1 hdisj
  have hunfold : assignCoordinates ns bs opts =
      List.foldl
        (acCenterLayer
          (bs.foldl
            (fun m layer =>
              let w := layerWidth
                (List.foldl
                  (acLayerStep opts.nodePadding opts.layerSpacing)
                  (ns, 0) bs).1 layer opts.nodePadding
              if w > m then w else m)
            0)
          opts.nodePadding)
        (List.foldl (acLayerStep opts.nodePadding opts.layerSpacing)
          (ns, 0) bs).1 bs := rfl
  rw [hunfold]
  refine ⟨hclen.trans hplen, ?_, ?_⟩
  · intro i
    rw [hcfields i, hpfields i]
  · intro b hbm
    exact hcsep b hbm (hpsep b hbm)

end GoUml

namespace GoUml

/-- The virtual-node phase keeps layers and nodes in sync on `Layout`'s
actual inputs. -/
theorem ivnOf_inv (g : LayoutGraph)
    (hwh : ∀ n ∈ g.nodes, 0 ≤ n.width ∧ 0 ≤ n.height) :
    (ivnOf g).2.1.length = (ivnOf g).2.2.length ∧
    (∀ idx, ((ivnOf g).2.2.getD idx node0).layer =
      (ivnOf g).2.1.getD idx 0) ∧
    (∀ idx, 0 ≤ ((ivnOf g).2.2.getD idx node0).width ∧
      0 ≤ ((ivnOf g).2.2.getD idx node0).height) := by
  have hg : ∀ i, 0 ≤ (g.nodes.getD i node0).width ∧
      0 ≤ (g.nodes.getD i node0).height := by
    intro i
    by_cases h : i < g.nodes.length
    · rw [List.getD_eq_getElem?_getD, List.getElem?_eq_getElem h,
        Option.getD_some]
      exact hwh g.nodes[i] (List.getElem_mem h)
    · rw [List.getD_eq_default _ node0 (by omega)]
      exact ⟨le_refl 0, le_refl 0⟩
  unfold ivnOf
  refine insertVirtualNodes_inv _ _ _ ?_ ?_ ?_
  · rw [layersOf_length, nodesWithLayers_length]
  · intro idx
    exact (nodesWithLayers_fields g idx).1
  · intro idx
    obtain ⟨_, hw, hh⟩ := nodesWithLayers_fields g idx
    rw [hw, hh]
    exact hg idx

/-- Membership in a crossing-minimized bucket, in terms of the layer
assignment after virtual-node insertion. -/
theorem buckets2_mem (g : LayoutGraph) (x l : Nat) :
    x ∈ (buckets2Of g).getD l [] ↔
      x < (ivnOf g).2.1.length ∧ (ivnOf g).2.1.getD x 0 = l := by
  unfold buckets2Of
  rw [(minimizeCrossings_perm _ _ _ l).mem_iff]
  exact buildLayerBuckets_mem _ x l

theorem buckets2_nodup (g : LayoutGraph) (l : Nat) :
    ((buckets2Of g).getD l []).Nodup := by
  unfold buckets2Of
  exact (minimizeCrossings_perm _ _ _ l).nodup_iff.mpr
    (buildLayerBuckets_nodup _ l)

/-- Every element of the bucket list is one of its `getD` values. -/
theorem buckets2_mem_list (g : LayoutGraph) (b : List Nat)
    (hb : b ∈ buckets2Of g) : ∃ l, b = (buckets2Of g).getD l [] := by
  obtain ⟨k, hk, heq⟩ := List.mem_iff_getElem.mp hb
  refine ⟨k, ?_⟩
  rw [List.getD_eq_getElem?_getD, List.getElem?_eq_getElem hk,
    Option.getD_some, heq]

/-- Distinct buckets never share a node index. -/
theorem buckets2_disjoint (g : LayoutGraph) :
    (buckets2Of g).Pairwise (fun b1 b2 => ∀ i ∈ b1, i ∉ b2) := by
  have hchar : ∀ k, ∀ i ∈ (buckets2Of g).getD k [],
      (ivnOf g).2.1.getD i 0 = k :=
    fun k i hi => ((buckets2_mem g i k).mp hi).2
  generalize hbs : buckets2Of g = bs at hchar ⊢
  rw [List.pairwise_iff_getElem]
  intro k k' hk hk' hlt i hi1 hi2
  have h1 : bs[k] = bs.getD k [] := by
    rw [List.getD_eq_getElem?_getD, List.getElem?_eq_getElem hk,
      Option.getD_some]
  have h2 : bs[k'] = bs.getD k' [] := by
    rw [List.getD_eq_getElem?_getD, List.getElem?_eq_getElem hk',
      Option.getD_some]
  rw [h1] at hi1
  rw [h2] at hi2
  have e1 := hchar k i hi1
  have e2 := hchar k' i hi2
  omega

/-- The `Order` loop only writes the `order` field. -/
theorem nodesWithOrder_inv (g : LayoutGraph) :
    (nodesWithOrder g).length = (ivnOf g).2.2.length ∧
    ∀ i, coreFields ((nodesWithOrder g).getD i node0) =
      coreFields ((ivnOf g).2.2.getD i node0) := by
  unfold nodesWithOrder
  refine foldl_inv _
    (fun ns : List Node =>
      ns.length = (ivnOf g).2.2.length ∧
      ∀ i, coreFields (ns.getD i node0) =
        coreFields ((ivnOf g).2.2.getD i node0))
    _ _ ⟨rfl, fun _ => rfl⟩ ?_
  intro ns idx _ hacc
  obtain ⟨hlen, hf⟩ := hacc
  dsimp only
  constructor
  · rw [List.length_set]
    exact hlen
  · intro i
    generalize orderInLayer (buckets2Of g)
      ((ivnOf g).2.1.getD idx 0) idx = o
    rw [getD_set_proj coreFields ns idx
      { ns.getD idx node0 with order := o } rfl i]
    exact hf i

end GoUml

namespace GoUml

/-- Open-interior overlap of two laid-out rectangles. -/
def rectOverlap (a b : Node) : Prop :=
  a.x < b.x + b.width ∧ b.x < a.x + a.width ∧
  a.y < b.y + b.height ∧ b.y < a.y + a.height

/-- **C7**: for every input graph whose nodes have nonnegative widths
and heights, after `Layout` runs with the default options
(NodePadding 40, LayerSpacing 60), no two distinct non-virtual nodes
assigned to the same layer have overlapping (x, y, width, height)
rectangles. -/
theorem layout_no_overlap (g : LayoutGraph)
    (hwh : ∀ n ∈ g.nodes, 0 ≤ n.width ∧ 0 ≤ n.height)
    (i j : Nat) (hij : i ≠ j)
    (hi : i < (Layout g defaultOptions).nodes.length)
    (hj : j < (Layout g defaultOptions).nodes.length)
    (_hvi : ((Layout g defaultOptions).nodes.getD i node0).virtual =
      false)
    (_hvj : ((Layout g defaultOptions).nodes.getD j node0).virtual =
      false)
    (hlayer : ((Layout g defaultOptions).nodes.getD i node0).layer =
      ((Layout g defaultOptions).nodes.getD j node0).layer) :
    ¬ rectOverlap ((Layout g defaultOptions).nodes.getD i node0)
      ((Layout g defaultOptions).nodes.getD j node0) := by
  by_cases hempty : g.nodes = []
  · unfold Layout at hi
    rw [if_pos hempty, hempty] at hi
    simp at hi
  · have hL : (Layout g defaultOptions).nodes =
        assignCoordinates (nodesWithOrder g) (buckets2Of g)
          defaultOptions := by
      unfold Layout
      rw [if_neg hempty]
    rw [hL] at hi hj hlayer ⊢
    obtain ⟨hivlen, hivlayer, hivwd⟩ := ivnOf_inv g hwh
    obtain ⟨hnolen, hnof⟩ := nodesWithOrder_inv g
    have hnd : ∀ b ∈ buckets2Of g, b.Nodup := by
      intro b hb
      obtain ⟨l, heq⟩ := buckets2_mem_list g b hb
      rw [heq]
      exact buckets2_nodup g l
    have hbnd : ∀ b ∈ buckets2Of g, ∀ k ∈ b,
        k < (nodesWithOrder g).length := by
      intro b hb k hk
      obtain ⟨l, heq⟩ := buckets2_mem_list g b hb
      rw [heq] at hk
      have := ((buckets2_mem g k l).mp hk).1
      rw [hnolen, ← hivlen]
      exact this
    have hwns : ∀ k, 0 ≤ ((nodesWithOrder g).getD k node0).width := by
      intro k
      rw [coreFields_width (hnof k)]
      exact (hivwd k).1
    obtain ⟨haclen, hacfields, hacsep⟩ :=
      assignCoordinates_sep (nodesWithOrder g) (buckets2Of g)
        defaultOptions (by norm_num [defaultOptions]) hnd hbnd hwns
        (buckets2_disjoint g)
    have hlayeri : ((assignCoordinates (nodesWithOrder g)
        (buckets2Of g) defaultOptions).getD i node0).layer =
        (ivnOf g).2.1.getD i 0 := by
      rw [coreFields_layer (hacfields i), coreFields_layer (hnof i)]
      exact hivlayer i
    have hlayerj : ((assignCoordinates (nodesWithOrder g)
        (buckets2Of g) defaultOptions).getD j node0).layer =
        (ivnOf g).2.1.getD j 0 := by
      rw [coreFields_layer (hacfields j), coreFields_layer (hnof j)]
      exact hivlayer j
    have hll : (ivnOf g).2.1.getD j 0 = (ivnOf g).2.1.getD i 0 := by
      rw [← hlayeri, ← hlayerj]
      exact hlayer.symm
    have hi' : i < (ivnOf g).2.1.length := by
      rw [hivlen, ← hnolen, ← haclen]
      exact hi
    have hj' : j < (ivnOf g).2.1.length := by
      rw [hivlen, ← hnolen, ← haclen]
      exact hj
    have hmi : i ∈ (buckets2Of g).getD ((ivnOf g).2.1.getD i 0) [] :=
      (buckets2_mem g i _).mpr ⟨hi', rfl⟩
    have hmj : j ∈ (buckets2Of g).getD ((ivnOf g).2.1.getD i 0) [] :=
      (buckets2_mem g j _).mpr ⟨hj', hll⟩
    have hbl : (buckets2Of g).getD ((ivnOf g).2.1.getD i 0) [] ∈
        buckets2Of g := by
      by_cases hlt : (ivnOf g).2.1.getD i 0 < (buckets2Of g).length
      · rw [List.getD_eq_getElem?_getD, List.getElem?_eq_getElem hlt,
          Option.getD_some]
        exact List.getElem_mem hlt
      · exfalso
        rw [List.getD_eq_default _ [] (by omega)] at hmi
        exact absurd hmi (List.not_mem_nil i)
    have hpw := hacsep _ hbl
    have hpw2 : List.Pairwise
        (fun a c =>
          sepBy defaultOptions.nodePadding
            (assignCoordinates (nodesWithOrder g) (buckets2Of g)
              defaultOptions) a c ∨
          sepBy defaultOptions.nodePadding
            (assignCoordinates (nodesWithOrder g) (buckets2Of g)
              defaultOptions) c a)
        ((buckets2Of g).getD ((ivnOf g).2.1.getD i 0) []) :=
      hpw.imp (fun h => Or.inl h)
    have hsym : Symmetric
        (fun a c =>
          sepBy defaultOptions.nodePadding
            (assignCoordinates (nodesWithOrder g) (buckets2Of g)
              defaultOptions) a c ∨
          sepBy defaultOptions.nodePadding
            (assignCoordinates (nodesWithOrder g) (buckets2Of g)
              defaultOptions) c a) :=
      fun _ _ h => h.symm
    have hac := hpw2.forall hsym hmi hmj hij
    intro hov
    obtain ⟨ho1, ho2, _, _⟩ := hov
    have hp : (0 : ℚ) < defaultOptions.nodePadding := by
      norm_num [defaultOptions]
    rcases hac with h | h
    · unfold sepBy at h
      linarith
    · unfold sepBy at h
      linarith

end GoUml

namespace GoUml

/-- A concrete two-node graph exercising `layout_no_overlap`. -/
def gw7 : LayoutGraph :=
  { nodes := [{ id := "A", width := 10, height := 5 },
              { id := "B", width := 20, height := 5 }]
    edges := [] }

theorem layout_no_overlap_w :
    ¬ rectOverlap ((Layout gw7 defaultOptions).nodes.getD 0 node0)
      ((Layout gw7 defaultOptions).nodes.getD 1 node0) :=
  layout_no_overlap gw7 (by decide) 0 1 (by decide) (by decide)
    (by decide) (by decide) (by decide) (by decide)

end GoUml

namespace GoUml

/-! ### Cycle removal: invariants and total-correctness of the DFS -/

theorem getD_set_eq' {α : Type _} (l : List α) (i : Nat) (v d : α)
    (h : i < l.length) : (l.set i v).getD i d = v := by
  rw [List.getD_eq_getElem?_getD, List.getElem?_set_self h,
    Option.getD_some]

theorem getD_set_ne' {α : Type _} (l : List α) (i k : Nat) (v d : α)
    (h : k ≠ i) : (l.set i v).getD k d = l.getD k d := by
  rw [List.getD_eq_getElem?_getD, List.getElem?_set_ne (by omega),
    ← List.getD_eq_getElem?_getD]

/-- The number of white (0) entries of a color list. -/
def countWhite (c : List Nat) : Nat := c.countP (fun x => x == 0)

theorem countWhite_le_length (c : List Nat) :
    countWhite c ≤ c.length := List.countP_le_length _

theorem countWhite_pos (c : List Nat) (u : Nat) (hu : u < c.length)
    (hw : c.getD u 0 = 0) : 0 < countWhite c := by
  induction c generalizing u with
  | nil => simp at hu
  | cons a as ih =>
    unfold countWhite
    rw [List.countP_cons]
    cases u with
    | zero =>
      simp only [List.getD_cons_zero] at hw
      subst hw
      simp
    | succ u =>
      simp only [List.getD_cons_succ] at hw
      have := ih u (by simpa using hu) hw
      unfold countWhite at this
      omega

theorem countWhite_set (c : List Nat) (u x : Nat) (hu : u < c.length)
    (hw : c.getD u 0 = 0) (hx : x ≠ 0) :
    countWhite (c.set u x) + 1 = countWhite c := by
  induction c generalizing u with
  | nil => simp at hu
  | cons a as ih =>
    cases u with
    | zero =>
      simp only [List.getD_cons_zero] at hw
      subst hw
      unfold countWhite
      rw [List.set_cons_zero, List.countP_cons, List.countP_cons]
      simp [beq_iff_eq, hx]
    | succ u =>
      simp only [List.getD_cons_succ] at hw
      unfold countWhite
      rw [List.set_cons_succ, List.countP_cons, List.countP_cons]
      have := ih u (by simpa using hu) hw
      unfold countWhite at this
      omega

theorem countWhite_anti (c c' : List Nat) (hlen : c'.length = c.length)
    (hmono : ∀ i, c.getD i 0 ≤ c'.getD i 0) :
    countWhite c' ≤ countWhite c := by
  induction c generalizing c' with
  | nil =>
    rw [List.length_nil, List.length_eq_zero] at hlen
    subst hlen
    exact le_refl _
  | cons a as ih =>
    cases c' with
    | nil => simp at hlen
    | cons b bs =>
      unfold countWhite
      rw [List.countP_cons, List.countP_cons]
      have h0 := hmono 0
      simp only [List.getD_cons_zero] at h0
      have htail := ih bs (by simpa using hlen)
        (fun i => by simpa using hmono (i + 1))
      unfold countWhite at htail
      by_cases hb : b = 0
      · have ha : a = 0 := by omega
        simp [ha, hb]
        omega
      · simp only [beq_iff_eq, hb, if_false]
        by_cases ha : a = 0 <;> simp [ha] <;> omega

end GoUml

namespace GoUml

/-- Global invariant of the cycle-removal DFS over `n` nodes:
lengths, the color/finish correspondence, in-range edge targets and
recorded back edges, the finish-rank ordering on retained adjacency,
back-edge absence at finished nodes, and non-white back-edge
endpoints. -/
structure GInv (n : Nat) (s : RCState) : Prop where
  clen : s.color.length = n
  alen : s.adj.length = n
  cle : ∀ w, s.color.getD w 0 ≤ 2
  black_iff : ∀ w, s.color.getD w 0 = 2 ↔ w ∈ s.finished
  fin_nodup : s.finished.Nodup
  targets_lt : ∀ w v, v ∈ s.adj.getD w [] → v < n
  rev_lt : ∀ p ∈ s.rev, p.1 < n ∧ p.2 < n
  rank_dec : ∀ u ∈ s.finished, ∀ v ∈ s.adj.getD u [],
    v ∈ s.finished ∧ s.finished.indexOf v < s.finished.indexOf u
  rev_absent : ∀ u ∈ s.finished, ∀ v, (u, v) ∈ s.rev →
    v ∉ s.adj.getD u []
  rev_nonwhite : ∀ p ∈ s.rev,
    s.color.getD p.1 0 ≠ 0 ∧ s.color.getD p.2 0 ≠ 0

/-- Total-correctness contract of a `dfs` callee at white nodes, with
`f` bounding the number of whites it can consume. -/
def DfsContract (n f : Nat) (dfs : Nat → RCState → Option RCState) :
    Prop :=
  ∀ u s, GInv n s → u < n → s.color.getD u 0 = 0 →
    countWhite s.color ≤ f →
    ∃ s', dfs u s = some s' ∧ GInv n s' ∧
      s'.color.getD u 0 = 2 ∧
      (∀ w, s.color.getD w 0 ≤ s'.color.getD w 0) ∧
      (∀ w, s.color.getD w 0 = 1 → s'.color.getD w 0 = 1) ∧
      (∀ w, s.color.getD w 0 = 0 →
        s'.color.getD w 0 = 0 ∨ s'.color.getD w 0 = 2) ∧
      countWhite s'.color ≤ countWhite s.color ∧
      (∃ ext, s'.finished = s.finished ++ ext) ∧
      (∃ extr, s'.rev = s.rev ++ extr ∧
        ∀ p ∈ extr, s.color.getD p.1 0 = 0)

end GoUml

namespace GoUml

theorem dfsL_cons_eq (dfs : Nat → RCState → Option RCState)
    (u v : Nat) (rest newAdj : List Nat) (s : RCState) :
    dfsL dfs u (v :: rest) newAdj s =
      match s.color.getD v 0 with
      | 1 =>
        dfsL dfs u rest newAdj
          { s with
            rev := s.rev ++ [(u, v)]
            adj := s.adj.set v (s.adj.getD v [] ++ [u]) }
      | 0 =>
        match dfs v s with
        | none => none
        | some s' => dfsL dfs u rest (newAdj ++ [v]) s'
      | _ => dfsL dfs u rest (newAdj ++ [v]) s := rfl

theorem dfsA_succ_eq (f u : Nat) (s : RCState) :
    dfsA (f + 1) u s =
      match dfsL (dfsA f) u (s.adj.getD u []) []
        { s with color := s.color.set u 1 } with
      | none => none
      | some (s2, newAdj) =>
        some { s2 with
          adj := s2.adj.set u newAdj
          color := s2.color.set u 2
          finished := s2.finished ++ [u] } := rfl

end GoUml

namespace GoUml

/-- The DFS neighbor loop preserves the global invariant and the frame
bookkeeping: the accumulated `newAdj` stays black and disjoint from
the frame's recorded back-edge targets (which stay gray). -/
theorem dfsL_spec (n f : Nat) (dfs : Nat → RCState → Option RCState)
    (hdfs : DfsContract n f dfs) (u : Nat) (hu : u < n) :
    ∀ (pending newAdj : List Nat) (s : RCState),
    GInv n s → s.color.getD u 0 = 1 → countWhite s.color ≤ f →
    (∀ w ∈ pending, w < n) →
    (∀ w ∈ newAdj, s.color.getD w 0 = 2) →
    (∀ b, (u, b) ∈ s.rev → s.color.getD b 0 = 1) →
    (∀ b, (u, b) ∈ s.rev → b ∉ newAdj) →
    ∃ s2 newAdj2,
      dfsL dfs u pending newAdj s = some (s2, newAdj2) ∧
      GInv n s2 ∧
      countWhite s2.color ≤ countWhite s.color ∧
      (∀ w, s.color.getD w 0 ≤ s2.color.getD w 0) ∧
      (∀ w, s.color.getD w 0 = 1 → s2.color.getD w 0 = 1) ∧
      (∀ w, s.color.getD w 0 = 0 →
        s2.color.getD w 0 = 0 ∨ s2.color.getD w 0 = 2) ∧
      (∃ ext, s2.finished = s.finished ++ ext) ∧
      (∃ extr, s2.rev = s.rev ++ extr ∧
        ∀ p ∈ extr, p.1 = u ∨ s.color.getD p.1 0 = 0) ∧
      (∀ w ∈ newAdj2, s2.color.getD w 0 = 2) ∧
      (∀ w ∈ newAdj2, w ∈ newAdj ∨ w ∈ pending) ∧
      (∀ b, (u, b) ∈ s2.rev → s2.color.getD b 0 = 1) ∧
      (∀ b, (u, b) ∈ s2.rev → b ∉ newAdj2) := by
  intro pending
  induction pending with
  | nil =>
    intro newAdj s hgi hgray hcw _ hblk hrg hrn
    exact ⟨s, newAdj, rfl, hgi, le_refl _, fun _ => le_refl _,
      fun _ h => h, fun _ h => Or.inl h, ⟨[], by simp⟩,
      ⟨[], by simp, by simp⟩, hblk, fun w hw => Or.inl hw, hrg, hrn⟩
  | cons v rest ih =>
    intro newAdj s hgi hgray hcw hpb hblk hrg hrn
    have hvn : v < n := hpb v (List.mem_cons_self v rest)
    have hrest : ∀ w ∈ rest, w < n :=
      fun w h => hpb w (List.mem_cons_of_mem v h)
    by_cases hc1 : s.color.getD v 0 = 1
    · have hvfin : v ∉ s.finished := fun h => by
        have := (hgi.black_iff v).mpr h
        omega
      have hufin : u ∉ s.finished := fun h => by
        have := (hgi.black_iff u).mpr h
        omega
      have hginv2 : GInv n { s with
          rev := s.rev ++ [(u, v)]
          adj := s.adj.set v (s.adj.getD v [] ++ [u]) } := by
        refine ⟨hgi.clen, ?_, hgi.cle, hgi.black_iff, hgi.fin_nodup,
          ?_, ?_, ?_, ?_, ?_⟩
        · rw [List.length_set]
          exact hgi.alen
        · intro w t ht
          by_cases hw : w = v
          · subst hw
            rw [getD_set_eq' _ _ _ _ (by rw [hgi.alen]; exact hvn)]
              at ht
            rcases List.mem_append.mp ht with h | h
            · exact hgi.targets_lt w t h
            · rw [List.mem_singleton] at h
              subst h
              exact hu
          · rw [getD_set_ne' _ _ _ _ _ hw] at ht
            exact hgi.targets_lt w t ht
        · intro p hp
          rcases List.mem_append.mp hp with h | h
          · exact hgi.rev_lt p h
          · rw [List.mem_singleton] at h
            subst h
            exact ⟨hu, hvn⟩
        · intro a ha t ht
          have hav : a ≠ v := fun h => hvfin (h ▸ ha)
          rw [getD_set_ne' _ _ _ _ _ hav] at ht
          exact hgi.rank_dec a ha t ht
        · intro a ha t htrev htadj
          have hav : a ≠ v := fun h => hvfin (h ▸ ha)
          rw [getD_set_ne' _ _ _ _ _ hav] at htadj
          rcases List.mem_append.mp htrev with h | h
          · exact hgi.rev_absent a ha t h htadj
          · rw [List.mem_singleton] at h
            have hau : a = u := congrArg Prod.fst h
            exact hufin (hau ▸ ha)
        · intro p hp
          rcases List.mem_append.mp hp with h | h
          · exact hgi.rev_nonwhite p h
          · rw [List.mem_singleton] at h
            subst h
            constructor
            · show s.color.getD u 0 ≠ 0
              omega
            · show s.color.getD v 0 ≠ 0
              omega
      have hrg' : ∀ b, (u, b) ∈ s.rev ++ [(u, v)] →
          s.color.getD b 0 = 1 := by
        intro b hb
        rcases List.mem_append.mp hb with h | h
        · exact hrg b h
        · rw [List.mem_singleton] at h
          have : b = v := congrArg Prod.snd h
          subst this
          exact hc1
      have hrn' : ∀ b, (u, b) ∈ s.rev ++ [(u, v)] → b ∉ newAdj := by
        intro b hb hmem
        rcases List.mem_append.mp hb with h | h
        · exact hrn b h hmem
        · rw [List.mem_singleton] at h
          have : b = v := congrArg Prod.snd h
          subst this
          have := hblk b hmem
          omega
      obtain ⟨s2, na2, heq, hgi2, hcw2, hmono2, hgray2, hwb2,
        ⟨ext2, hext2⟩, ⟨extr2, hrev2, hrevw2⟩, hblk2, hsub2, hrg2,
        hrn2⟩ :=
        ih newAdj
          { s with
            rev := s.rev ++ [(u, v)]
            adj := s.adj.set v (s.adj.getD v [] ++ [u]) }
          hginv2 hgray hcw hrest hblk hrg' hrn'
      refine ⟨s2, na2, ?_, hgi2, hcw2, hmono2, hgray2, hwb2,
        ⟨ext2, hext2⟩, ⟨(u, v) :: extr2, ?_, ?_⟩, hblk2, ?_, hrg2,
        hrn2⟩
      · rw [dfsL_cons_eq, hc1]
        exact heq
      · rw [hrev2]
        simp
      · intro p hp
        rcases List.mem_cons.mp hp with h | h
        · subst h
          exact Or.inl rfl
        · exact hrevw2 p h
      · intro w hw
        rcases hsub2 w hw with h | h
        · exact Or.inl h
        · exact Or.inr (List.mem_cons_of_mem v h)
    · by_cases hc0 : s.color.getD v 0 = 0
      · obtain ⟨s', hds, hgi', hblkv, hmono', hgray', hwb', hcw',
          ⟨ext1, hext1⟩, ⟨extr1, hrev1, hrevw1⟩⟩ :=
          hdfs v s hgi hvn hc0 hcw
        have hgrayu : s'.color.getD u 0 = 1 := hgray' u hgray
        have hcwf : countWhite s'.color ≤ f := le_trans hcw' hcw
        have hblk' : ∀ w ∈ newAdj ++ [v], s'.color.getD w 0 = 2 := by
          intro w hw
          rcases List.mem_append.mp hw with h | h
          · have h2 := hblk w h
            have h3 := hmono' w
            have h4 := hgi'.cle w
            omega
          · rw [List.mem_singleton] at h
            subst h
            exact hblkv
        have hold : ∀ b, (u, b) ∈ s'.rev → (u, b) ∈ s.rev := by
          intro b hb
          rw [hrev1] at hb
          rcases List.mem_append.mp hb with h | h
          · exact h
          · exfalso
            have h5 := hrevw1 _ h
            simp only at h5
            omega
        have hrg' : ∀ b, (u, b) ∈ s'.rev → s'.color.getD b 0 = 1 :=
          fun b hb => hgray' b (hrg b (hold b hb))
        have hrn' : ∀ b, (u, b) ∈ s'.rev → b ∉ newAdj ++ [v] := by
          intro b hb hmem
          have hbold := hold b hb
          rcases List.mem_append.mp hmem with h | h
          · exact hrn b hbold h
          · rw [List.mem_singleton] at h
            subst h
            have := hrg b hbold
            omega
        obtain ⟨s2, na2, heq, hgi2, hcw2, hmono2, hgray2, hwb2,
          ⟨ext2, hext2⟩, ⟨extr2, hrev2, hrevw2⟩, hblk2, hsub2, hrg2,
          hrn2⟩ :=
          ih (newAdj ++ [v]) s' hgi' hgrayu hcwf hrest hblk' hrg'
            hrn'
        refine ⟨s2, na2, ?_, hgi2, le_trans hcw2 hcw',
          fun w => le_trans (hmono' w) (hmono2 w),
          fun w hw => hgray2 w (hgray' w hw), ?_,
          ⟨ext1 ++ ext2, by rw [hext2, hext1, List.append_assoc]⟩,
          ⟨extr1 ++ extr2, ?_, ?_⟩, hblk2, ?_, hrg2, hrn2⟩
        · rw [dfsL_cons_eq, hc0, hds]
          exact heq
        · intro w hw
          rcases hwb' w hw with h0 | h2
          · exact hwb2 w h0
          · right
            have h3 := hmono2 w
            have h4 := hgi2.cle w
            omega
        · rw [hrev2, hrev1, List.append_assoc]
        · intro p hp
          rcases List.mem_append.mp hp with h | h
          · exact Or.inr (hrevw1 p h)
          · rcases hrevw2 p h with h1 | h1
            · exact Or.inl h1
            · right
              have := hmono' p.1
              omega
        · intro w hw
          rcases hsub2 w hw with h | h
          · rcases List.mem_append.mp h with h1 | h1
            · exact Or.inl h1
            · rw [List.mem_singleton] at h1
              subst h1
              exact Or.inr (List.mem_cons_self w rest)
          · exact Or.inr (List.mem_cons_of_mem v h)
      · have hc2v : s.color.getD v 0 = 2 := by
          have := hgi.cle v
          omega
        have hblk' : ∀ w ∈ newAdj ++ [v], s.color.getD w 0 = 2 := by
          intro w hw
          rcases List.mem_append.mp hw with h | h
          · exact hblk w h
          · rw [List.mem_singleton] at h
            subst h
            exact hc2v
        have hrn' : ∀ b, (u, b) ∈ s.rev → b ∉ newAdj ++ [v] := by
          intro b hb hmem
          rcases List.mem_append.mp hmem with h | h
          · exact hrn b hb h
          · rw [List.mem_singleton] at h
            subst h
            have := hrg b hb
            omega
        obtain ⟨s2, na2, heq, hgi2, hcw2, hmono2, hgray2, hwb2,
          ⟨ext2, hext2⟩, ⟨extr2, hrev2, hrevw2⟩, hblk2, hsub2, hrg2,
          hrn2⟩ :=
          ih (newAdj ++ [v]) s hgi hgray hcw hrest hblk' hrg hrn'
        refine ⟨s2, na2, ?_, hgi2, hcw2, hmono2, hgray2, hwb2,
          ⟨ext2, hext2⟩, ⟨extr2, hrev2, hrevw2⟩, hblk2, ?_, hrg2,
          hrn2⟩
        · rw [dfsL_cons_eq, hc2v]
          exact heq
        · intro w hw
          rcases hsub2 w hw with h | h
          · rcases List.mem_append.mp h with h1 | h1
            · exact Or.inl h1
            · rw [List.mem_singleton] at h1
              subst h1
              exact Or.inr (List.mem_cons_self w rest)
          · exact Or.inr (List.mem_cons_of_mem v h)

end GoUml

namespace GoUml

/-- Fuelled `dfs` satisfies the contract: fuel `f + 1` suffices when at
most `f` whites remain after graying the entry node. -/
theorem dfsA_contract (n : Nat) : ∀ f, DfsContract n f (dfsA (f + 1)) := by
  intro f
  induction f with
  | zero =>
    intro u s hgi hun hwhite hcw
    exfalso
    have := countWhite_pos s.color u (by rw [hgi.clen]; exact hun)
      hwhite
    omega
  | succ f ih =>
    intro u s hgi hun hwhite hcw
    have hulen : u < s.color.length := by rw [hgi.clen]; exact hun
    have hcw1 : countWhite (s.color.set u 1) + 1 = countWhite s.color :=
      countWhite_set s.color u 1 hulen hwhite (by omega)
    have hginv1 : GInv n { s with color := s.color.set u 1 } := by
      refine ⟨?_, hgi.alen, ?_, ?_, hgi.fin_nodup, hgi.targets_lt,
        hgi.rev_lt, hgi.rank_dec, hgi.rev_absent, ?_⟩
      · rw [List.length_set]
        exact hgi.clen
      · intro w
        by_cases hw : w = u
        · subst hw
          rw [getD_set_eq' _ _ _ _ hulen]
          omega
        · rw [getD_set_ne' _ _ _ _ _ hw]
          exact hgi.cle w
      · intro w
        by_cases hw : w = u
        · subst hw
          rw [getD_set_eq' _ _ _ _ hulen]
          constructor
          · intro h
            omega
          · intro hf
            have := (hgi.black_iff w).mpr hf
            omega
        · rw [getD_set_ne' _ _ _ _ _ hw]
          exact hgi.black_iff w
      · intro p hp
        obtain ⟨h1, h2⟩ := hgi.rev_nonwhite p hp
        constructor
        · by_cases hw : p.1 = u
          · rw [hw, getD_set_eq' _ _ _ _ hulen]
            omega
          · rw [getD_set_ne' _ _ _ _ _ hw]
            exact h1
        · by_cases hw : p.2 = u
          · rw [hw, getD_set_eq' _ _ _ _ hulen]
            omega
          · rw [getD_set_ne' _ _ _ _ _ hw]
            exact h2
    have hgray1 :
        ({ s with color := s.color.set u 1 } : RCState).color.getD u 0
          = 1 := getD_set_eq' _ _ _ _ hulen
    obtain ⟨s2, na2, heq, hgi2, hcw2, hmono2, hgray2, hwb2,
      ⟨ext2, hext2⟩, ⟨extr2, hrev2, hrevw2⟩, hblk2, hsub2, hrg2,
      hrn2⟩ :=
      dfsL_spec n f (dfsA (f + 1)) ih u hun (s.adj.getD u []) []
        { s with color := s.color.set u 1 } hginv1 hgray1
        (by
          have heqc :
              countWhite
                ({ s with color := s.color.set u 1 } : RCState).color =
              countWhite (s.color.set u 1) := rfl
          omega)
        (fun w hw => hgi.targets_lt u w hw)
        (by simp)
        (fun b hb => absurd hwhite (hgi.rev_nonwhite (u, b) hb).1)
        (fun b hb => absurd hwhite (hgi.rev_nonwhite (u, b) hb).1)
    have hu2len : u < s2.color.length := by rw [hgi2.clen]; exact hun
    have hgrayu2 : s2.color.getD u 0 = 1 := hgray2 u hgray1
    have hufin2 : u ∉ s2.finished := fun h => by
      have := (hgi2.black_iff u).mpr h
      omega
    refine ⟨{ s2 with
        adj := s2.adj.set u na2
        color := s2.color.set u 2
        finished := s2.finished ++ [u] }, ?_, ?_, ?_, ?_, ?_, ?_, ?_,
      ?_, ?_⟩
    · rw [dfsA_succ_eq, heq]
    · refine ⟨?_, ?_, ?_, ?_, ?_, ?_, hgi2.rev_lt, ?_, ?_, ?_⟩
      · rw [List.length_set]
        exact hgi2.clen
      · rw [List.length_set]
        exact hgi2.alen
      · intro w
        by_cases hw : w = u
        · subst hw
          rw [getD_set_eq' _ _ _ _ hu2len]
        · rw [getD_set_ne' _ _ _ _ _ hw]
          exact hgi2.cle w
      · intro w
        by_cases hw : w = u
        · subst hw
          rw [getD_set_eq' _ _ _ _ hu2len]
          exact iff_of_true rfl (by simp)
        · rw [getD_set_ne' _ _ _ _ _ hw, List.mem_append,
            List.mem_singleton]
          constructor
          · intro h
            exact Or.inl ((hgi2.black_iff w).mp h)
          · rintro (h | h)
            · exact (hgi2.black_iff w).mpr h
            · exact absurd h hw
      · rw [List.nodup_append]
        refine ⟨hgi2.fin_nodup, List.nodup_singleton u, ?_⟩
        intro a ha hb
        rw [List.mem_singleton] at hb
        subst hb
        exact hufin2 ha
      · intro w t ht
        by_cases hw : w = u
        · subst hw
          rw [getD_set_eq' _ _ _ _ (by rw [hgi2.alen]; exact hun)]
            at ht
          rcases hsub2 t ht with h | h
          · exact absurd h (List.not_mem_nil t)
          · exact hgi.targets_lt w t h
        · rw [getD_set_ne' _ _ _ _ _ hw] at ht
          exact hgi2.targets_lt w t ht
      · intro a ha t ht
        rcases List.mem_append.mp ha with hain | hau
        · have hane : a ≠ u := fun h => hufin2 (h ▸ hain)
          rw [getD_set_ne' _ _ _ _ _ hane] at ht
          obtain ⟨htfin, hidx⟩ := hgi2.rank_dec a hain t ht
          refine ⟨List.mem_append.mpr (Or.inl htfin), ?_⟩
          rw [List.indexOf_append_of_mem htfin,
            List.indexOf_append_of_mem hain]
          exact hidx
        · rw [List.mem_singleton] at hau
          subst hau
          rw [getD_set_eq' _ _ _ _ (by rw [hgi2.alen]; exact hun)]
            at ht
          have htblack := hblk2 t ht
          have htfin : t ∈ s2.finished := (hgi2.black_iff t).mp htblack
          refine ⟨List.mem_append.mpr (Or.inl htfin), ?_⟩
          rw [List.indexOf_append_of_mem htfin,
            List.indexOf_append_of_not_mem hufin2,
            List.indexOf_cons_self]
          have := List.indexOf_lt_length.mpr htfin
          omega
      · intro a ha t htrev htadj
        rcases List.mem_append.mp ha with hain | hau
        · have hane : a ≠ u := fun h => hufin2 (h ▸ hain)
          rw [getD_set_ne' _ _ _ _ _ hane] at htadj
          exact hgi2.rev_absent a hain t htrev htadj
        · rw [List.mem_singleton] at hau
          subst hau
          rw [getD_set_eq' _ _ _ _ (by rw [hgi2.alen]; exact hun)]
            at htadj
          exact hrn2 t htrev htadj
      · intro p hp
        obtain ⟨h1, h2⟩ := hgi2.rev_nonwhite p hp
        constructor
        · by_cases hw : p.1 = u
          · rw [hw, getD_set_eq' _ _ _ _ hu2len]
            omega
          · rw [getD_set_ne' _ _ _ _ _ hw]
            exact h1
        · by_cases hw : p.2 = u
          · rw [hw, getD_set_eq' _ _ _ _ hu2len]
            omega
          · rw [getD_set_ne' _ _ _ _ _ hw]
            exact h2
    · exact getD_set_eq' _ _ _ _ hu2len
    · intro w
      by_cases hw : w = u
      · subst hw
        rw [getD_set_eq' _ _ _ _ hu2len]
        omega
      · rw [getD_set_ne' _ _ _ _ _ hw]
        have h1 := hmono2 w
        rw [getD_set_ne' _ _ _ _ _ hw] at h1
        exact h1
    · intro w hw
      have hwne : w ≠ u := fun h => by
        rw [h] at hw
        omega
      rw [getD_set_ne' _ _ _ _ _ hwne]
      have h1 := hgray2 w
      rw [getD_set_ne' _ _ _ _ _ hwne] at h1
      exact h1 hw
    · intro w hw
      by_cases hwu : w = u
      · subst hwu
        right
        exact getD_set_eq' _ _ _ _ hu2len
      · rw [getD_set_ne' _ _ _ _ _ hwu]
        have h1 := hwb2 w
        rw [getD_set_ne' _ _ _ _ _ hwu] at h1
        exact h1 hw
    · refine countWhite_anti s.color _ ?_ ?_
      · rw [List.length_set, hgi2.clen, hgi.clen]
      · intro w
        by_cases hw : w = u
        · subst hw
          rw [getD_set_eq' _ _ _ _ hu2len]
          omega
        · rw [getD_set_ne' _ _ _ _ _ hw]
          have h1 := hmono2 w
          rw [getD_set_ne' _ _ _ _ _ hw] at h1
          exact h1
    · exact ⟨ext2 ++ [u], by
        show s2.finished ++ [u] = s.finished ++ (ext2 ++ [u])
        rw [hext2, List.append_assoc]⟩
    · refine ⟨extr2, hrev2, ?_⟩
      intro p hp
      have h1 := hrevw2 p hp
      rcases h1 with h | h
      · rw [h]
        exact hwhite
      · by_cases hw : p.1 = u
        · rw [hw]
          exact hwhite
        · rw [getD_set_ne' _ _ _ _ _ hw] at h
          exact h

end GoUml

namespace GoUml

theorem getD_replicate' {α : Type _} (k w : Nat) (a : α) :
    (List.replicate k a).getD w a = a := by
  rw [List.getD_eq_getElem?_getD, List.getElem?_replicate]
  by_cases h : w < k <;> simp [h]

theorem rcLoop_cons_eq (fuel i : Nat) (rest : List Nat) (s : RCState) :
    rcLoop fuel (i :: rest) s =
      if s.color.getD i 0 = 0 then
        match dfsA fuel i s with
        | none => none
        | some s' => rcLoop fuel rest s'
      else rcLoop fuel rest s := rfl

/-- The outer loop of `removeCycles` with fuel `n + 1` always
succeeds, preserves the invariant, and blackens every listed node. -/
theorem rcLoop_spec (n : Nat) :
    ∀ (idxs : List Nat) (s : RCState),
    GInv n s → (∀ i ∈ idxs, i < n) →
    (∀ w, s.color.getD w 0 ≠ 1) →
    ∃ s', rcLoop (n + 1) idxs s = some s' ∧ GInv n s' ∧
      (∀ w, s'.color.getD w 0 ≠ 1) ∧
      (∀ w, s.color.getD w 0 ≤ s'.color.getD w 0) ∧
      (∀ i ∈ idxs, s'.color.getD i 0 = 2) := by
  intro idxs
  induction idxs with
  | nil =>
    intro s hgi _ hng
    exact ⟨s, rfl, hgi, hng, fun _ => le_refl _, by simp⟩
  | cons i rest ih =>
    intro s hgi hb hng
    have hin : i < n := hb i (List.mem_cons_self i rest)
    have hbrest : ∀ j ∈ rest, j < n :=
      fun j hj => hb j (List.mem_cons_of_mem i hj)
    by_cases hw : s.color.getD i 0 = 0
    · obtain ⟨s1, hds, hgi1, hblack1, hmono1, hgray1, hwb1, hcw1,
        _, _⟩ :=
        dfsA_contract n n i s hgi hin hw
          (by
            have := countWhite_le_length s.color
            rw [hgi.clen] at this
            exact this)
      have hng1 : ∀ w, s1.color.getD w 0 ≠ 1 := by
        intro w h1
        by_cases h0 : s.color.getD w 0 = 0
        · rcases hwb1 w h0 with h | h <;> omega
        · have h2 : s.color.getD w 0 = 2 := by
            have := hng w
            have := hgi.cle w
            omega
          have := hmono1 w
          have := hgi1.cle w
          omega
      obtain ⟨s', heq', hgi', hng', hmono', hall'⟩ :=
        ih s1 hgi1 hbrest hng1
      refine ⟨s', ?_, hgi', hng',
        fun w => le_trans (hmono1 w) (hmono' w), ?_⟩
      · rw [rcLoop_cons_eq, if_pos hw, hds]
        exact heq'
      · intro j hj
        rcases List.mem_cons.mp hj with rfl | hj'
        · have := hmono' j
          have := hgi'.cle j
          omega
        · exact hall' j hj'
    · obtain ⟨s', heq', hgi', hng', hmono', hall'⟩ :=
        ih s hgi hbrest hng
      refine ⟨s', ?_, hgi', hng', hmono', ?_⟩
      · rw [rcLoop_cons_eq, if_neg hw]
        exact heq'
      · intro j hj
        rcases List.mem_cons.mp hj with rfl | hj'
        · have h2 : s.color.getD j 0 = 2 := by
            have := hng j
            have := hgi.cle j
            omega
          have := hmono' j
          have := hgi'.cle j
          omega
        · exact hall' j hj'

end GoUml

namespace GoUml

/-- `buildNodeIndex` only produces in-range indices. -/
theorem buildNodeIndex_lt (nodes : List Node) :
    ∀ str t, buildNodeIndex nodes str = some t → t < nodes.length := by
  unfold buildNodeIndex
  refine foldl_inv _
    (fun acc : String → Option Nat =>
      ∀ str t, acc str = some t → t < nodes.length)
    _ _ ?_ ?_
  · intro str t h
    exact absurd h (by simp)
  · intro acc p hp hacc str t
    dsimp only
    by_cases hs : str = p.2.id
    · rw [if_pos hs]
      intro h
      obtain ⟨hlt, _⟩ := List.mem_enum hp
      rw [Option.some_inj] at h
      omega
    · rw [if_neg hs]
      exact hacc str t

/-- `buildAdjacency` keeps the row count and only in-range targets. -/
theorem buildAdjacency_inv (g : LayoutGraph)
    (ni : String → Option Nat)
    (hni : ∀ str t, ni str = some t → t < g.nodes.length) :
    (buildAdjacency g ni).length = g.nodes.length ∧
    ∀ w v, v ∈ (buildAdjacency g ni).getD w [] →
      v < g.nodes.length := by
  unfold buildAdjacency
  refine foldl_inv _
    (fun adj : List (List Nat) =>
      adj.length = g.nodes.length ∧
      ∀ w v, v ∈ adj.getD w [] → v < g.nodes.length)
    _ _ ⟨by simp, ?_⟩ ?_
  · intro w v hv
    have hrep : (List.replicate g.nodes.length
        ([] : List Nat)).getD w [] = [] := getD_replicate' _ _ _
    rw [hrep] at hv
    exact absurd hv (List.not_mem_nil v)
  · intro adj e _ hacc
    obtain ⟨hlen, htgt⟩ := hacc
    rcases hf : ni e.from' with _ | fidx
    · exact ⟨hlen, htgt⟩
    · rcases ht : ni e.to' with _ | tidx
      · exact ⟨hlen, htgt⟩
      · show (if fidx = tidx then adj
            else adj.set fidx (adj.getD fidx [] ++ [tidx])).length =
              g.nodes.length ∧
          ∀ w v, v ∈ (if fidx = tidx then adj
            else adj.set fidx (adj.getD fidx [] ++ [tidx])).getD w [] →
            v < g.nodes.length
        by_cases hft : fidx = tidx
        · rw [if_pos hft]
          exact ⟨hlen, htgt⟩
        · rw [if_neg hft]
          refine ⟨by rw [List.length_set]; exact hlen, ?_⟩
          intro w v hv
          by_cases hw : w = fidx
          · subst hw
            by_cases hwlen : w < adj.length
            · rw [getD_set_eq' _ _ _ _ hwlen] at hv
              rcases List.mem_append.mp hv with h | h
              · exact htgt w v h
              · rw [List.mem_singleton] at h
                subst h
                exact hni e.to' v ht
            · rw [List.set_eq_of_length_le (by omega)] at hv
              exact htgt w v hv
          · rw [getD_set_ne' _ _ _ _ _ hw] at hv
            exact htgt w v hv

/-- The initial cycle-removal state satisfies the invariant. -/
theorem ginv_init (g : LayoutGraph) :
    GInv g.nodes.length
      ⟨List.replicate g.nodes.length 0,
       buildAdjacency g (buildNodeIndex g.nodes), [], []⟩ := by
  obtain ⟨halen, htgt⟩ :=
    buildAdjacency_inv g (buildNodeIndex g.nodes)
      (buildNodeIndex_lt g.nodes)
  have hrep : ∀ w,
      (List.replicate g.nodes.length (0 : Nat)).getD w 0 = 0 :=
    fun w => getD_replicate' _ _ _
  refine ⟨by simp, halen, ?_, ?_, List.nodup_nil, htgt, ?_, ?_, ?_,
    ?_⟩
  · intro w
    rw [hrep w]
    omega
  · intro w
    rw [hrep w]
    exact iff_of_false (by omega) (List.not_mem_nil w)
  · intro p hp
    exact absurd hp (List.not_mem_nil p)
  · intro a ha
    exact absurd ha (List.not_mem_nil a)
  · intro a ha
    exact absurd ha (List.not_mem_nil a)
  · intro p hp
    exact absurd hp (List.not_mem_nil p)

/-- `removeCycles` always succeeds with fuel `n + 1`, ending with the
invariant and every node black. -/
theorem rcStateOf_spec (g : LayoutGraph) :
    GInv g.nodes.length (rcStateOf g) ∧
    ∀ w, w < g.nodes.length → (rcStateOf g).color.getD w 0 = 2 := by
  obtain ⟨s', heq, hgi', _, _, hall⟩ :=
    rcLoop_spec g.nodes.length (List.range g.nodes.length)
      ⟨List.replicate g.nodes.length 0,
       buildAdjacency g (buildNodeIndex g.nodes), [], []⟩
      (ginv_init g)
      (fun i hi => List.mem_range.mp hi)
      (fun w => by rw [getD_replicate' g.nodes.length w 0]; omega)
  have hrc : removeCycles (buildAdjacency g (buildNodeIndex g.nodes))
      g.nodes.length = some s' := heq
  unfold rcStateOf
  rw [hrc, Option.getD_some]
  exact ⟨hgi', fun w hw => hall w (List.mem_range.mpr hw)⟩

/-- Acyclicity of an adjacency list. -/
def Acyclic (adj : List (List Nat)) : Prop :=
  ∀ u, ¬ Relation.TransGen (fun x y => y ∈ adj.getD x []) u u

/-- A fully finished invariant state has acyclic adjacency: every
retained edge strictly decreases the finish rank. -/
theorem acyclic_of_final (n : Nat) (s : RCState) (hgi : GInv n s)
    (hall : ∀ w, w < n → s.color.getD w 0 = 2) : Acyclic s.adj := by
  have hedge : ∀ x y, y ∈ s.adj.getD x [] →
      s.finished.indexOf y < s.finished.indexOf x := by
    intro x y hy
    have hxn : x < n := by
      by_contra hxn
      have hempty : s.adj.getD x [] = [] :=
        List.getD_eq_default _ _ (by rw [hgi.alen]; omega)
      rw [hempty] at hy
      exact List.not_mem_nil y hy
    have hxfin : x ∈ s.finished := (hgi.black_iff x).mp (hall x hxn)
    exact (hgi.rank_dec x hxfin y hy).2
  intro u hcyc
  have key : ∀ a b,
      Relation.TransGen (fun x y => y ∈ s.adj.getD x []) a b →
      s.finished.indexOf b < s.finished.indexOf a := by
    intro a b h
    induction h with
    | single h1 => exact hedge _ _ h1
    | tail _ h2 ih => exact lt_trans (hedge _ _ h2) ih
  have := key u u hcyc
  omega

end GoUml

namespace GoUml

/-- Zero-value `layout.Edge`, the out-of-range default for reads. -/
def edge0 : Edge := { from' := "", to' := "" }

/-- **C4** (amended): after cycle removal, every recorded back edge
(edge whose DFS target was gray) has its Graph edge marked Reversed,
and the back edge itself is absent from the adjacency consumed by
layer assignment, which is acyclic.  The original claim's further
conjunct — that the opposite-direction arc is present in that
adjacency — is false: the arc appended to the gray ancestor's row is
clobbered when the ancestor's own frame rewrites its row (see the
counterexample). -/
theorem removeCycles_reversal_spec (g : LayoutGraph) :
    (∀ k, k < g.edges.length →
      ((buildNodeIndex g.nodes (g.edges.getD k edge0).from').getD 0,
       (buildNodeIndex g.nodes (g.edges.getD k edge0).to').getD 0) ∈
        (rcStateOf g).rev →
      ((edgesOf g).getD k edge0).reversed = true) ∧
    (∀ u v, (u, v) ∈ (rcStateOf g).rev →
      v ∉ (rcStateOf g).adj.getD u []) ∧
    Acyclic (rcStateOf g).adj := by
  obtain ⟨hgi, hall⟩ := rcStateOf_spec g
  refine ⟨?_, ?_, acyclic_of_final _ _ hgi hall⟩
  · intro k hk hrev
    have hke : g.edges.getD k edge0 = g.edges[k] := by
      rw [List.getD_eq_getElem?_getD, List.getElem?_eq_getElem hk,
        Option.getD_some]
    have h1 : (edgesOf g).getD k edge0 =
        (if ((buildNodeIndex g.nodes g.edges[k].from').getD 0,
             (buildNodeIndex g.nodes g.edges[k].to').getD 0) ∈
            (rcStateOf g).rev
         then { g.edges[k] with reversed := true }
         else g.edges[k]) := by
      unfold edgesOf
      rw [List.getD_eq_getElem?_getD, List.getElem?_map,
        List.getElem?_eq_getElem hk]
      rfl
    rw [hke] at hrev
    rw [h1, if_pos hrev]
  · intro u v hv
    have hun : u < g.nodes.length := (hgi.rev_lt (u, v) hv).1
    have hufin : u ∈ (rcStateOf g).finished :=
      (hgi.black_iff u).mp (hall u hun)
    exact hgi.rev_absent u hufin v hv

/-- A three-cycle A→B→C→A exercising the back-edge machinery. -/
def cg4 : LayoutGraph :=
  { nodes := [{ id := "A", width := 10, height := 10 },
              { id := "B", width := 10, height := 10 },
              { id := "C", width := 10, height := 10 }]
    edges := [{ from' := "A", to' := "B" },
              { from' := "B", to' := "C" },
              { from' := "C", to' := "A" }] }

theorem removeCycles_reversal_spec_w :
    ((edgesOf cg4).getD 2 edge0).reversed = true :=
  (removeCycles_reversal_spec cg4).1 2 (by decide) (by decide)

/-- **C4** counterexample to the original claim: in the three-cycle
the DFS records the back edge (2, 0), yet the opposite-direction arc
0→2 is NOT present in the adjacency consumed by layer assignment —
the append to the gray ancestor's row is overwritten when that
ancestor's frame ends. -/
theorem removeCycles_reverse_arc_clobbered :
    (2, 0) ∈ (rcStateOf cg4).rev ∧
    2 ∉ (rcStateOf cg4).adj.getD 0 [] := by decide

end GoUml

namespace GoUml

/-! ### Lexer (`internal/lexer`)

The Go lexer walks the input rune by rune; it is modelled on the
character list of the input string.  `unicode.IsSpace` is exact
(the Unicode White_Space list); `unicode.IsLetter` / `unicode.IsDigit`
are exact on ASCII and approximated above it (any non-space rune
≥ U+0080 counts as a letter, no rune ≥ U+0080 counts as a digit) —
the lexer only consults them to extend identifiers and directives.
Looping helpers take an explicit iteration bound; every loop consumes
the current character per iteration, so the bound `rest.length + 1`
passed at each call site is never exhausted. -/

/-- `lexer.TokenType`.  The constructors `par`, `break'`, `ref` and
`autonumber` are referenced by the parser but their declarations are
missing from the staged lexer sources; they are modelled from the
spec: §6 lists `par`, `break`, `ref`, `autonumber` in the keyword
set. -/
inductive TokenType where
  | error | eof
  | lbrace | rbrace | lparen | rparen | lbracket | rbracket
  | colon | comma | dot | newline | pipe | hash | langle | rangle
  | equals | semicolon
  | plus | minus | tilde
  | startUML | endUML
  | class' | interface | enum | abstract | extends' | implements
  | package' | namespace' | as' | static | field | method
  | participant | actor | boundary | control | entity | database
  | collections | queue | activate | deactivate | return' | alt
  | else' | end' | loop | group | note | of' | over | left | right
  | arrow
  | skinparam | hide | show' | title | header | footer
  | ident | string' | number
  | lineComment | blockComment
  | par | break' | ref | autonumber
deriving DecidableEq, Repr

/-- `lexer.Token` (zero value: EOF-typed with empty literal at 0:0). -/
structure Token where
  type : TokenType := .eof
  literal : String := ""
  pos : Pos := ⟨0, 0⟩
deriving DecidableEq, Repr

/-- `lexer.Lexer`: the current character, whether the cursor is past
the end, the unread remainder, the consumed-count (Go compares its
byte offset only against 0) and the 1-based position. -/
structure LexState where
  rest : List Char
  ch : Char
  eof : Bool
  pos : Nat
  line : Nat
  col : Nat
deriving Repr

/-- `Lexer.readChar`. -/
def readChar (l : LexState) : LexState :=
  match l.rest with
  | [] => { l with ch := Char.ofNat 0, eof := true }
  | r :: rest' =>
    let line' := if l.ch = '\n' then l.line + 1 else l.line
    let col' :=
      if l.ch = '\n' then 1
      else if l.eof = false then l.col + 1
      else l.col
    let col'' := if l.pos = 0 then 1 else col'
    { rest := rest', ch := r, eof := l.eof, pos := l.pos + 1,
      line := line', col := col'' }

/-- `Lexer.peekChar`. -/
def peekChar (l : LexState) : Char :=
  match l.rest with
  | [] => Char.ofNat 0
  | r :: _ => r

/-- `lexer.New`. -/
def lexNew (input : String) : LexState :=
  readChar { rest := input.data, ch := Char.ofNat 0, eof := false,
             pos := 0, line := 1, col := 1 }

/-- `unicode.IsSpace`: the Unicode White_Space runes. -/
def goIsSpace (c : Char) : Bool :=
  let n := c.toNat
  (9 ≤ n && n ≤ 13) || n = 32 || n = 0x85 || n = 0xA0 || n = 0x1680 ||
  (0x2000 ≤ n && n ≤ 0x200A) || n = 0x2028 || n = 0x2029 ||
  n = 0x202F || n = 0x205F || n = 0x3000

/-- `unicode.IsLetter`: exact on ASCII, approximated above it. -/
def goIsLetter (c : Char) : Bool :=
  let n := c.toNat
  (97 ≤ n && n ≤ 122) || (65 ≤ n && n ≤ 90) ||
  (n ≥ 0x80 && !goIsSpace c)

/-- `unicode.IsDigit`: exact on ASCII, approximated above it. -/
def goIsDigit (c : Char) : Bool :=
  let n := c.toNat
  48 ≤ n && n ≤ 57

/-- Iterated `readChar` (the bounded consume loop of
`readBraceOrModifier`). -/
def readCharN : Nat → LexState → LexState
  | 0, l => l
  | k + 1, l => readCharN k (readChar l)

/-- The lexer's repeated `for !l.eof && cond(l.ch) { b.WriteRune(l.ch);
l.readChar() }` builder loop. -/
def collectWhileF (cond : LexState → Bool) :
    Nat → List Char → LexState → List Char × LexState
  | 0, acc, l => (acc, l)
  | k + 1, acc, l =>
    if cond l then collectWhileF cond k (acc ++ [l.ch]) (readChar l)
    else (acc, l)

/-- `lexer.keywords`.  The entries for `par`, `break`, `ref` and
`autonumber` are modelled from the spec (§6 keyword set); see
`TokenType`. -/
def keywords (s : String) : Option TokenType :=
  if s = "class" then some .class'
  else if s = "interface" then some .interface
  else if s = "enum" then some .enum
  else if s = "abstract" then some .abstract
  else if s = "extends" then some .extends'
  else if s = "implements" then some .implements
  else if s = "package" then some .package'
  else if s = "namespace" then some .namespace'
  else if s = "as" then some .as'
  else if s = "participant" then some .participant
  else if s = "actor" then some .actor
  else if s = "boundary" then some .boundary
  else if s = "control" then some .control
  else if s = "entity" then some .entity
  else if s = "database" then some .database
  else if s = "collections" then some .collections
  else if s = "queue" then some .queue
  else if s = "activate" then some .activate
  else if s = "deactivate" then some .deactivate
  else if s = "return" then some .return'
  else if s = "alt" then some .alt
  else if s = "else" then some .else'
  else if s = "end" then some .end'
  else if s = "loop" then some .loop
  else if s = "group" then some .group
  else if s = "note" then some .note
  else if s = "of" then some .of'
  else if s = "over" then some .over
  else if s = "left" then some .left
  else if s = "right" then some .right
  else if s = "skinparam" then some .skinparam
  else if s = "hide" then some .hide
  else if s = "show" then some .show'
  else if s = "title" then some .title
  else if s = "header" then some .header
  else if s = "footer" then some .footer
  else if s = "par" then some .par
  else if s = "break" then some .break'
  else if s = "ref" then some .ref
  else if s = "autonumber" then some .autonumber
  else none

end GoUml

namespace GoUml

/-- `TokenType.String` from the generated stringer (`go:generate
stringer -type=TokenType -trimprefix=Token`); the generated file is
not among the staged sources, so this is modelled from the spec's
stringer convention: the constant's name with the `Token` prefix
trimmed. -/
def tokenTypeName : TokenType → String
  | .error => "Error"
  | .eof => "EOF"
  | .lbrace => "LBrace"
  | .rbrace => "RBrace"
  | .lparen => "LParen"
  | .rparen => "RParen"
  | .lbracket => "LBracket"
  | .rbracket => "RBracket"
  | .colon => "Colon"
  | .comma => "Comma"
  | .dot => "Dot"
  | .newline => "Newline"
  | .pipe => "Pipe"
  | .hash => "Hash"
  | .langle => "LAngle"
  | .rangle => "RAngle"
  | .equals => "Equals"
  | .semicolon => "Semicolon"
  | .plus => "Plus"
  | .minus => "Minus"
  | .tilde => "Tilde"
  | .startUML => "StartUML"
  | .endUML => "EndUML"
  | .class' => "Class"
  | .interface => "Interface"
  | .enum => "Enum"
  | .abstract => "Abstract"
  | .extends' => "Extends"
  | .implements => "Implements"
  | .package' => "Package"
  | .namespace' => "Namespace"
  | .as' => "As"
  | .static => "Static"
  | .field => "Field"
  | .method => "Method"
  | .participant => "Participant"
  | .actor => "Actor"
  | .boundary => "Boundary"
  | .control => "Control"
  | .entity => "Entity"
  | .database => "Database"
  | .collections => "Collections"
  | .queue => "Queue"
  | .activate => "Activate"
  | .deactivate => "Deactivate"
  | .return' => "Return"
  | .alt => "Alt"
  | .else' => "Else"
  | .end' => "End"
  | .loop => "Loop"
  | .group => "Group"
  | .note => "Note"
  | .of' => "Of"
  | .over => "Over"
  | .left => "Left"
  | .right => "Right"
  | .arrow => "Arrow"
  | .skinparam => "Skinparam"
  | .hide => "Hide"
  | .show' => "Show"
  | .title => "Title"
  | .header => "Header"
  | .footer => "Footer"
  | .ident => "Ident"
  | .string' => "String"
  | .number => "Number"
  | .lineComment => "LineComment"
  | .blockComment => "BlockComment"
  | .par => "Par"
  | .break' => "Break"
  | .ref => "Ref"
  | .autonumber => "Autonumber"

/-- `Lexer.skipWhitespace`. -/
def skipWhitespaceF : Nat → LexState → LexState
  | 0, l => l
  | k + 1, l =>
    if !l.eof && l.ch != '\n' && goIsSpace l.ch then
      skipWhitespaceF k (readChar l)
    else l

def skipWhitespace (l : LexState) : LexState :=
  skipWhitespaceF (l.rest.length + 1) l

/-- `strings.ToLower` (ASCII-exact, as the directive literals are). -/
def goToLower (s : String) : String := s.map Char.toLower

/-- `Lexer.readDirective`. -/
def readDirective (pos : Pos) (l : LexState) : Token × LexState :=
  let (bs, l') := collectWhileF
    (fun s => !s.eof && (goIsLetter s.ch || goIsDigit s.ch))
    (l.rest.length + 1) [l.ch] (readChar l)
  let lit := String.mk bs
  if goToLower lit = "@startuml" then (⟨.startUML, lit, pos⟩, l')
  else if goToLower lit = "@enduml" then (⟨.endUML, lit, pos⟩, l')
  else (⟨.error, lit, pos⟩, l')

/-- `Lexer.readBraceOrModifier`: `l.input[l.pos:]` is `l.rest`. -/
def readBraceOrModifier (pos : Pos) (l : LexState) : Token × LexState :=
  if listStartsWith "static\x7d".data l.rest then
    (⟨.static, "{static}", pos⟩, readCharN 8 l)
  else if listStartsWith "field\x7d".data l.rest then
    (⟨.field, "{field}", pos⟩, readCharN 7 l)
  else if listStartsWith "method\x7d".data l.rest then
    (⟨.method, "{method}", pos⟩, readCharN 8 l)
  else (⟨.lbrace, "\x7b", pos⟩, readChar l)

/-- `Lexer.readComment`. -/
def readComment (pos : Pos) (l : LexState) : Token × LexState :=
  let (bs, l') := collectWhileF (fun s => !s.eof && s.ch != '\n')
    (l.rest.length + 1) [l.ch] (readChar l)
  (⟨.lineComment, String.mk bs, pos⟩, l')

/-- The scan loop of `Lexer.readBlockComment`. -/
def readBlockCommentF : Nat → List Char → LexState →
    Bool × List Char × LexState
  | 0, acc, l => (false, acc, l)
  | k + 1, acc, l =>
    if !l.eof then
      if l.ch = '\'' && peekChar l = '/' then
        let l1 := readChar l
        (true, acc ++ ['\''] ++ [l1.ch], readChar l1)
      else readBlockCommentF k (acc ++ [l.ch]) (readChar l)
    else (false, acc, l)

/-- `Lexer.readBlockComment`. -/
def readBlockComment (pos : Pos) (l : LexState) : Token × LexState :=
  let l1 := readChar l
  let (closed, bs, l') := readBlockCommentF (l1.rest.length + 2)
    [l.ch, l1.ch] (readChar l1)
  if closed then (⟨.blockComment, String.mk bs, pos⟩, l')
  else (⟨.error, String.mk bs, pos⟩, l')

/-- The scan loop of `Lexer.readString`. -/
def readStringF (quote : Char) : Nat → List Char → LexState →
    List Char × LexState
  | 0, acc, l => (acc, l)
  | k + 1, acc, l =>
    if !l.eof && l.ch != quote && l.ch != '\n' then
      if l.ch = '\\' then
        let l1 := readChar l
        if !l1.eof then
          readStringF quote k (acc ++ [l.ch] ++ [l1.ch]) (readChar l1)
        else readStringF quote k (acc ++ [l.ch]) l1
      else readStringF quote k (acc ++ [l.ch]) (readChar l)
    else (acc, l)

/-- `Lexer.readString`. -/
def readString (quote : Char) (pos : Pos) (l : LexState) :
    Token × LexState :=
  let (bs, l') := readStringF quote (l.rest.length + 1) [l.ch]
    (readChar l)
  if l'.ch = quote then
    (⟨.string', String.mk (bs ++ [l'.ch]), pos⟩, readChar l')
  else (⟨.error, String.mk bs, pos⟩, l')

/-- `Lexer.readIdentOrKeyword`. -/
def readIdentOrKeyword (pos : Pos) (l : LexState) : Token × LexState :=
  let (bs, l') := collectWhileF
    (fun s => !s.eof && (goIsLetter s.ch || goIsDigit s.ch ||
      s.ch = '_'))
    (l.rest.length + 1) [l.ch] (readChar l)
  let lit := String.mk bs
  match keywords lit with
  | some tt => (⟨tt, lit, pos⟩, l')
  | none => (⟨.ident, lit, pos⟩, l')

/-- `Lexer.readNumber`. -/
def readNumber (pos : Pos) (l : LexState) : Token × LexState :=
  let (bs, l') := collectWhileF
    (fun s => !s.eof && (goIsDigit s.ch || s.ch = '.'))
    (l.rest.length + 1) [l.ch] (readChar l)
  (⟨.number, String.mk bs, pos⟩, l')

/-- `Lexer.readError`. -/
def readError (pos : Pos) (l : LexState) : Token × LexState :=
  (⟨.error, String.mk [l.ch], pos⟩, readChar l)

/-- `Lexer.isArrowContinuation`. -/
def isArrowContinuation (r : Char) : Bool := r = '-' || r = '.'

/-- The shared arrowhead check of `continueArrow` / `readArrowOrDots`
/ `readDashStart`: consume `>`, `|(>)`, `*` or `o` and finish the
arrow. -/
def finishArrowhead (bs : List Char) (pos : Pos) (l : LexState) :
    Token × LexState :=
  if !l.eof then
    if l.ch = '>' then (⟨.arrow, String.mk (bs ++ ['>']), pos⟩, readChar l)
    else if l.ch = '|' then
      let l1 := readChar l
      if !l1.eof && l1.ch = '>' then
        (⟨.arrow, String.mk (bs ++ ['|'] ++ ['>']), pos⟩, readChar l1)
      else (⟨.arrow, String.mk (bs ++ ['|']), pos⟩, l1)
    else if l.ch = '*' then
      (⟨.arrow, String.mk (bs ++ ['*']), pos⟩, readChar l)
    else if l.ch = 'o' then
      (⟨.arrow, String.mk (bs ++ ['o']), pos⟩, readChar l)
    else (⟨.arrow, String.mk bs, pos⟩, l)
  else (⟨.arrow, String.mk bs, pos⟩, l)

/-- `Lexer.continueArrow`. -/
def continueArrow (bs : List Char) (pos : Pos) (l : LexState) :
    Token × LexState :=
  let (bs', l') := collectWhileF
    (fun s => !s.eof && (s.ch = '-' || s.ch = '.'))
    (l.rest.length + 1) bs l
  finishArrowhead bs' pos l'

/-- `Lexer.readArrowFrom`. -/
def readArrowFrom (pos : Pos) (l : LexState) : Token × LexState :=
  continueArrow [l.ch] pos (readChar l)

/-- `Lexer.readDashStart` (the arrowhead switch falls back to
`finishArrowOrMinus` in the default and EOF cases). -/
def readDashStart (pos : Pos) (l : LexState) : Token × LexState :=
  let (bs, l') := collectWhileF
    (fun s => !s.eof && (s.ch = '-' || s.ch = '.'))
    (l.rest.length + 2) [l.ch] (readChar l)
  if l'.eof then
    if bs.length ≥ 2 then (⟨.arrow, String.mk bs, pos⟩, l')
    else (⟨.minus, String.mk bs, pos⟩, l')
  else if l'.ch = '>' then
    (⟨.arrow, String.mk (bs ++ ['>']), pos⟩, readChar l')
  else if l'.ch = '|' then
    let l1 := readChar l'
    if !l1.eof && l1.ch = '>' then
      (⟨.arrow, String.mk (bs ++ ['|'] ++ ['>']), pos⟩, readChar l1)
    else (⟨.arrow, String.mk (bs ++ ['|']), pos⟩, l1)
  else if l'.ch = '*' then
    (⟨.arrow, String.mk (bs ++ ['*']), pos⟩, readChar l')
  else if l'.ch = 'o' then
    (⟨.arrow, String.mk (bs ++ ['o']), pos⟩, readChar l')
  else if bs.length ≥ 2 then (⟨.arrow, String.mk bs, pos⟩, l')
  else (⟨.minus, String.mk bs, pos⟩, l')

/-- `Lexer.readLeftAngleStart`. -/
def readLeftAngleStart (pos : Pos) (l : LexState) : Token × LexState :=
  let l1 := readChar l
  if l1.ch = '|' then
    let l2 := readChar l1
    if l2.ch = '-' || l2.ch = '.' then continueArrow ['<', '|'] pos l2
    else (⟨.arrow, "<|", pos⟩, l2)
  else if l1.ch = '-' || l1.ch = '.' then continueArrow ['<'] pos l1
  else (⟨.langle, "<", pos⟩, l1)

/-- `Lexer.readStarStart`. -/
def readStarStart (pos : Pos) (l : LexState) : Token × LexState :=
  if isArrowContinuation (peekChar l) then readArrowFrom pos l
  else readError pos l

/-- `Lexer.readArrowOrDots`. -/
def readArrowOrDots (pos : Pos) (l : LexState) : Token × LexState :=
  let (bs, l') := collectWhileF
    (fun s => !s.eof && (s.ch = '.' || s.ch = '-'))
    (l.rest.length + 2) [l.ch] (readChar l)
  finishArrowhead bs pos l'

/-- `Lexer.NextToken`. -/
def nextToken (l0 : LexState) : Token × LexState :=
  let l := skipWhitespace l0
  if l.eof then (⟨.eof, "", ⟨l.line, l.col⟩⟩, l)
  else
    let pos : Pos := ⟨l.line, l.col⟩
    if l.ch = '@' then readDirective pos l
    else if l.ch = '\n' then (⟨.newline, "\n", pos⟩, readChar l)
    else if l.ch = '{' then readBraceOrModifier pos l
    else if l.ch = '}' then (⟨.rbrace, "\x7d", pos⟩, readChar l)
    else if l.ch = '(' then (⟨.lparen, "(", pos⟩, readChar l)
    else if l.ch = ')' then (⟨.rparen, ")", pos⟩, readChar l)
    else if l.ch = '[' then (⟨.lbracket, "[", pos⟩, readChar l)
    else if l.ch = ']' then (⟨.rbracket, "]", pos⟩, readChar l)
    else if l.ch = ':' then (⟨.colon, ":", pos⟩, readChar l)
    else if l.ch = ',' then (⟨.comma, ",", pos⟩, readChar l)
    else if l.ch = '.' then
      if peekChar l = '.' then readArrowOrDots pos l
      else (⟨.dot, ".", pos⟩, readChar l)
    else if l.ch = '|' then (⟨.pipe, "|", pos⟩, readChar l)
    else if l.ch = '=' then (⟨.equals, "=", pos⟩, readChar l)
    else if l.ch = ';' then (⟨.semicolon, ";", pos⟩, readChar l)
    else if l.ch = '+' then (⟨.plus, "+", pos⟩, readChar l)
    else if l.ch = '~' then (⟨.tilde, "~", pos⟩, readChar l)
    else if l.ch = '#' then (⟨.hash, "#", pos⟩, readChar l)
    else if l.ch = '\'' then readComment pos l
    else if l.ch = '/' then
      if peekChar l = '\'' then readBlockComment pos l
      else readError pos l
    else if l.ch = '"' then readString '"' pos l
    else if l.ch = '-' then readDashStart pos l
    else if l.ch = '<' then readLeftAngleStart pos l
    else if l.ch = '*' then readStarStart pos l
    else if l.ch = 'o' then
      if isArrowContinuation (peekChar l) then readArrowFrom pos l
      else readIdentOrKeyword pos l
    else if l.ch = '>' then (⟨.rangle, ">", pos⟩, readChar l)
    else if goIsLetter l.ch || l.ch = '_' then readIdentOrKeyword pos l
    else if goIsDigit l.ch then readNumber pos l
    else readError pos l

/-- `Lexer.Tokenize` (every non-EOF token consumes input, so the bound
is never exhausted). -/
def tokenizeF : Nat → LexState → List Token
  | 0, _ => []
  | k + 1, l =>
    let (tok, l') := nextToken l
    if tok.type = .eof then [tok] else tok :: tokenizeF k l'

def Tokenize (input : String) : List Token :=
  let l := lexNew input
  tokenizeF (l.rest.length + 2) l

end GoUml

namespace GoUml

/-! ### Parser (`internal/parser`)

The parser state is the cursor, the collected diagnostics and the
sequence-mode flag; the token slice is passed alongside.  Go's loops
advance the cursor every iteration, so the bound
`tokens.length - pos` passed at each loop entry is exact. -/

/-- `parser.Error`. -/
structure PError where
  pos : Pos
  message : String
deriving DecidableEq, Repr

/-- `parser.Parser` (minus the fixed token slice). -/
structure PState where
  pos : Nat := 0
  errors : List PError := []
  seqMode : Bool := false
deriving DecidableEq, Repr

/-- `Parser.current` (out of range yields the zero-value EOF token). -/
def pcurrent (tks : List Token) (st : PState) : Token :=
  tks.getD st.pos {}

/-- `Parser.peek`. -/
def ppeek (tks : List Token) (st : PState) : Token :=
  tks.getD (st.pos + 1) {}

/-- `Parser.advance`. -/
def padvance (tks : List Token) (st : PState) : Token × PState :=
  (pcurrent tks st,
   if st.pos < tks.length then { st with pos := st.pos + 1 } else st)

/-- `Parser.addError`. -/
def paddError (st : PState) (p : Pos) (msg : String) : PState :=
  { st with errors := st.errors ++ [⟨p, msg⟩] }

/-- `Parser.skipNewlines`. -/
def skipNewlinesF (tks : List Token) : Nat → PState → PState
  | 0, st => st
  | k + 1, st =>
    if (pcurrent tks st).type = .newline then
      skipNewlinesF tks k (padvance tks st).2
    else st

def pskipNewlines (tks : List Token) (st : PState) : PState :=
  skipNewlinesF tks (tks.length - st.pos) st

/-- The scan loop of `Parser.skipToNextLine`. -/
def skipToNextLineF (tks : List Token) : Nat → PState → PState
  | 0, st => st
  | k + 1, st =>
    if (pcurrent tks st).type != .newline &&
        (pcurrent tks st).type != .eof then
      skipToNextLineF tks k (padvance tks st).2
    else st

/-- `Parser.skipToNextLine`. -/
def pskipToNextLine (tks : List Token) (st : PState) : PState :=
  let st' := skipToNextLineF tks (tks.length - st.pos) st
  if (pcurrent tks st').type = .newline then (padvance tks st').2
  else st'

/-- `strings.Join`. -/
def goJoin (sep : String) : List String → String
  | [] => ""
  | [x] => x
  | x :: xs => x ++ sep ++ goJoin sep xs

/-- The collect loop of `Parser.readRestOfLine`. -/
def readRestOfLineF (tks : List Token) :
    Nat → List String → PState → List String × PState
  | 0, acc, st => (acc, st)
  | k + 1, acc, st =>
    if (pcurrent tks st).type != .newline &&
        (pcurrent tks st).type != .eof then
      readRestOfLineF tks k (acc ++ [(pcurrent tks st).literal])
        (padvance tks st).2
    else (acc, st)

/-- `Parser.readRestOfLine`. -/
def preadRestOfLine (tks : List Token) (st : PState) :
    String × PState :=
  let (parts, st') := readRestOfLineF tks (tks.length - st.pos) [] st
  (goJoin " " parts, st')

/-- `strings.TrimSpace`. -/
def goTrimSpace (s : String) : String :=
  String.mk (((s.data.dropWhile goIsSpace).reverse.dropWhile
    goIsSpace).reverse)

/-- `strings.Trim` with a one-character cutset. -/
def goTrimChar (c : Char) (s : String) : String :=
  String.mk (((s.data.dropWhile (· = c)).reverse.dropWhile
    (· = c)).reverse)

/-- `strings.TrimLeft` with a cutset. -/
def goTrimLeftIn (cutset : List Char) (s : String) : String :=
  String.mk (s.data.dropWhile (· ∈ cutset))

/-- `strings.TrimRight` with a cutset. -/
def goTrimRightIn (cutset : List Char) (s : String) : String :=
  String.mk ((s.data.reverse.dropWhile (· ∈ cutset)).reverse)

/-- `parser.stripQuotes` (byte indexing coincides with character
indexing on the ASCII quote). -/
def stripQuotes (s : String) : String :=
  if 2 ≤ s.data.length && s.data.getD 0 (Char.ofNat 0) = '"' &&
      s.data.getD (s.data.length - 1) (Char.ofNat 0) = '"' then
    String.mk ((s.data.drop 1).dropLast)
  else s

/-- `parser.isDashedArrow`. -/
def isDashedArrow (arrow : String) : Bool :=
  let shaft := goTrimRightIn ['>', '|', '*', 'o']
    (goTrimLeftIn ['<', '|'] arrow)
  goContains shaft ".." || goContains shaft "--"

/-- `parser.isDelayArrow`. -/
def isDelayArrow (literal : String) : Bool :=
  literal.data.all (fun ch => ch = '.') &&
    decide (3 ≤ literal.data.length)

/-- `parser.fragmentName`. -/
def fragmentName : FragmentKind → String
  | .alt => "alt"
  | .loop => "loop"
  | .par => "par"
  | .break' => "break"
  | .ref => "ref"
  | .group => "group"

end GoUml

namespace GoUml

/-- The dotted-name loop of `Parser.readClassName`. -/
def readClassNameF (tks : List Token) :
    Nat → List Char → PState → List Char × PState
  | 0, acc, st => (acc, st)
  | k + 1, acc, st =>
    if (pcurrent tks st).type = .dot && (ppeek tks st).type = .ident
    then
      let st1 := (padvance tks st).2
      let lit := (pcurrent tks st1).literal
      readClassNameF tks k (acc ++ ['.'] ++ lit.data)
        (padvance tks st1).2
    else (acc, st)

/-- `Parser.readClassName`. -/
def preadClassName (tks : List Token) (st : PState) :
    String × PState :=
  if (pcurrent tks st).type = .string' then
    let (tok, st1) := padvance tks st
    (goTrimChar '"' tok.literal, st1)
  else
    let lit := (pcurrent tks st).literal
    let st1 := (padvance tks st).2
    let (bs, st2) := readClassNameF tks (tks.length - st1.pos)
      lit.data st1
    (String.mk bs, st2)

/-- The collect loop of `Parser.tryStereotype`. -/
def stereoCollectF (tks : List Token) :
    Nat → List String → PState → List String × PState
  | 0, acc, st => (acc, st)
  | k + 1, acc, st =>
    if (pcurrent tks st).type != .rangle &&
        (pcurrent tks st).type != .newline &&
        (pcurrent tks st).type != .eof then
      stereoCollectF tks k (acc ++ [(pcurrent tks st).literal])
        (padvance tks st).2
    else (acc, st)

/-- `Parser.tryStereotype`. -/
def pTryStereotype (tks : List Token) (st : PState) :
    String × PState :=
  if (pcurrent tks st).type != .langle then ("", st)
  else if (ppeek tks st).type != .langle then ("", st)
  else
    let st1 := (padvance tks st).2
    let st2 := (padvance tks st1).2
    let (parts, st3) := stereoCollectF tks (tks.length - st2.pos) []
      st2
    let st4 := if (pcurrent tks st3).type = .rangle then
      (padvance tks st3).2 else st3
    let st5 := if (pcurrent tks st4).type = .rangle then
      (padvance tks st4).2 else st4
    (goJoin " " parts, st5)

/-- `Parser.readParticipantName`. -/
def preadParticipantName (tks : List Token) (st : PState) :
    String × PState :=
  if (pcurrent tks st).type = .string' then
    let name := stripQuotes (pcurrent tks st).literal
    (name, (padvance tks st).2)
  else if (pcurrent tks st).type = .ident then
    let name := (pcurrent tks st).literal
    (name, (padvance tks st).2)
  else ("", st)

/-- `Parser.tryVisibility`. -/
def pTryVisibility (tks : List Token) (st : PState) :
    Visibility × PState :=
  match (pcurrent tks st).type with
  | .plus => (.public, (padvance tks st).2)
  | .minus => (.private', (padvance tks st).2)
  | .hash => (.protected', (padvance tks st).2)
  | .tilde => (.package', (padvance tks st).2)
  | _ => (.none, st)

/-- `Parser.tryModifier`. -/
def pTryModifier (tks : List Token) (st : PState) :
    Modifier × PState :=
  match (pcurrent tks st).type with
  | .static => (.static, (padvance tks st).2)
  | .field => (.field, (padvance tks st).2)
  | .method => (.method, (padvance tks st).2)
  | _ => (.none, st)

/-- The collect loop of `Parser.readTypeUntilNewline`. -/
def readTypeF (tks : List Token) :
    Nat → List String → PState → List String × PState
  | 0, acc, st => (acc, st)
  | k + 1, acc, st =>
    if (pcurrent tks st).type != .newline &&
        (pcurrent tks st).type != .eof &&
        (pcurrent tks st).type != .rbrace then
      readTypeF tks k (acc ++ [(pcurrent tks st).literal])
        (padvance tks st).2
    else (acc, st)

/-- `Parser.readTypeUntilNewline`. -/
def preadTypeUntilNewline (tks : List Token) (st : PState) :
    String × PState :=
  let (parts, st') := readTypeF tks (tks.length - st.pos) [] st
  (goTrimSpace (goJoin " " parts), st')

/-- `Parser.consumeOptionalNewline`. -/
def pConsumeOptionalNewline (tks : List Token) (st : PState) :
    PState :=
  if (pcurrent tks st).type = .newline then (padvance tks st).2
  else st

/-- The comma loop of `Parser.readNoteTarget`. -/
def noteTargetF (tks : List Token) :
    Nat → String → PState → String × PState
  | 0, name, st => (name, st)
  | k + 1, name, st =>
    if (pcurrent tks st).type = .comma then
      let st1 := (padvance tks st).2
      if (pcurrent tks st1).type = .ident ||
          (pcurrent tks st1).type = .string' then
        noteTargetF tks k
          (name ++ "," ++ stripQuotes (pcurrent tks st1).literal)
          (padvance tks st1).2
      else noteTargetF tks k (name ++ ",") st1
    else (name, st)

/-- `Parser.readNoteTarget`. -/
def preadNoteTarget (tks : List Token) (st : PState) :
    String × PState :=
  if (pcurrent tks st).type = .ident ||
      (pcurrent tks st).type = .string' then
    let name := stripQuotes (pcurrent tks st).literal
    let st1 := (padvance tks st).2
    noteTargetF tks (tks.length - st1.pos) name st1
  else ("", st)

/-- The line loop of `Parser.readMultiLineNote`. -/
def multiLineNoteF (tks : List Token) :
    Nat → List String → PState → List String × PState
  | 0, acc, st => (acc, st)
  | k + 1, acc, st =>
    if (pcurrent tks st).type != .eof &&
        (pcurrent tks st).type != .endUML then
      if (pcurrent tks st).type = .newline then
        multiLineNoteF tks k acc (padvance tks st).2
      else if (pcurrent tks st).type = .end' then
        let st1 := (padvance tks st).2
        let st2 := if (pcurrent tks st1).type = .note then
          (padvance tks st1).2 else st1
        (acc, pskipToNextLine tks st2)
      else
        let (line, st1) := preadRestOfLine tks st
        multiLineNoteF tks k (acc ++ [line]) st1
    else (acc, st)

/-- `Parser.readMultiLineNote`. -/
def preadMultiLineNote (tks : List Token) (st : PState) :
    String × PState :=
  let (lines, st') := multiLineNoteF tks (tks.length - st.pos) [] st
  (goJoin "\n" lines, st')

end GoUml

namespace GoUml

/-- `Parser.parseComment` / `Parser.parseBlockComment` (identical
bodies). -/
def parseCommentP (tks : List Token) (st : PState) : Stmt × PState :=
  let (tok, st1) := padvance tks st
  (.comment tok.pos tok.literal, st1)

/-- `Parser.parseTitle`. -/
def parseTitleP (tks : List Token) (st : PState) : Stmt × PState :=
  let (tok, st1) := padvance tks st
  let (text, st2) := preadRestOfLine tks st1
  (.comment tok.pos ("title " ++ text), st2)

/-- `Parser.parseHeader`. -/
def parseHeaderP (tks : List Token) (st : PState) : Stmt × PState :=
  let (tok, st1) := padvance tks st
  let (text, st2) := preadRestOfLine tks st1
  (.comment tok.pos ("header " ++ text), st2)

/-- `Parser.parseFooter`. -/
def parseFooterP (tks : List Token) (st : PState) : Stmt × PState :=
  let (tok, st1) := padvance tks st
  let (text, st2) := preadRestOfLine tks st1
  (.comment tok.pos ("footer " ++ text), st2)

/-- `Parser.parseSkinparam`. -/
def parseSkinparamP (tks : List Token) (st : PState) : Stmt × PState :=
  let (tok, st1) := padvance tks st
  let (name, st2) :=
    if (pcurrent tks st1).type = .ident then
      ((pcurrent tks st1).literal, (padvance tks st1).2)
    else ("", st1)
  let (value, st3) := preadRestOfLine tks st2
  (.skinparam tok.pos name value, st3)

/-- `Parser.parseHideShow`. -/
def parseHideShowP (isHide : Bool) (tks : List Token) (st : PState) :
    Stmt × PState :=
  let (tok, st1) := padvance tks st
  let (target, st2) := preadRestOfLine tks st1
  (.hideShow tok.pos isHide target, st2)

/-- `Parser.parseNote`. -/
def parseNoteP (tks : List Token) (st : PState) : Stmt × PState :=
  let (tok, st1) := padvance tks st
  let (placement, target, st2) :=
    match (pcurrent tks st1).type with
    | .left =>
      let st2 := (padvance tks st1).2
      let st3 := if (pcurrent tks st2).type = TokenType.of' then
        (padvance tks st2).2 else st2
      let (t, st4) := preadNoteTarget tks st3
      (NotePosition.left, t, st4)
    | .right =>
      let st2 := (padvance tks st1).2
      let st3 := if (pcurrent tks st2).type = TokenType.of' then
        (padvance tks st2).2 else st2
      let (t, st4) := preadNoteTarget tks st3
      (NotePosition.right, t, st4)
    | .over =>
      let st2 := (padvance tks st1).2
      let (t, st3) := preadNoteTarget tks st2
      (NotePosition.over, t, st3)
    | _ => (NotePosition.over, "", st1)
  let (text, st5) :=
    if (pcurrent tks st2).type = TokenType.colon then
      let st3 := (padvance tks st2).2
      let (t, st4) := preadRestOfLine tks st3
      (goTrimSpace t, st4)
    else preadMultiLineNote tks st2
  (.note tok.pos placement target text, st5)

/-- `Parser.parseParticipant`. -/
def parseParticipantP (kind : ParticipantKind) (tks : List Token)
    (st : PState) : Stmt × PState :=
  let (tok, st1) := padvance tks st
  let (name, st2) := preadParticipantName tks st1
  let (alias', st3) :=
    if (pcurrent tks st2).type = .as' then
      let st3 := (padvance tks st2).2
      if (pcurrent tks st3).type = .ident ||
          (pcurrent tks st3).type = .string' then
        (stripQuotes (pcurrent tks st3).literal, (padvance tks st3).2)
      else ("", st3)
    else ("", st2)
  let st4 := pskipToNextLine tks st3
  (.participant tok.pos name alias' kind, st4)

/-- `Parser.parseActivate`. -/
def parseActivateP (deactivate : Bool) (tks : List Token)
    (st : PState) : Stmt × PState :=
  let (tok, st1) := padvance tks st
  let (target, st2) :=
    if (pcurrent tks st1).type = .ident ||
        (pcurrent tks st1).type = .string' then
      (stripQuotes (pcurrent tks st1).literal, (padvance tks st1).2)
    else ("", st1)
  let st3 := pskipToNextLine tks st2
  (.activate tok.pos target deactivate, st3)

/-- `Parser.parseReturn`. -/
def parseReturnP (tks : List Token) (st : PState) : Stmt × PState :=
  let (tok, st1) := padvance tks st
  let (label, st2) := preadRestOfLine tks st1
  (.ret tok.pos label, st2)

/-- `Parser.parseAutonumber`. -/
def parseAutonumberP (tks : List Token) (st : PState) :
    Stmt × PState :=
  let (tok, st1) := padvance tks st
  let (start, st2) :=
    if (pcurrent tks st1).type = .number then
      ((pcurrent tks st1).literal, (padvance tks st1).2)
    else ("", st1)
  let st3 := pskipToNextLine tks st2
  (.autonumber tok.pos start, st3)

/-- The collect loop of `Parser.parseDivider`. -/
def dividerF (tks : List Token) :
    Nat → List String → PState → List String × PState
  | 0, acc, st => (acc, st)
  | k + 1, acc, st =>
    if (pcurrent tks st).type != .newline &&
        (pcurrent tks st).type != .eof then
      if (pcurrent tks st).type = .equals then
        let st1 := (padvance tks st).2
        if (pcurrent tks st1).type = .equals then
          (acc, (padvance tks st1).2)
        else dividerF tks k (acc ++ ["="]) st1
      else dividerF tks k (acc ++ [(pcurrent tks st).literal])
        (padvance tks st).2
    else (acc, st)

/-- `Parser.parseDivider`. -/
def parseDividerP (tks : List Token) (st : PState) : Stmt × PState :=
  let (tok, st1) := padvance tks st
  let st2 := if (pcurrent tks st1).type = .equals then
    (padvance tks st1).2 else st1
  let (parts, st3) := dividerF tks (tks.length - st2.pos) [] st2
  (.divider tok.pos (goTrimSpace (goJoin " " parts)), st3)

/-- The collect loop of `Parser.parseDelay`. -/
def delayF (tks : List Token) :
    Nat → List String → PState → List String × PState
  | 0, acc, st => (acc, st)
  | k + 1, acc, st =>
    if (pcurrent tks st).type != .newline &&
        (pcurrent tks st).type != .eof then
      if (pcurrent tks st).type = .arrow &&
          isDelayArrow (pcurrent tks st).literal then
        (acc, (padvance tks st).2)
      else delayF tks k (acc ++ [(pcurrent tks st).literal])
        (padvance tks st).2
    else (acc, st)

/-- `Parser.parseDelay`. -/
def parseDelayP (tks : List Token) (st : PState) : Stmt × PState :=
  let (tok, st1) := padvance tks st
  let (text, st2) :=
    if (pcurrent tks st1).type != .newline &&
        (pcurrent tks st1).type != .eof then
      let (parts, st2) := delayF tks (tks.length - st1.pos) [] st1
      (goTrimSpace (goJoin " " parts), st2)
    else ("", st1)
  (.delay tok.pos text, st2)

/-- `Parser.parseMessage`. -/
def parseMessageP (pos : Pos) (from' : String) (tks : List Token)
    (st : PState) : Stmt × PState :=
  let (arrowTok, st1) := padvance tks st
  let arrow := arrowTok.literal
  let dashed := isDashedArrow arrow
  let (to', st2) :=
    if (pcurrent tks st1).type = .ident ||
        (pcurrent tks st1).type = .string' then
      (stripQuotes (pcurrent tks st1).literal, (padvance tks st1).2)
    else ("", st1)
  let st3 :=
    if (pcurrent tks st2).type = .plus then
      let s := (padvance tks st2).2
      if (pcurrent tks s).type = .plus then (padvance tks s).2 else s
    else if (pcurrent tks st2).type = .arrow &&
        (pcurrent tks st2).literal = "--" then
      (padvance tks st2).2
    else st2
  let (label, st4) :=
    if (pcurrent tks st3).type = .colon then
      let s := (padvance tks st3).2
      let (t, s') := preadRestOfLine tks s
      (goTrimSpace t, s')
    else ("", pskipToNextLine tks st3)
  (.message pos from' to' label arrow dashed, st4)

/-- `Parser.parseSequenceIdentStatement` (`%q` is modelled as plain
quoting). -/
def parseSequenceIdentStatementP (tks : List Token) (st : PState) :
    Option Stmt × PState :=
  let tok := pcurrent tks st
  let name := tok.literal
  let st1 := (padvance tks st).2
  if (pcurrent tks st1).type = .arrow then
    let (m, st2) := parseMessageP tok.pos name tks st1
    (some m, st2)
  else
    let st2 := paddError st1 tok.pos
      ("unexpected identifier \"" ++ name ++ "\"")
    (none, pskipToNextLine tks st2)

/-- `Parser.parseRelationship` (reusing `classifyArrow`). -/
def parseRelationshipP (pos : Pos) (leftName leftCard : String)
    (tks : List Token) (st : PState) : Stmt × PState :=
  let (arrowTok, st1) := padvance tks st
  let (relType, dir) := classifyArrow arrowTok.literal
  let (rightCard, st2) :=
    if (pcurrent tks st1).type = .string' then
      (goTrimChar '"' (pcurrent tks st1).literal, (padvance tks st1).2)
    else ("", st1)
  let (rightName, st3) :=
    if (pcurrent tks st2).type = .ident ||
        (pcurrent tks st2).type = .string' then
      preadClassName tks st2
    else ("", st2)
  let (label, st4) :=
    if (pcurrent tks st3).type = .colon then
      let s := (padvance tks st3).2
      let (t, s') := preadRestOfLine tks s
      (goTrimSpace t, s')
    else ("", st3)
  (.relationship pos leftName rightName relType dir label leftCard
    rightCard arrowTok.literal, st4)

/-- `Parser.parseIdentStatement`. -/
def parseIdentStatementP (tks : List Token) (st : PState) :
    Option Stmt × PState :=
  if st.seqMode then parseSequenceIdentStatementP tks st
  else
    let pos := (pcurrent tks st).pos
    let (leftName, st1) := preadClassName tks st
    let (leftCard, st2) :=
      if (pcurrent tks st1).type = .string' then
        (goTrimChar '"' (pcurrent tks st1).literal,
         (padvance tks st1).2)
      else ("", st1)
    if (pcurrent tks st2).type = .arrow then
      let (r, st3) := parseRelationshipP pos leftName leftCard tks st2
      (some r, st3)
    else
      (some (.comment pos leftName), pskipToNextLine tks st2)

end GoUml

namespace GoUml

/-- The parameter loop of `Parser.parseMethodAfterName`. -/
def methodParamsF (tks : List Token) :
    Nat → List String → PState → List String × PState
  | 0, acc, st => (acc, st)
  | k + 1, acc, st =>
    if (pcurrent tks st).type != .rparen &&
        (pcurrent tks st).type != .newline &&
        (pcurrent tks st).type != .eof then
      methodParamsF tks k (acc ++ [(pcurrent tks st).literal])
        (padvance tks st).2
    else (acc, st)

/-- `Parser.parseMethodAfterName`. -/
def parseMethodAfterNameP (pos : Pos) (vis : Visibility)
    (mod : Modifier) (name : String) (tks : List Token)
    (st : PState) : Member × PState :=
  let st1 := (padvance tks st).2
  let (params, st2) := methodParamsF tks (tks.length - st1.pos) [] st1
  let st3 := if (pcurrent tks st2).type = .rparen then
    (padvance tks st2).2 else st2
  let (retType, st4) :=
    if (pcurrent tks st3).type = .colon then
      let s := (padvance tks st3).2
      preadTypeUntilNewline tks s
    else ("", st3)
  let st5 := pConsumeOptionalNewline tks st4
  (.method pos name (goJoin " " params) retType vis mod, st5)

/-- `Parser.parseMember`. -/
def parseMemberP (tks : List Token) (st : PState) :
    Option Member × PState :=
  let pos := (pcurrent tks st).pos
  let (vis, st1) := pTryVisibility tks st
  let (mod, st2) := pTryModifier tks st1
  if (pcurrent tks st2).type = .newline ||
      (pcurrent tks st2).type = .rbrace ||
      (pcurrent tks st2).type = .eof then
    (none, st2)
  else if (pcurrent tks st2).type = .ident then
    let name := (pcurrent tks st2).literal
    let st3 := (padvance tks st2).2
    if (pcurrent tks st3).type = .lparen then
      let (m, st4) := parseMethodAfterNameP pos vis mod name tks st3
      (some m, st4)
    else
      let (typeName, st4) :=
        if (pcurrent tks st3).type = .colon then
          let s := (padvance tks st3).2
          preadTypeUntilNewline tks s
        else ("", st3)
      let st5 := pConsumeOptionalNewline tks st4
      (some (.field pos name typeName vis mod), st5)
  else
    let (name, st3) := preadRestOfLine tks st2
    if name = "" then (none, pskipToNextLine tks st3)
    else (some (.field pos name "" vis mod), st3)

/-- The member loop of `Parser.parseClassBody`. -/
def classBodyF (tks : List Token) :
    Nat → List Member → PState → List Member × PState
  | 0, acc, st => (acc, st)
  | k + 1, acc, st =>
    if (pcurrent tks st).type != .rbrace &&
        (pcurrent tks st).type != .eof then
      let st1 := pskipNewlines tks st
      if (pcurrent tks st1).type = .rbrace ||
          (pcurrent tks st1).type = .eof then (acc, st1)
      else if (pcurrent tks st1).type = .lineComment ||
          (pcurrent tks st1).type = .blockComment then
        classBodyF tks k acc (padvance tks st1).2
      else
        let (m, st2) := parseMemberP tks st1
        match m with
        | some mem => classBodyF tks k (acc ++ [mem]) st2
        | none => classBodyF tks k acc st2
    else (acc, st)

/-- `Parser.parseClassBody`. -/
def parseClassBodyP (tks : List Token) (st : PState) :
    List Member × PState :=
  let st1 := (padvance tks st).2
  let st2 := pskipNewlines tks st1
  let (members, st3) := classBodyF tks (tks.length - st2.pos + 1) []
    st2
  let st4 :=
    if (pcurrent tks st3).type = .rbrace then (padvance tks st3).2
    else paddError st3 (pcurrent tks st3).pos "expected closing \x7d"
  (members, st4)

/-- `Parser.parseClassDef`. -/
def parseClassDefP (abstract : Bool) (tks : List Token)
    (st : PState) : Stmt × PState :=
  let (tok, st1) := padvance tks st
  if (pcurrent tks st1).type = .ident ||
      (pcurrent tks st1).type = .string' then
    let (name, st2) := preadClassName tks st1
    let (stereotype, st3) := pTryStereotype tks st2
    let (alias', st4) :=
      if (pcurrent tks st3).type = .as' then
        let s := (padvance tks st3).2
        if (pcurrent tks s).type = .ident then
          ((pcurrent tks s).literal, (padvance tks s).2)
        else ("", s)
      else ("", st3)
    if (pcurrent tks st4).type = .extends' ||
        (pcurrent tks st4).type = .implements then
      (.classDef tok.pos name alias' stereotype abstract [],
       pskipToNextLine tks st4)
    else if (pcurrent tks st4).type = .lbrace then
      let (members, st5) := parseClassBodyP tks st4
      (.classDef tok.pos name alias' stereotype abstract members, st5)
    else (.classDef tok.pos name alias' stereotype abstract [], st4)
  else
    let st2 := paddError st1 (pcurrent tks st1).pos
      "expected class name"
    (.classDef tok.pos "" "" "" abstract [], pskipToNextLine tks st2)

/-- `Parser.parseInterfaceDef`. -/
def parseInterfaceDefP (tks : List Token) (st : PState) :
    Stmt × PState :=
  let (tok, st1) := padvance tks st
  if (pcurrent tks st1).type = .ident ||
      (pcurrent tks st1).type = .string' then
    let (name, st2) := preadClassName tks st1
    let (stereotype, st3) := pTryStereotype tks st2
    let (alias', st4) :=
      if (pcurrent tks st3).type = .as' then
        let s := (padvance tks st3).2
        if (pcurrent tks s).type = .ident then
          ((pcurrent tks s).literal, (padvance tks s).2)
        else ("", s)
      else ("", st3)
    if (pcurrent tks st4).type = .lbrace then
      let (members, st5) := parseClassBodyP tks st4
      (.interfaceDef tok.pos name alias' stereotype members, st5)
    else (.interfaceDef tok.pos name alias' stereotype [], st4)
  else
    let st2 := paddError st1 (pcurrent tks st1).pos
      "expected interface name"
    (.interfaceDef tok.pos "" "" "" [], pskipToNextLine tks st2)

/-- `Parser.parseEnumDef`. -/
def parseEnumDefP (tks : List Token) (st : PState) : Stmt × PState :=
  let (tok, st1) := padvance tks st
  if (pcurrent tks st1).type = .ident ||
      (pcurrent tks st1).type = .string' then
    let (name, st2) := preadClassName tks st1
    let (stereotype, st3) := pTryStereotype tks st2
    if (pcurrent tks st3).type = .lbrace then
      let (members, st4) := parseClassBodyP tks st3
      (.enumDef tok.pos name stereotype members, st4)
    else (.enumDef tok.pos name stereotype [], st3)
  else
    let st2 := paddError st1 (pcurrent tks st1).pos
      "expected enum name"
    (.enumDef tok.pos "" "" [], pskipToNextLine tks st2)

/-- `Parser.parseAbstract`. -/
def parseAbstractP (tks : List Token) (st : PState) : Stmt × PState :=
  let (tok, st1) := padvance tks st
  if (pcurrent tks st1).type = .class' then parseClassDefP true tks st1
  else
    let (name, st2) :=
      if (pcurrent tks st1).type = .ident ||
          (pcurrent tks st1).type = .string' then
        preadClassName tks st1
      else ("", st1)
    let (stereotype, st3) := pTryStereotype tks st2
    if (pcurrent tks st3).type = .lbrace then
      let (members, st4) := parseClassBodyP tks st3
      (.classDef tok.pos name "" stereotype true members, st4)
    else (.classDef tok.pos name "" stereotype true [], st3)

end GoUml

namespace GoUml

/-- The body loop shared by `parseFragment` and `parseElsePart`,
parameterized over the recursive statement parser `ps`. -/
def fragStmtsF (ps : Bool → PState → Option Stmt × PState)
    (tks : List Token) :
    Nat → List Stmt → PState → List Stmt × PState
  | 0, acc, st => (acc, st)
  | k + 1, acc, st =>
    if (pcurrent tks st).type != .end' &&
        (pcurrent tks st).type != .else' &&
        (pcurrent tks st).type != .endUML &&
        (pcurrent tks st).type != .eof then
      let st1 := pskipNewlines tks st
      if (pcurrent tks st1).type = .end' ||
          (pcurrent tks st1).type = .else' ||
          (pcurrent tks st1).type = .endUML ||
          (pcurrent tks st1).type = .eof then (acc, st1)
      else
        let (m, st2) := ps true st1
        match m with
        | some s => fragStmtsF ps tks k (acc ++ [s]) st2
        | none => fragStmtsF ps tks k acc st2
    else (acc, st)

/-- `Parser.parseElsePart`, parameterized over the recursive
statement parser. -/
def parseElsePartG (ps : Bool → PState → Option Stmt × PState)
    (tks : List Token) (st : PState) : ElseP × PState :=
  let (tok, st1) := padvance tks st
  let (condition, st2) := preadRestOfLine tks st1
  let st3 := pskipNewlines tks st2
  let (stmts, st4) := fragStmtsF ps tks (tks.length - st3.pos + 1) []
    st3
  (.mk tok.pos (goTrimSpace condition) stmts, st4)

/-- The `else` loop of `Parser.parseFragment`. -/
def fragElseF (ps : Bool → PState → Option Stmt × PState)
    (tks : List Token) :
    Nat → List ElseP → PState → List ElseP × PState
  | 0, acc, st => (acc, st)
  | k + 1, acc, st =>
    if (pcurrent tks st).type = .else' then
      let (ep, st1) := parseElsePartG ps tks st
      fragElseF ps tks k (acc ++ [ep]) st1
    else (acc, st)

/-- `Parser.parseFragment`, parameterized over the recursive
statement parser. -/
def parseFragmentG (ps : Bool → PState → Option Stmt × PState)
    (kind : FragmentKind) (tks : List Token) (st : PState) :
    Stmt × PState :=
  let (tok, st1) := padvance tks st
  let (condition, st2) := preadRestOfLine tks st1
  let st3 := pskipNewlines tks st2
  let (stmts, st4) := fragStmtsF ps tks (tks.length - st3.pos + 1) []
    st3
  let (elses, st5) := fragElseF ps tks (tks.length - st4.pos + 1) []
    st4
  let st6 :=
    if (pcurrent tks st5).type = .end' then
      pskipToNextLine tks (padvance tks st5).2
    else paddError st5 (pcurrent tks st5).pos
      ("expected 'end' to close " ++ fragmentName kind ++ " fragment")
  (.fragment tok.pos kind (goTrimSpace condition) stmts elses, st6)

/-- The statement loop of `Parser.parsePackage`. -/
def pkgStmtsF (ps : Bool → PState → Option Stmt × PState)
    (tks : List Token) :
    Nat → List Stmt → PState → List Stmt × PState
  | 0, acc, st => (acc, st)
  | k + 1, acc, st =>
    if (pcurrent tks st).type != .rbrace &&
        (pcurrent tks st).type != .eof then
      let st1 := pskipNewlines tks st
      if (pcurrent tks st1).type = .rbrace ||
          (pcurrent tks st1).type = .eof then (acc, st1)
      else
        let (m, st2) := ps false st1
        match m with
        | some s => pkgStmtsF ps tks k (acc ++ [s]) st2
        | none => pkgStmtsF ps tks k acc st2
    else (acc, st)

/-- `Parser.parsePackage`, parameterized over the recursive
statement parser. -/
def parsePackageG (ps : Bool → PState → Option Stmt × PState)
    (tks : List Token) (st : PState) : Stmt × PState :=
  let (tok, st1) := padvance tks st
  let isNamespace := tok.type = .namespace'
  let (name, st2) :=
    if (pcurrent tks st1).type = .ident ||
        (pcurrent tks st1).type = .string' then
      preadClassName tks st1
    else ("", st1)
  let (alias', st3) :=
    if (pcurrent tks st2).type = .as' then
      let s := (padvance tks st2).2
      if (pcurrent tks s).type = .ident then
        ((pcurrent tks s).literal, (padvance tks s).2)
      else ("", s)
    else ("", st2)
  if (pcurrent tks st3).type = .lbrace then
    let st4 := (padvance tks st3).2
    let st5 := pskipNewlines tks st4
    let (stmts, st6) := pkgStmtsF ps tks (tks.length - st5.pos + 1)
      [] st5
    let st7 :=
      if (pcurrent tks st6).type = .rbrace then (padvance tks st6).2
      else paddError st6 (pcurrent tks st6).pos
        "expected closing \x7d for package"
    (.pkg tok.pos name alias' stmts isNamespace, st7)
  else (.pkg tok.pos name alias' [] isNamespace, st3)

/-- `Parser.parseStatementInContext`, parameterized over the
recursive statement parser used inside fragments and packages
(`%q` is modelled as plain quoting). -/
def parseStatementInContextG
    (ps : Bool → PState → Option Stmt × PState) (tks : List Token)
    (inFragment : Bool) (st : PState) : Option Stmt × PState :=
  let tok := pcurrent tks st
  match tok.type with
  | .lineComment => let (s, st') := parseCommentP tks st; (some s, st')
  | .blockComment =>
    let (s, st') := parseCommentP tks st
    (some s, st')
  | .title => let (s, st') := parseTitleP tks st; (some s, st')
  | .header => let (s, st') := parseHeaderP tks st; (some s, st')
  | .footer => let (s, st') := parseFooterP tks st; (some s, st')
  | .skinparam =>
    let (s, st') := parseSkinparamP tks st
    (some s, st')
  | .hide => let (s, st') := parseHideShowP true tks st; (some s, st')
  | .show' =>
    let (s, st') := parseHideShowP false tks st
    (some s, st')
  | .class' =>
    let (s, st') := parseClassDefP false tks st
    (some s, st')
  | .abstract => let (s, st') := parseAbstractP tks st; (some s, st')
  | .interface =>
    let (s, st') := parseInterfaceDefP tks st
    (some s, st')
  | .enum => let (s, st') := parseEnumDefP tks st; (some s, st')
  | .package' => let (s, st') := parsePackageG ps tks st; (some s, st')
  | .namespace' =>
    let (s, st') := parsePackageG ps tks st
    (some s, st')
  | .participant =>
    let (s, st') := parseParticipantP .default tks
      { st with seqMode := true }
    (some s, st')
  | .actor =>
    let (s, st') := parseParticipantP .actor tks
      { st with seqMode := true }
    (some s, st')
  | .boundary =>
    let (s, st') := parseParticipantP .boundary tks
      { st with seqMode := true }
    (some s, st')
  | .control =>
    let (s, st') := parseParticipantP .control tks
      { st with seqMode := true }
    (some s, st')
  | .entity =>
    let (s, st') := parseParticipantP .entity tks
      { st with seqMode := true }
    (some s, st')
  | .database =>
    let (s, st') := parseParticipantP .database tks
      { st with seqMode := true }
    (some s, st')
  | .collections =>
    let (s, st') := parseParticipantP .collections tks
      { st with seqMode := true }
    (some s, st')
  | .queue =>
    let (s, st') := parseParticipantP .queue tks
      { st with seqMode := true }
    (some s, st')
  | .activate =>
    let (s, st') := parseActivateP false tks
      { st with seqMode := true }
    (some s, st')
  | .deactivate =>
    let (s, st') := parseActivateP true tks
      { st with seqMode := true }
    (some s, st')
  | .return' =>
    let (s, st') := parseReturnP tks { st with seqMode := true }
    (some s, st')
  | .alt =>
    let (s, st') := parseFragmentG ps .alt tks
      { st with seqMode := true }
    (some s, st')
  | .loop =>
    let (s, st') := parseFragmentG ps .loop tks
      { st with seqMode := true }
    (some s, st')
  | .par =>
    let (s, st') := parseFragmentG ps .par tks
      { st with seqMode := true }
    (some s, st')
  | .break' =>
    let (s, st') := parseFragmentG ps .break' tks
      { st with seqMode := true }
    (some s, st')
  | .ref =>
    let (s, st') := parseFragmentG ps .ref tks
      { st with seqMode := true }
    (some s, st')
  | .group =>
    let (s, st') := parseFragmentG ps .group tks
      { st with seqMode := true }
    (some s, st')
  | .autonumber =>
    let (s, st') := parseAutonumberP tks { st with seqMode := true }
    (some s, st')
  | .note => let (s, st') := parseNoteP tks st; (some s, st')
  | .equals => let (s, st') := parseDividerP tks st; (some s, st')
  | .arrow =>
    if isDelayArrow tok.literal then
      let (s, st') := parseDelayP tks st
      (some s, st')
    else
      let st1 := paddError st tok.pos
        ("unexpected arrow \"" ++ tok.literal ++ "\"")
      (none, pskipToNextLine tks st1)
  | .ident => parseIdentStatementP tks st
  | .error =>
    let st1 := paddError st tok.pos
      ("unexpected token: " ++ tok.literal)
    (none, pskipToNextLine tks st1)
  | t =>
    if inFragment && (t = .else' || t = .end') then (none, st)
    else
      let st1 := paddError st tok.pos
        ("unexpected " ++ tokenTypeName t ++ " \"" ++ tok.literal ++
          "\"")
      (none, pskipToNextLine tks st1)

/-- The tied knot: the recursion of `parseStatementInContext` through
fragments and packages, with a nesting bound (each nesting level has
consumed at least one token, so `tokens.length + 1` is never
exhausted). -/
def parseStmtF (tks : List Token) :
    Nat → Bool → PState → Option Stmt × PState
  | 0, _, st => (none, st)
  | f + 1, inFragment, st =>
    parseStatementInContextG (parseStmtF tks f) tks inFragment st

/-- `Parser.parseStatementInContext`. -/
def parseStatementInContextP (tks : List Token) (inFragment : Bool)
    (st : PState) : Option Stmt × PState :=
  parseStmtF tks (tks.length + 1) inFragment st

/-- `Parser.parseStatement`. -/
def parseStatementP (tks : List Token) (st : PState) :
    Option Stmt × PState :=
  parseStatementInContextP tks false st

/-- The statement loop of `Parser.parseDiagram`. -/
def diagStmtsF (tks : List Token) :
    Nat → List Stmt → PState → List Stmt × PState
  | 0, acc, st => (acc, st)
  | k + 1, acc, st =>
    if (pcurrent tks st).type != .endUML &&
        (pcurrent tks st).type != .eof then
      let st1 := pskipNewlines tks st
      if (pcurrent tks st1).type = .endUML ||
          (pcurrent tks st1).type = .eof then (acc, st1)
      else
        let (m, st2) := parseStatementP tks st1
        match m with
        | some s => diagStmtsF tks k (acc ++ [s]) st2
        | none => diagStmtsF tks k acc st2
    else (acc, st)

/-- The closing `@enduml` check of `Parser.parseDiagram`. -/
def diagClose (tks : List Token) (st : PState) : PState :=
  if (pcurrent tks st).type = .endUML then (padvance tks st).2
  else if (pcurrent tks st).type = .eof then
    paddError st (pcurrent tks st).pos
      "expected @enduml before end of input"
  else st

/-- `Parser.parseDiagram`. -/
def parseDiagram (tks : List Token) (st : PState) :
    Diagram × PState :=
  let st1 := pskipNewlines tks st
  let tok := pcurrent tks st1
  if tok.type = .startUML then
    let st2 := (padvance tks st1).2
    let (name, st3) :=
      if (pcurrent tks st2).type = .ident ||
          (pcurrent tks st2).type = .string' then
        ((pcurrent tks st2).literal, (padvance tks st2).2)
      else ("", st2)
    let st4 := pskipNewlines tks st3
    let (stmts, st5) := diagStmtsF tks (tks.length - st4.pos + 1) []
      st4
    ({ pos := tok.pos, name := name, statements := stmts },
     diagClose tks st5)
  else if tok.type = .eof then ({}, st1)
  else
    let st2 := paddError st1 tok.pos
      ("expected @startuml, got " ++ tokenTypeName tok.type)
    let st3 := pskipToNextLine tks st2
    let (stmts, st4) := diagStmtsF tks (tks.length - st3.pos + 1) []
      st3
    ({ statements := stmts }, diagClose tks st4)

/-- `parser.Parse`. -/
def Parse (input : String) : Diagram × List PError :=
  let tokens := Tokenize input
  let (diagram, st) := parseDiagram tokens {}
  (diagram, st.errors)

/-- `gouml.Error`. -/
structure GError where
  line : Nat
  column : Nat
  message : String
deriving DecidableEq, Repr

/-- `gouml.Parse` (the `io.Reader` is modelled as the string it
yields; the read itself cannot fail). -/
def goumlParse (input : String) : Diagram × List GError :=
  let (diagram, parseErrs) := Parse input
  (diagram,
   parseErrs.map fun pe => ⟨pe.pos.line, pe.pos.column, pe.message⟩)

end GoUml

namespace GoUml

/-! Diagnostics are append-only: every parser function either leaves
`errors` unchanged or extends it on the right (`addError`). -/

/-- `st'` extends the diagnostics of `st` on the right. -/
def ErrExt (st st' : PState) : Prop :=
  ∃ ext, st'.errors = st.errors ++ ext

theorem errExt_of_eq {st st' : PState} (h : st'.errors = st.errors) :
    ErrExt st st' := ⟨[], by simp [h]⟩

theorem errExt_trans {a b c : PState} (h1 : ErrExt a b)
    (h2 : ErrExt b c) : ErrExt a c := by
  obtain ⟨x, hx⟩ := h1
  obtain ⟨y, hy⟩ := h2
  exact ⟨x ++ y, by rw [hy, hx, List.append_assoc]⟩

theorem errExt_addError (st : PState) (p : Pos) (m : String) :
    ErrExt st (paddError st p m) := ⟨[⟨p, m⟩], rfl⟩

theorem errExt_mem {st st' : PState} (h : ErrExt st st') {e : PError}
    (he : e ∈ st.errors) : e ∈ st'.errors := by
  obtain ⟨x, hx⟩ := h
  rw [hx]
  exact List.mem_append.mpr (Or.inl he)

theorem padvance_errors (tks : List Token) (st : PState) :
    ((padvance tks st).2).errors = st.errors := by
  unfold padvance
  split <;> rfl

theorem skipNewlinesF_errors (tks : List Token) :
    ∀ k st, (skipNewlinesF tks k st).errors = st.errors := by
  intro k
  induction k with
  | zero => intro st; rfl
  | succ k ih =>
    intro st
    unfold skipNewlinesF
    split
    · rw [ih, padvance_errors]
    · rfl

theorem pskipNewlines_errors (tks : List Token) (st : PState) :
    (pskipNewlines tks st).errors = st.errors :=
  skipNewlinesF_errors tks _ st

theorem skipToNextLineF_errors (tks : List Token) :
    ∀ k st, (skipToNextLineF tks k st).errors = st.errors := by
  intro k
  induction k with
  | zero => intro st; rfl
  | succ k ih =>
    intro st
    unfold skipToNextLineF
    split
    · rw [ih, padvance_errors]
    · rfl

theorem pskipToNextLine_errors (tks : List Token) (st : PState) :
    (pskipToNextLine tks st).errors = st.errors := by
  unfold pskipToNextLine
  dsimp only
  split
  · rw [padvance_errors, skipToNextLineF_errors]
  · rw [skipToNextLineF_errors]

theorem readRestOfLineF_errors (tks : List Token) :
    ∀ k acc st, ((readRestOfLineF tks k acc st).2).errors =
      st.errors := by
  intro k
  induction k with
  | zero => intro acc st; rfl
  | succ k ih =>
    intro acc st
    unfold readRestOfLineF
    split
    · rw [ih, padvance_errors]
    · rfl

theorem preadRestOfLine_errors (tks : List Token) (st : PState) :
    ((preadRestOfLine tks st).2).errors = st.errors :=
  readRestOfLineF_errors tks _ [] st

theorem readClassNameF_errors (tks : List Token) :
    ∀ k acc st, ((readClassNameF tks k acc st).2).errors =
      st.errors := by
  intro k
  induction k with
  | zero => intro acc st; rfl
  | succ k ih =>
    intro acc st
    unfold readClassNameF
    split
    · rw [ih, padvance_errors, padvance_errors]
    · rfl

theorem preadClassName_errors (tks : List Token) (st : PState) :
    ((preadClassName tks st).2).errors = st.errors := by
  unfold preadClassName
  split
  · dsimp only
    rw [padvance_errors]
  · dsimp only
    rw [readClassNameF_errors, padvance_errors]

theorem stereoCollectF_errors (tks : List Token) :
    ∀ k acc st, ((stereoCollectF tks k acc st).2).errors =
      st.errors := by
  intro k
  induction k with
  | zero => intro acc st; rfl
  | succ k ih =>
    intro acc st
    unfold stereoCollectF
    split
    · rw [ih, padvance_errors]
    · rfl

theorem pTryStereotype_errors (tks : List Token) (st : PState) :
    ((pTryStereotype tks st).2).errors = st.errors := by
  unfold pTryStereotype
  split
  · rfl
  · split
    · rfl
    · dsimp only
      split
      · split
        · rw [padvance_errors, padvance_errors, stereoCollectF_errors,
            padvance_errors, padvance_errors]
        · rw [padvance_errors, stereoCollectF_errors,
            padvance_errors, padvance_errors]
      · rw [stereoCollectF_errors, padvance_errors,
          padvance_errors]

theorem preadParticipantName_errors (tks : List Token) (st : PState) :
    ((preadParticipantName tks st).2).errors = st.errors := by
  unfold preadParticipantName
  split
  · rw [padvance_errors]
  · split
    · rw [padvance_errors]
    · rfl

theorem pTryVisibility_errors (tks : List Token) (st : PState) :
    ((pTryVisibility tks st).2).errors = st.errors := by
  unfold pTryVisibility
  split <;> first | rw [padvance_errors] | rfl

theorem pTryModifier_errors (tks : List Token) (st : PState) :
    ((pTryModifier tks st).2).errors = st.errors := by
  unfold pTryModifier
  split <;> first | rw [padvance_errors] | rfl

theorem readTypeF_errors (tks : List Token) :
    ∀ k acc st, ((readTypeF tks k acc st).2).errors = st.errors := by
  intro k
  induction k with
  | zero => intro acc st; rfl
  | succ k ih =>
    intro acc st
    unfold readTypeF
    split
    · rw [ih, padvance_errors]
    · rfl

theorem preadTypeUntilNewline_errors (tks : List Token)
    (st : PState) :
    ((preadTypeUntilNewline tks st).2).errors = st.errors :=
  readTypeF_errors tks _ [] st

theorem pConsumeOptionalNewline_errors (tks : List Token)
    (st : PState) :
    (pConsumeOptionalNewline tks st).errors = st.errors := by
  unfold pConsumeOptionalNewline
  split
  · rw [padvance_errors]
  · rfl

theorem noteTargetF_errors (tks : List Token) :
    ∀ k name st, ((noteTargetF tks k name st).2).errors =
      st.errors := by
  intro k
  induction k with
  | zero => intro name st; rfl
  | succ k ih =>
    intro name st
    unfold noteTargetF
    split
    · dsimp only
      split
      · rw [ih, padvance_errors, padvance_errors]
      · rw [ih, padvance_errors]
    · rfl

theorem preadNoteTarget_errors (tks : List Token) (st : PState) :
    ((preadNoteTarget tks st).2).errors = st.errors := by
  unfold preadNoteTarget
  split
  · dsimp only
    rw [noteTargetF_errors, padvance_errors]
  · rfl

theorem multiLineNoteF_errors (tks : List Token) :
    ∀ k acc st, ((multiLineNoteF tks k acc st).2).errors =
      st.errors := by
  intro k
  induction k with
  | zero => intro acc st; rfl
  | succ k ih =>
    intro acc st
    unfold multiLineNoteF
    split
    · split
      · rw [ih, padvance_errors]
      · split
        · dsimp only
          split
          · rw [pskipToNextLine_errors, padvance_errors,
              padvance_errors]
          · rw [pskipToNextLine_errors, padvance_errors]
        · dsimp only
          rw [ih, preadRestOfLine_errors]
    · rfl

theorem preadMultiLineNote_errors (tks : List Token) (st : PState) :
    ((preadMultiLineNote tks st).2).errors = st.errors :=
  multiLineNoteF_errors tks _ [] st

end GoUml

namespace GoUml

theorem paddError_errors (st : PState) (p : Pos) (m : String) :
    (paddError st p m).errors = st.errors ++ [⟨p, m⟩] := rfl

theorem parseCommentP_errors (tks : List Token) (st : PState) :
    ((parseCommentP tks st).2).errors = st.errors := by
  unfold parseCommentP
  dsimp only
  rw [padvance_errors]

theorem parseTitleP_errors (tks : List Token) (st : PState) :
    ((parseTitleP tks st).2).errors = st.errors := by
  unfold parseTitleP
  dsimp only
  rw [preadRestOfLine_errors, padvance_errors]

theorem parseHeaderP_errors (tks : List Token) (st : PState) :
    ((parseHeaderP tks st).2).errors = st.errors := by
  unfold parseHeaderP
  dsimp only
  rw [preadRestOfLine_errors, padvance_errors]

theorem parseFooterP_errors (tks : List Token) (st : PState) :
    ((parseFooterP tks st).2).errors = st.errors := by
  unfold parseFooterP
  dsimp only
  rw [preadRestOfLine_errors, padvance_errors]

theorem parseSkinparamP_errors (tks : List Token) (st : PState) :
    ((parseSkinparamP tks st).2).errors = st.errors := by
  unfold parseSkinparamP
  dsimp only
  split
  · rw [preadRestOfLine_errors, padvance_errors, padvance_errors]
  · rw [preadRestOfLine_errors, padvance_errors]

theorem parseHideShowP_errors (isHide : Bool) (tks : List Token)
    (st : PState) :
    ((parseHideShowP isHide tks st).2).errors = st.errors := by
  unfold parseHideShowP
  dsimp only
  rw [preadRestOfLine_errors, padvance_errors]

theorem parseNoteP_errors (tks : List Token) (st : PState) :
    ((parseNoteP tks st).2).errors = st.errors := by
  unfold parseNoteP
  dsimp only
  repeat' split
  all_goals
    simp only [preadRestOfLine_errors, preadMultiLineNote_errors,
      preadNoteTarget_errors, padvance_errors]

theorem parseParticipantP_errors (kind : ParticipantKind)
    (tks : List Token) (st : PState) :
    ((parseParticipantP kind tks st).2).errors = st.errors := by
  unfold parseParticipantP
  dsimp only
  repeat' split
  all_goals
    simp only [pskipToNextLine_errors, preadParticipantName_errors,
      padvance_errors]

theorem parseActivateP_errors (deactivate : Bool) (tks : List Token)
    (st : PState) :
    ((parseActivateP deactivate tks st).2).errors = st.errors := by
  unfold parseActivateP
  dsimp only
  repeat' split
  all_goals
    simp only [pskipToNextLine_errors, padvance_errors]

theorem parseReturnP_errors (tks : List Token) (st : PState) :
    ((parseReturnP tks st).2).errors = st.errors := by
  unfold parseReturnP
  dsimp only
  rw [preadRestOfLine_errors, padvance_errors]

theorem parseAutonumberP_errors (tks : List Token) (st : PState) :
    ((parseAutonumberP tks st).2).errors = st.errors := by
  unfold parseAutonumberP
  dsimp only
  repeat' split
  all_goals
    simp only [pskipToNextLine_errors, padvance_errors]

theorem dividerF_errors (tks : List Token) :
    ∀ k acc st, ((dividerF tks k acc st).2).errors = st.errors := by
  intro k
  induction k with
  | zero => intro acc st; rfl
  | succ k ih =>
    intro acc st
    unfold dividerF
    split
    · split
      · dsimp only
        split
        · simp only [padvance_errors]
        · simp only [ih, padvance_errors]
      · simp only [ih, padvance_errors]
    · rfl

theorem parseDividerP_errors (tks : List Token) (st : PState) :
    ((parseDividerP tks st).2).errors = st.errors := by
  unfold parseDividerP
  dsimp only
  repeat' split
  all_goals simp only [dividerF_errors, padvance_errors]

theorem delayF_errors (tks : List Token) :
    ∀ k acc st, ((delayF tks k acc st).2).errors = st.errors := by
  intro k
  induction k with
  | zero => intro acc st; rfl
  | succ k ih =>
    intro acc st
    unfold delayF
    repeat' split
    all_goals simp only [ih, padvance_errors]

theorem parseDelayP_errors (tks : List Token) (st : PState) :
    ((parseDelayP tks st).2).errors = st.errors := by
  unfold parseDelayP
  dsimp only
  repeat' split
  all_goals simp only [delayF_errors, padvance_errors]

theorem parseMessageP_errors (pos : Pos) (from' : String)
    (tks : List Token) (st : PState) :
    ((parseMessageP pos from' tks st).2).errors = st.errors := by
  unfold parseMessageP
  dsimp only
  repeat' split
  all_goals
    simp only [preadRestOfLine_errors, pskipToNextLine_errors,
      padvance_errors]

theorem parseRelationshipP_errors (pos : Pos)
    (leftName leftCard : String) (tks : List Token) (st : PState) :
    ((parseRelationshipP pos leftName leftCard tks st).2).errors =
      st.errors := by
  unfold parseRelationshipP
  dsimp only
  repeat' split
  all_goals
    simp only [preadRestOfLine_errors, preadClassName_errors,
      padvance_errors]

theorem methodParamsF_errors (tks : List Token) :
    ∀ k acc st, ((methodParamsF tks k acc st).2).errors =
      st.errors := by
  intro k
  induction k with
  | zero => intro acc st; rfl
  | succ k ih =>
    intro acc st
    unfold methodParamsF
    split
    · rw [ih, padvance_errors]
    · rfl

theorem parseMethodAfterNameP_errors (pos : Pos) (vis : Visibility)
    (mod : Modifier) (name : String) (tks : List Token)
    (st : PState) :
    ((parseMethodAfterNameP pos vis mod name tks st).2).errors =
      st.errors := by
  unfold parseMethodAfterNameP
  dsimp only
  repeat' split
  all_goals
    simp only [pConsumeOptionalNewline_errors,
      preadTypeUntilNewline_errors, methodParamsF_errors,
      padvance_errors]

theorem parseMemberP_errors (tks : List Token) (st : PState) :
    ((parseMemberP tks st).2).errors = st.errors := by
  unfold parseMemberP
  dsimp only
  repeat' split
  all_goals
    simp only [pConsumeOptionalNewline_errors,
      preadTypeUntilNewline_errors, parseMethodAfterNameP_errors,
      pskipToNextLine_errors, preadRestOfLine_errors,
      pTryModifier_errors, pTryVisibility_errors, padvance_errors]

theorem classBodyF_errors (tks : List Token) :
    ∀ k acc st, ((classBodyF tks k acc st).2).errors = st.errors := by
  intro k
  induction k with
  | zero => intro acc st; rfl
  | succ k ih =>
    intro acc st
    unfold classBodyF
    split
    · dsimp only
      split
      · simp only [pskipNewlines_errors]
      · split
        · simp only [ih, padvance_errors, pskipNewlines_errors]
        · split <;>
            simp only [ih, parseMemberP_errors, pskipNewlines_errors]
    · rfl

end GoUml

namespace GoUml

theorem errExt_iff {st a b : PState} (h : a.errors = b.errors) :
    ErrExt st a ↔ ErrExt st b := by
  unfold ErrExt
  rw [h]

theorem errExt_seqMode (st : PState) :
    ErrExt st { st with seqMode := true } := ⟨[], by simp⟩

theorem seqMode_set_errors (st : PState) :
    ({ st with seqMode := true } : PState).errors = st.errors := rfl

theorem parseClassBodyP_errExt (tks : List Token) (st : PState) :
    ErrExt st ((parseClassBodyP tks st).2) := by
  unfold parseClassBodyP
  dsimp only
  split
  · exact errExt_of_eq (by
      simp only [padvance_errors, classBodyF_errors,
        pskipNewlines_errors])
  · exact errExt_trans
      (errExt_of_eq (by
        simp only [classBodyF_errors, pskipNewlines_errors,
          padvance_errors]))
      (errExt_addError _ _ _)

theorem parseClassDefP_errExt (abstract : Bool) (tks : List Token)
    (st : PState) : ErrExt st ((parseClassDefP abstract tks st).2) := by
  unfold parseClassDefP
  dsimp only
  repeat' split
  all_goals
    first
      | exact errExt_trans
          (errExt_of_eq (by
            simp only [padvance_errors, pTryStereotype_errors,
              preadClassName_errors]))
          (parseClassBodyP_errExt tks _)
      | (rw [errExt_iff (pskipToNextLine_errors tks _)]
         exact errExt_trans
           (errExt_of_eq (by simp only [padvance_errors]))
           (errExt_addError _ _ _))
      | exact errExt_of_eq (by
          simp only [pskipToNextLine_errors, padvance_errors,
            pTryStereotype_errors, preadClassName_errors])

theorem parseInterfaceDefP_errExt (tks : List Token) (st : PState) :
    ErrExt st ((parseInterfaceDefP tks st).2) := by
  unfold parseInterfaceDefP
  dsimp only
  repeat' split
  all_goals
    first
      | exact errExt_trans
          (errExt_of_eq (by
            simp only [padvance_errors, pTryStereotype_errors,
              preadClassName_errors]))
          (parseClassBodyP_errExt tks _)
      | (rw [errExt_iff (pskipToNextLine_errors tks _)]
         exact errExt_trans
           (errExt_of_eq (by simp only [padvance_errors]))
           (errExt_addError _ _ _))
      | exact errExt_of_eq (by
          simp only [pskipToNextLine_errors, padvance_errors,
            pTryStereotype_errors, preadClassName_errors])

theorem parseEnumDefP_errExt (tks : List Token) (st : PState) :
    ErrExt st ((parseEnumDefP tks st).2) := by
  unfold parseEnumDefP
  dsimp only
  repeat' split
  all_goals
    first
      | exact errExt_trans
          (errExt_of_eq (by
            simp only [padvance_errors, pTryStereotype_errors,
              preadClassName_errors]))
          (parseClassBodyP_errExt tks _)
      | (rw [errExt_iff (pskipToNextLine_errors tks _)]
         exact errExt_trans
           (errExt_of_eq (by simp only [padvance_errors]))
           (errExt_addError _ _ _))
      | exact errExt_of_eq (by
          simp only [pskipToNextLine_errors, padvance_errors,
            pTryStereotype_errors, preadClassName_errors])

theorem parseAbstractP_errExt (tks : List Token) (st : PState) :
    ErrExt st ((parseAbstractP tks st).2) := by
  unfold parseAbstractP
  dsimp only
  repeat' split
  all_goals
    first
      | exact errExt_trans
          (errExt_of_eq (by simp only [padvance_errors]))
          (parseClassDefP_errExt true tks _)
      | exact errExt_trans
          (errExt_of_eq (by
            simp only [padvance_errors, pTryStereotype_errors,
              preadClassName_errors]))
          (parseClassBodyP_errExt tks _)
      | exact errExt_of_eq (by
          simp only [padvance_errors, pTryStereotype_errors,
            preadClassName_errors])

theorem parseSequenceIdentStatementP_errExt (tks : List Token)
    (st : PState) :
    ErrExt st ((parseSequenceIdentStatementP tks st).2) := by
  unfold parseSequenceIdentStatementP
  dsimp only
  split
  · exact errExt_of_eq (by
      simp only [parseMessageP_errors, padvance_errors])
  · rw [errExt_iff (pskipToNextLine_errors tks _)]
    exact errExt_trans
      (errExt_of_eq (by simp only [padvance_errors]))
      (errExt_addError _ _ _)

theorem parseIdentStatementP_errExt (tks : List Token) (st : PState) :
    ErrExt st ((parseIdentStatementP tks st).2) := by
  unfold parseIdentStatementP
  dsimp only
  split
  · exact parseSequenceIdentStatementP_errExt tks st
  · repeat' split
    all_goals
      exact errExt_of_eq (by
        simp only [parseRelationshipP_errors, padvance_errors,
          preadClassName_errors, pskipToNextLine_errors])

theorem fragStmtsF_errExt (ps : Bool → PState → Option Stmt × PState)
    (tks : List Token)
    (hps : ∀ inF st, ErrExt st ((ps inF st).2)) :
    ∀ k acc st, ErrExt st ((fragStmtsF ps tks k acc st).2) := by
  intro k
  induction k with
  | zero => intro acc st; exact errExt_of_eq rfl
  | succ k ih =>
    intro acc st
    unfold fragStmtsF
    split
    · dsimp only
      split
      · exact errExt_of_eq (pskipNewlines_errors tks st)
      · split
        · exact errExt_trans
            (errExt_trans
              (errExt_of_eq (pskipNewlines_errors tks st))
              (hps true _))
            (ih _ _)
        · exact errExt_trans
            (errExt_trans
              (errExt_of_eq (pskipNewlines_errors tks st))
              (hps true _))
            (ih _ _)
    · exact errExt_of_eq rfl

theorem parseElsePartG_errExt
    (ps : Bool → PState → Option Stmt × PState) (tks : List Token)
    (hps : ∀ inF st, ErrExt st ((ps inF st).2)) (st : PState) :
    ErrExt st ((parseElsePartG ps tks st).2) := by
  unfold parseElsePartG
  dsimp only
  exact errExt_trans
    (errExt_of_eq (by
      simp only [pskipNewlines_errors, preadRestOfLine_errors,
        padvance_errors]))
    (fragStmtsF_errExt ps tks hps _ _ _)

theorem fragElseF_errExt (ps : Bool → PState → Option Stmt × PState)
    (tks : List Token)
    (hps : ∀ inF st, ErrExt st ((ps inF st).2)) :
    ∀ k acc st, ErrExt st ((fragElseF ps tks k acc st).2) := by
  intro k
  induction k with
  | zero => intro acc st; exact errExt_of_eq rfl
  | succ k ih =>
    intro acc st
    unfold fragElseF
    split
    · dsimp only
      exact errExt_trans (parseElsePartG_errExt ps tks hps st)
        (ih _ _)
    · exact errExt_of_eq rfl

theorem parseFragmentG_errExt
    (ps : Bool → PState → Option Stmt × PState) (kind : FragmentKind)
    (tks : List Token)
    (hps : ∀ inF st, ErrExt st ((ps inF st).2)) (st : PState) :
    ErrExt st ((parseFragmentG ps kind tks st).2) := by
  unfold parseFragmentG
  dsimp only
  split
  · rw [errExt_iff (pskipToNextLine_errors tks _),
      errExt_iff (padvance_errors tks _)]
    exact errExt_trans
      (errExt_trans
        (errExt_of_eq (by
          simp only [pskipNewlines_errors, preadRestOfLine_errors,
            padvance_errors]))
        (fragStmtsF_errExt ps tks hps _ _ _))
      (fragElseF_errExt ps tks hps _ _ _)
  · exact errExt_trans
      (errExt_trans
        (errExt_trans
          (errExt_of_eq (by
            simp only [pskipNewlines_errors, preadRestOfLine_errors,
              padvance_errors]))
          (fragStmtsF_errExt ps tks hps _ _ _))
        (fragElseF_errExt ps tks hps _ _ _))
      (errExt_addError _ _ _)

theorem pkgStmtsF_errExt (ps : Bool → PState → Option Stmt × PState)
    (tks : List Token)
    (hps : ∀ inF st, ErrExt st ((ps inF st).2)) :
    ∀ k acc st, ErrExt st ((pkgStmtsF ps tks k acc st).2) := by
  intro k
  induction k with
  | zero => intro acc st; exact errExt_of_eq rfl
  | succ k ih =>
    intro acc st
    unfold pkgStmtsF
    split
    · dsimp only
      split
      · exact errExt_of_eq (pskipNewlines_errors tks st)
      · split
        · exact errExt_trans
            (errExt_trans
              (errExt_of_eq (pskipNewlines_errors tks st))
              (hps false _))
            (ih _ _)
        · exact errExt_trans
            (errExt_trans
              (errExt_of_eq (pskipNewlines_errors tks st))
              (hps false _))
            (ih _ _)
    · exact errExt_of_eq rfl

theorem parsePackageG_errExt
    (ps : Bool → PState → Option Stmt × PState) (tks : List Token)
    (hps : ∀ inF st, ErrExt st ((ps inF st).2)) (st : PState) :
    ErrExt st ((parsePackageG ps tks st).2) := by
  unfold parsePackageG
  dsimp only
  repeat' split
  all_goals
    first
      | (rw [errExt_iff (padvance_errors tks _)]
         exact errExt_trans
           (errExt_of_eq (by
             simp only [pskipNewlines_errors, padvance_errors,
               preadClassName_errors]))
           (pkgStmtsF_errExt ps tks hps _ _ _))
      | exact errExt_trans
          (errExt_trans
            (errExt_of_eq (by
              simp only [pskipNewlines_errors, padvance_errors,
                preadClassName_errors]))
            (pkgStmtsF_errExt ps tks hps _ _ _))
          (errExt_addError _ _ _)
      | exact errExt_of_eq (by
          simp only [pskipNewlines_errors, padvance_errors,
            preadClassName_errors])

theorem parseStatementInContextG_errExt
    (ps : Bool → PState → Option Stmt × PState) (tks : List Token)
    (hps : ∀ inF st, ErrExt st ((ps inF st).2)) (inFragment : Bool)
    (st : PState) :
    ErrExt st ((parseStatementInContextG ps tks inFragment st).2) := by
  unfold parseStatementInContextG
  dsimp only
  repeat' split
  all_goals
    first
      | exact parseIdentStatementP_errExt tks st
      | exact parseClassDefP_errExt false tks st
      | exact parseAbstractP_errExt tks st
      | exact parseInterfaceDefP_errExt tks st
      | exact parseEnumDefP_errExt tks st
      | exact parsePackageG_errExt ps tks hps st
      | exact errExt_trans (errExt_seqMode st)
          (parseFragmentG_errExt ps _ tks hps _)
      | (rw [errExt_iff (pskipToNextLine_errors tks _)]
         exact errExt_addError _ _ _)
      | exact errExt_of_eq rfl
      | exact errExt_of_eq (by
          simp only [parseCommentP_errors, parseTitleP_errors,
            parseHeaderP_errors, parseFooterP_errors,
            parseSkinparamP_errors, parseHideShowP_errors,
            parseNoteP_errors, parseParticipantP_errors,
            parseActivateP_errors, parseReturnP_errors,
            parseAutonumberP_errors, parseDividerP_errors,
            parseDelayP_errors, seqMode_set_errors])

theorem parseStmtF_errExt (tks : List Token) :
    ∀ f inF st, ErrExt st ((parseStmtF tks f inF st).2) := by
  intro f
  induction f with
  | zero => intro inF st; exact errExt_of_eq rfl
  | succ f ih =>
    intro inF st
    unfold parseStmtF
    exact parseStatementInContextG_errExt (parseStmtF tks f) tks ih
      inF st

theorem parseStatementP_errExt (tks : List Token) (st : PState) :
    ErrExt st ((parseStatementP tks st).2) := by
  unfold parseStatementP parseStatementInContextP
  exact parseStmtF_errExt tks _ false st

theorem diagStmtsF_errExt (tks : List Token) :
    ∀ k acc st, ErrExt st ((diagStmtsF tks k acc st).2) := by
  intro k
  induction k with
  | zero => intro acc st; exact errExt_of_eq rfl
  | succ k ih =>
    intro acc st
    unfold diagStmtsF
    split
    · dsimp only
      split
      · exact errExt_of_eq (pskipNewlines_errors tks st)
      · split
        · exact errExt_trans
            (errExt_trans
              (errExt_of_eq (pskipNewlines_errors tks st))
              (parseStatementP_errExt tks _))
            (ih _ _)
        · exact errExt_trans
            (errExt_trans
              (errExt_of_eq (pskipNewlines_errors tks st))
              (parseStatementP_errExt tks _))
            (ih _ _)
    · exact errExt_of_eq rfl

theorem diagClose_errExt (tks : List Token) (st : PState) :
    ErrExt st (diagClose tks st) := by
  unfold diagClose
  split
  · exact errExt_of_eq (padvance_errors tks st)
  · split
    · exact errExt_addError _ _ _
    · exact errExt_of_eq rfl

theorem paddError_self_mem (st : PState) (p : Pos) (m : String) :
    (⟨p, m⟩ : PError) ∈ (paddError st p m).errors := by
  rw [paddError_errors]
  exact List.mem_append_right _ (List.mem_singleton_self _)

theorem string_data_append (s t : String) :
    (s ++ t).data = s.data ++ t.data := rfl

theorem expected_startuml_in_msg (x : String) :
    goContains ("expected @startuml, got " ++ x)
      "expected @startuml" = true := by
  rw [goContains_iff]
  refine ⟨[], (", got ").data ++ x.data, ?_⟩
  rw [List.nil_append, ← List.append_assoc, string_data_append]
  rfl

end GoUml

namespace GoUml

/-- C2: the parser never fails catastrophically: `Parse` (and the
public `gouml.Parse` facade) is a total function returning a diagram
and a diagnostics list for every input. The completely empty input
yields the empty diagram with no diagnostics, and any input whose
first token after optional leading blank lines is neither `@startuml`
nor end-of-input yields at least one diagnostic whose message contains
"expected @startuml". -/
theorem parse_never_fails :
    ((Parse "").1 = ({} : Diagram) ∧ (Parse "").2 = []) ∧
    ∀ input : String,
      (pcurrent (Tokenize input)
        (pskipNewlines (Tokenize input) {})).type ≠
        TokenType.startUML →
      (pcurrent (Tokenize input)
        (pskipNewlines (Tokenize input) {})).type ≠ TokenType.eof →
      ∃ e ∈ (goumlParse input).2,
        goContains e.message "expected @startuml" = true := by
  constructor
  · exact ⟨rfl, rfl⟩
  · intro input hne hneof
    unfold goumlParse Parse parseDiagram
    dsimp only
    rw [if_neg hne, if_neg hneof]
    dsimp only
    exact ⟨_,
      List.mem_map_of_mem _
        (errExt_mem
          (errExt_trans
            (errExt_trans
              (errExt_of_eq
                (pskipToNextLine_errors (Tokenize input) _))
              (diagStmtsF_errExt (Tokenize input) _ _ _))
            (diagClose_errExt (Tokenize input) _))
          (paddError_self_mem _ _ _)),
      expected_startuml_in_msg _⟩

/-- Witness: `"not a diagram"` starts with a non-`@startuml`,
non-end-of-input token, and parsing it produces a diagnostic whose
message contains "expected @startuml". -/
theorem parse_never_fails_w :
    ((pcurrent (Tokenize "not a diagram")
        (pskipNewlines (Tokenize "not a diagram") {})).type ≠
        TokenType.startUML ∧
      (pcurrent (Tokenize "not a diagram")
        (pskipNewlines (Tokenize "not a diagram") {})).type ≠
        TokenType.eof) ∧
    ∃ e ∈ (goumlParse "not a diagram").2,
      goContains e.message "expected @startuml" = true :=
  ⟨⟨by decide, by decide⟩,
    parse_never_fails.2 "not a diagram" (by decide) (by decide)⟩

end GoUml
